import Mathlib

/-!
# MPD audio pipeline: output control, chunk pipe, mixer aggregation, PCM export

A shallow embedding of the parts of the daemon that the properties below are
about.  Unsigned 32-bit quantities are natural numbers reduced modulo `2^32`
where the C++ arithmetic can wrap; bytes are natural numbers below `256`.
-/

set_option autoImplicit false

namespace Mpd

/-! ## Sample formats and `PcmExport::Params` -/

/-- The sample formats named by `test_pcm_export.cxx` and `AlsaOutputPlugin.cxx`. -/
inductive SampleFormat where
  | UNDEFINED
  | S8
  | S16
  | S24_P32
  | S32
  | FLOAT
  | DSD
  deriving DecidableEq, Repr

/-- Modelled from the spec: `AudioFormat.hxx` (`sample_format_size`) is not among the
sources; the size in bytes of one sample of each format ("S24_in_32" occupies four
bytes, DSD and 8-bit samples one byte). -/
def sample_format_size : SampleFormat → Nat
  | .UNDEFINED => 0
  | .S8 => 1
  | .S16 => 2
  | .S24_P32 => 4
  | .S32 => 4
  | .FLOAT => 4
  | .DSD => 1

/-- The flags of `PcmExport::Params` as they are set by `AlsaOutputPlugin.cxx` and
`test_pcm_export.cxx`; a default-constructed value has every flag cleared. -/
structure Params where
  alsa_channel_order : Bool := false
  dsd_u16 : Bool := false
  dsd_u32 : Bool := false
  dop : Bool := false
  shift8 : Bool := false
  pack24 : Bool := false
  reverse_endian : Bool := false
  deriving DecidableEq, Repr

/-- Modelled from the spec: `PcmExport.cxx` (`Params::CalcOutputSampleRate`) is not among
the sources.  "dsdU16: output rate = input rate / 2", "dsdU32: rate = input / 4",
"dop: rate = input / 2"; the rate is an `unsigned`, so the division truncates. -/
def Params.CalcOutputSampleRate (p : Params) (sample_rate : Nat) : Nat :=
  let r0 := sample_rate % 2 ^ 32
  let r1 := if p.dsd_u16 then r0 / 2 else r0
  let r2 := if p.dsd_u32 then r1 / 4 else r1
  if p.dop then r2 / 2 else r2

/-- Modelled from the spec: `PcmExport.cxx` (`Params::CalcInputSampleRate`) is not among
the sources.  It "inverts that mapping": what `CalcOutputSampleRate` divides by is
multiplied back, in `unsigned` arithmetic. -/
def Params.CalcInputSampleRate (p : Params) (sample_rate : Nat) : Nat :=
  let r0 := sample_rate % 2 ^ 32
  let r1 := if p.dsd_u16 then (r0 * 2) % 2 ^ 32 else r0
  let r2 := if p.dsd_u32 then (r1 * 4) % 2 ^ 32 else r1
  if p.dop then (r2 * 2) % 2 ^ 32 else r2

/-- The factor by which the set DSD flags reduce the sample rate: 2 for `dsd_u16`,
4 for `dsd_u32`, 2 for `dop`, multiplied when several are set. -/
def Params.rateDivisor (p : Params) : Nat :=
  (if p.dsd_u16 then 2 else 1) * (if p.dsd_u32 then 4 else 1) * (if p.dop then 2 else 1)

/-! ## Output control (`OutputControl.cxx`) -/

/-- The audio format tuple: sample rate in Hz, sample format, channel count. -/
structure AudioFormat where
  sample_rate : Nat := 0
  format : SampleFormat := SampleFormat.UNDEFINED
  channels : Nat := 0
  deriving DecidableEq, Repr

/-- The commands the client side hands to the output thread in `OutputControl.cxx`. -/
inductive Command where
  | NONE
  | ENABLE
  | DISABLE
  | OPEN
  | CLOSE
  | PAUSE
  | DRAIN
  | CANCEL
  | KILL
  deriving DecidableEq, Repr

/-- What a client-side call of `OutputControl.cxx` does that is visible outside the
`AudioOutput` fields: a command given to the output thread, the thread being started,
a mixer call, or a bare `cond.signal()`. -/
inductive Event where
  | command (c : Command)
  | start_thread
  | mixer_open
  | mixer_auto_close
  | signal
  | mixer_set_volume (volume : Nat)
  deriving DecidableEq, Repr

/-- The mixer of an output as `MixerAll.cxx` sees it: `get_volume` is what
`mixer_get_volume` returns, `none` standing for a thrown `std::runtime_error`;
`set_volume_throws` lists the volumes for which `mixer_set_volume` throws. -/
structure Mixer where
  get_volume : Option Int := none
  set_volume_throws : List Nat := []
  deriving DecidableEq, Repr

/-- The fields of `AudioOutput` that `OutputControl.cxx` and `MixerAll.cxx` read and
write.  `is_open` is the C++ field `open`; `fail_timer` is the `PeriodClock`, `none`
when undefined and otherwise the time stamp of the failure; `log` collects the events
of the calls made so far, oldest first; `plugin_has_pause` tells whether `plugin.pause`
is not null; `command` is the command slot, `NONE` when the last command is finished. -/
structure AudioOutput where
  enabled : Bool := false
  really_enabled : Bool := false
  is_open : Bool := false
  pause : Bool := false
  always_on : Bool := false
  allow_play : Bool := true
  thread_defined : Bool := false
  mixer : Option Mixer := none
  fail_timer : Option Nat := none
  request_audio_format : AudioFormat := {}
  request_pipe : Option Nat := none
  log : List Event := []
  plugin_has_pause : Bool := true
  command : Command := Command.NONE
  deriving DecidableEq, Repr

/-- The duration `REOPEN_AFTER = std::chrono::seconds(10)`, in ticks of
`PeriodClock::Duration`; `hz` is the number of ticks in a second. -/
def REOPEN_AFTER (hz : Nat) : Nat := 10 * hz

/-- Modelled from the spec: `util/PeriodClock.hxx` is not among the sources.
`Check(Δ)` on a clock stamped at `T` holds when "time >= T+Δ". -/
def PeriodClock_Check (last now duration : Nat) : Bool :=
  decide (last + duration ≤ now)

/-- The events an output has logged that are commands, in order. -/
def AudioOutput.commands (ao : AudioOutput) : List Command :=
  ao.log.filterMap fun e => match e with
    | .command c => some c
    | _ => none

/-- The call `AudioOutput::StartThread` as far as the client side sees it. -/
def AudioOutput.StartThread (ao : AudioOutput) : AudioOutput :=
  { ao with thread_defined := true, log := ao.log ++ [Event.start_thread] }

/-- The method `AudioOutput::CommandWait`: hand `cmd` to the output thread and wait until it has
finished it.  `thread cmd` is what the output thread does to the fields meanwhile. -/
def AudioOutput.CommandWait (thread : Command → AudioOutput → AudioOutput)
    (ao : AudioOutput) (cmd : Command) : AudioOutput :=
  thread cmd { ao with log := ao.log ++ [Event.command cmd] }

/-- The method `AudioOutput::Open`. -/
def AudioOutput.Open (thread : Command → AudioOutput → AudioOutput)
    (ao : AudioOutput) (audio_format : AudioFormat) (mp : Nat) : Bool × AudioOutput :=
  let ao1 := { ao with fail_timer := none }
  if ao1.is_open && decide (audio_format = ao1.request_audio_format) && !ao1.pause then
    (true, ao1)
  else
    let ao2 := { ao1 with request_audio_format := audio_format, request_pipe := some mp }
    let ao3 := if !ao2.thread_defined then ao2.StartThread else ao2
    let ao4 := ao3.CommandWait thread Command.OPEN
    let open2 := ao4.is_open
    let ao5 := if open2 && ao4.mixer.isSome then
        { ao4 with log := ao4.log ++ [Event.mixer_open] } else ao4
    (open2, ao5)

/-- The method `AudioOutput::CloseWait`. -/
def AudioOutput.CloseWait (thread : Command → AudioOutput → AudioOutput)
    (ao : AudioOutput) : AudioOutput :=
  let ao1 := if ao.mixer.isSome then
      { ao with log := ao.log ++ [Event.mixer_auto_close] } else ao
  if ao1.is_open then ao1.CommandWait thread Command.CLOSE
  else { ao1 with fail_timer := none }

/-- The method `AudioOutput::LockUpdate`, called at time `now` (in ticks of the period clock). -/
def AudioOutput.LockUpdate (thread : Command → AudioOutput → AudioOutput)
    (hz now : Nat) (ao : AudioOutput) (audio_format : AudioFormat) (mp : Nat)
    (force : Bool) : Bool × AudioOutput :=
  if ao.enabled && ao.really_enabled then
    if force || !ao.fail_timer.isSome ||
        PeriodClock_Check (ao.fail_timer.getD 0) now (REOPEN_AFTER hz * 1000) then
      ao.Open thread audio_format mp
    else
      (false, ao)
  else if ao.is_open then
    (false, ao.CloseWait thread)
  else
    (false, ao)

/-- The method `AudioOutput::CommandAsync`: store `cmd` in the command slot and signal
the output thread, without waiting. -/
def AudioOutput.CommandAsync (ao : AudioOutput) (cmd : Command) : AudioOutput :=
  { ao with command := cmd, log := ao.log ++ [Event.command cmd] }

/-- The method `AudioOutput::LockPauseAsync`. -/
def AudioOutput.LockPauseAsync (ao : AudioOutput) : AudioOutput :=
  let ao1 := if ao.mixer.isSome && !ao.plugin_has_pause then
      { ao with log := ao.log ++ [Event.mixer_auto_close] } else ao
  if ao1.is_open then ao1.CommandAsync Command.PAUSE else ao1

/-- The method `AudioOutput::LockCloseWait`. -/
def AudioOutput.LockCloseWait (thread : Command → AudioOutput → AudioOutput)
    (ao : AudioOutput) : AudioOutput :=
  ao.CloseWait thread

/-- The method `AudioOutput::LockRelease`. -/
def AudioOutput.LockRelease (thread : Command → AudioOutput → AudioOutput)
    (ao : AudioOutput) : AudioOutput :=
  if ao.always_on then ao.LockPauseAsync else ao.LockCloseWait thread

/-- An output thread that opens the device whenever it is told to: used to run the
client-side code on concrete inputs. -/
def openingThread : Command → AudioOutput → AudioOutput
  | .OPEN, ao => { ao with is_open := true, pause := false }
  | .CLOSE, ao => { ao with is_open := false }
  | _, ao => ao

/-- An enabled output whose device failed at time `T`. -/
def failedOutput (T : Nat) : AudioOutput :=
  { enabled := true, really_enabled := true, thread_defined := true, fail_timer := some T }

/-! ## The chunk pipe (`MusicPipe.hxx`) -/

/-- Modelled from the spec: `MusicPipe.cxx` is not among the sources, only the class
declaration.  The pipe is the "singly linked FIFO of chunks with head and tail":
`chain` lists the chunks linked from `head`, head first, and `size` is the counter
of the class (at most the chunk pool's capacity, so it does not wrap). -/
structure MusicPipe (α : Type) where
  chain : List α := []
  size : Nat := 0

/-- The method `MusicPipe::Peek`: the head, `none` for `nullptr`. -/
def MusicPipe.Peek {α : Type} (p : MusicPipe α) : Option α := p.chain.head?

/-- The method `MusicPipe::GetSize`. -/
def MusicPipe.GetSize {α : Type} (p : MusicPipe α) : Nat := p.size

/-- The method `MusicPipe::IsEmpty`. -/
def MusicPipe.IsEmpty {α : Type} (p : MusicPipe α) : Bool := p.GetSize == 0

/-- Modelled from the spec: `MusicPipe.cxx` (`MusicPipe::Push`) is not among the
sources; "`push(chunk)` appends to tail". -/
def MusicPipe.Push {α : Type} (p : MusicPipe α) (chunk : α) : MusicPipe α :=
  { chain := p.chain ++ [chunk], size := p.size + 1 }

/-- Modelled from the spec: `MusicPipe.cxx` (`MusicPipe::Shift`) is not among the
sources; "`shift()` detaches and returns head", `none` (`nullptr`) on an empty pipe. -/
def MusicPipe.Shift {α : Type} (p : MusicPipe α) : Option α × MusicPipe α :=
  match p.chain with
  | [] => (none, p)
  | chunk :: rest => (some chunk, { chain := rest, size := p.size - 1 })

/-- A call on a pipe other than `Clear`. -/
inductive PipeOp (α : Type) where
  | Push (chunk : α)
  | Shift

/-- Run a sequence of `Push` and `Shift` calls; the result lists what every `Shift`
returned, in call order, and the pipe afterwards. -/
def MusicPipe.run {α : Type} : MusicPipe α → List (PipeOp α) → List (Option α) × MusicPipe α
  | p, [] => ([], p)
  | p, PipeOp.Push chunk :: ops => MusicPipe.run (p.Push chunk) ops
  | p, PipeOp.Shift :: ops =>
    let r := MusicPipe.run p.Shift.2 ops
    (p.Shift.1 :: r.1, r.2)

/-- The chunks a sequence of calls pushes, in call order. -/
def PipeOp.pushed {α : Type} : List (PipeOp α) → List α
  | [] => []
  | PipeOp.Push chunk :: ops => chunk :: PipeOp.pushed ops
  | PipeOp.Shift :: ops => PipeOp.pushed ops

/-- The chunks of the non-null `Shift` results, in order. -/
def shiftedChunks {α : Type} (results : List (Option α)) : List α :=
  results.filterMap id

/-- The loop of `MusicPipe::Clear`: shift chunks, at most `n` of them, until the pipe
yields none; the shifted chunks go back to the buffer. -/
def MusicPipe.clearLoop {α : Type} : Nat → MusicPipe α → List α × MusicPipe α
  | 0, p => ([], p)
  | n + 1, p =>
    match p.Shift with
    | (none, q) => ([], q)
    | (some chunk, q) =>
      let r := MusicPipe.clearLoop n q
      (chunk :: r.1, r.2)

/-- Modelled from the spec: `MusicPipe.cxx` (`MusicPipe::Clear`) is not among the
sources; "`clear(pool)` returns all to the pool": the chunks are shifted one by one
until none is left.  The result lists the returned chunks and the pipe afterwards. -/
def MusicPipe.Clear {α : Type} (p : MusicPipe α) : List α × MusicPipe α :=
  MusicPipe.clearLoop p.chain.length p

/-- A call on a pipe. -/
inductive PipeCall (α : Type) where
  | Push (chunk : α)
  | Shift
  | Clear

/-- Run a sequence of calls on a pipe; the result lists the chunks that left the pipe
through `Shift` or `Clear`, in order, and the pipe afterwards. -/
def MusicPipe.exec {α : Type} : MusicPipe α → List (PipeCall α) → List α × MusicPipe α
  | p, [] => ([], p)
  | p, PipeCall.Push chunk :: calls => MusicPipe.exec (p.Push chunk) calls
  | p, PipeCall.Shift :: calls =>
    let r := MusicPipe.exec p.Shift.2 calls
    (p.Shift.1.toList ++ r.1, r.2)
  | p, PipeCall.Clear :: calls =>
    let r := MusicPipe.exec p.Clear.2 calls
    (p.Clear.1 ++ r.1, r.2)

/-- The number of `Push` calls in a sequence of calls. -/
def PipeCall.pushCount {α : Type} : List (PipeCall α) → Nat
  | [] => 0
  | PipeCall.Push _ :: calls => PipeCall.pushCount calls + 1
  | _ :: calls => PipeCall.pushCount calls

/-! ## Volume aggregation (`MixerAll.cxx`) -/

/-- The function `output_mixer_get_volume`. -/
def output_mixer_get_volume (ao : AudioOutput) : Int :=
  if !ao.enabled then -1
  else match ao.mixer with
    | none => -1
    | some mixer =>
      match mixer.get_volume with
      | some volume => volume
      | none => -1

/-- The loop of `MultipleOutputs::GetVolume`: the pair `(ok, total)` after visiting
the outputs; `ok` is an `unsigned` and wraps, `total` is an `int`. -/
def GetVolume_loop : List AudioOutput → Nat × Int → Nat × Int
  | [], acc => acc
  | ao :: rest, (ok, total) =>
    let volume := output_mixer_get_volume ao
    if volume ≥ 0 then GetVolume_loop rest ((ok + 1) % 2 ^ 32, total + volume)
    else GetVolume_loop rest (ok, total)

/-- The value of an `unsigned` converted to `int`. -/
def unsigned_to_int (u : Nat) : Int :=
  if u % 2 ^ 32 < 2 ^ 31 then ((u % 2 ^ 32 : Nat) : Int) else ((u % 2 ^ 32 : Nat) : Int) - 2 ^ 32

/-- The method `MultipleOutputs::GetVolume`.  In `total / ok` the `int` is converted to
`unsigned` before the division, and the quotient is converted back for the return. -/
def MultipleOutputs_GetVolume (outputs : List AudioOutput) : Int :=
  let r := GetVolume_loop outputs (0, 0)
  if r.1 = 0 then -1
  else unsigned_to_int ((r.2 % 2 ^ 32).toNat / r.1)

/-- The function `output_mixer_set_volume`: the result and the output afterwards, the
call of `mixer_set_volume` being recorded in the log of the output. -/
def output_mixer_set_volume (ao : AudioOutput) (volume : Nat) : Bool × AudioOutput :=
  if !ao.enabled then (false, ao)
  else match ao.mixer with
    | none => (false, ao)
    | some mixer =>
      let ao1 := { ao with log := ao.log ++ [Event.mixer_set_volume volume] }
      if volume ∈ mixer.set_volume_throws then (false, ao1) else (true, ao1)

/-- The loop of `MultipleOutputs::SetVolume`, `success` being the flag so far. -/
def SetVolume_loop : List AudioOutput → Nat → Bool → Bool × List AudioOutput
  | [], _, success => (success, [])
  | ao :: rest, volume, success =>
    let r := output_mixer_set_volume ao volume
    let rr := SetVolume_loop rest volume (r.1 || success)
    (rr.1, r.2 :: rr.2)

/-- The method `MultipleOutputs::SetVolume`: the result and the outputs afterwards. -/
def MultipleOutputs_SetVolume (outputs : List AudioOutput) (volume : Nat) :
    Bool × List AudioOutput :=
  SetVolume_loop outputs volume false

/-- The volumes that count: those of the outputs that are enabled, have a mixer, and
whose mixer read returned a non-negative value without throwing. -/
def reportedVolume (ao : AudioOutput) : Option Int :=
  if ao.enabled then
    match ao.mixer with
    | some mixer =>
      match mixer.get_volume with
      | some volume => if 0 ≤ volume then some volume else none
      | none => none
    | none => none
  else none

/-- The counted volumes of a list of outputs, in order. -/
def reportedVolumes (outputs : List AudioOutput) : List Int :=
  outputs.filterMap reportedVolume

/-! ## PCM export (`PcmExport`) -/

/-- A byte of a PCM buffer. -/
abbrev Byte := Fin 256

/-- The bytes of the `k`-byte unsigned word `w` as they lie in memory: least
significant byte first on a little-endian host, most significant first when `be`
(`IsBigEndian()`) holds. -/
def wordBytes (be : Bool) (k : Nat) (w : Nat) : List Byte :=
  let lsb_first := (List.range k).map fun i => (Fin.ofNat (w / 256 ^ i) : Byte)
  if be then lsb_first.reverse else lsb_first

/-- The unsigned value of a word whose bytes lie in memory as `bytes`. -/
def wordValue (be : Bool) (bytes : List Byte) : Nat :=
  (if be then bytes.reverse else bytes).foldr (fun b acc => b.val + 256 * acc) 0

/-- The byte `src[i]` as a number. -/
def sampleAt (src : List Byte) (i : Nat) : Nat := (src.getD i 0).val

/-- A conversion loop: `n` rounds, round `i` appending `emit i src` to the destination
and advancing the source pointer by `adv` bytes. -/
def frameLoop (adv : Nat) (emit : Nat → List Byte → List Byte) :
    Nat → Nat → List Byte → List Byte
  | 0, _, _ => []
  | n + 1, i, src => emit i src ++ frameLoop adv emit n (i + 1) (src.drop adv)

/-- The state of a `PcmExport` after `Open`: the effects that are active.
`alsa_channel_order` holds the sample format to reorder, `UNDEFINED` when channel
reordering is off; `reverse_endian` holds the sample size to byte-swap, 0 when off. -/
structure PcmExport where
  channels : Nat := 0
  alsa_channel_order : SampleFormat := SampleFormat.UNDEFINED
  dsd_u16 : Bool := false
  dsd_u32 : Bool := false
  dop : Bool := false
  shift8 : Bool := false
  pack24 : Bool := false
  reverse_endian : Nat := 0
  deriving DecidableEq, Repr

/-- Modelled from the spec: `PcmExport.cxx` (`PcmExport::Open`) is not among the
sources.  Each effect of the parameters is activated for the sample format it applies
to: the DSD packings and DoP for DSD input (which then travels as 16-, 32- or 24-in-32
bit samples), `shift8` and `pack24` for S24_P32, byte swapping for samples of more
than one byte ("identity for 8-bit"). -/
def PcmExport.Open (sample_format : SampleFormat) (channels : Nat) (params : Params) :
    PcmExport :=
  let dsd_u16 := params.dsd_u16 && decide (sample_format = SampleFormat.DSD)
  let f1 := if dsd_u16 then SampleFormat.S16 else sample_format
  let dsd_u32 := params.dsd_u32 && decide (f1 = SampleFormat.DSD)
  let f2 := if dsd_u32 then SampleFormat.S32 else f1
  let dop := params.dop && decide (f2 = SampleFormat.DSD)
  let f3 := if dop then SampleFormat.S24_P32 else f2
  let shift8 := params.shift8 && decide (f3 = SampleFormat.S24_P32)
  let pack24 := params.pack24 && decide (f3 = SampleFormat.S24_P32)
  let sample_size := if pack24 then 3 else sample_format_size f3
  { channels := channels
    alsa_channel_order :=
      if params.alsa_channel_order then sample_format else SampleFormat.UNDEFINED
    dsd_u16 := dsd_u16
    dsd_u32 := dsd_u32
    dop := dop
    shift8 := shift8
    pack24 := pack24
    reverse_endian := if params.reverse_endian && decide (sample_size > 1) then sample_size else 0 }

/-- Modelled from the spec: the channel reordering of `PcmExport` is not among the
sources.  "`alsaChannelOrder` for 5.1 swaps {2,3} with {4,5}": every frame of six
samples of `s` bytes is written as samples 0, 1, 4, 5, 2, 3. -/
def ToAlsaChannelOrder51 (s : Nat) (src : List Byte) : List Byte :=
  frameLoop (6 * s)
    (fun _ p => p.take (2 * s) ++ (p.drop (4 * s)).take (2 * s) ++ (p.drop (2 * s)).take (2 * s))
    (src.length / s / 6) 0 src

/-- Modelled from the spec: the channel reordering of `PcmExport` is not among the
sources.  "For 7.1 swaps {2,3} with {4,5} and {6,7} unchanged". -/
def ToAlsaChannelOrder71 (s : Nat) (src : List Byte) : List Byte :=
  frameLoop (8 * s)
    (fun _ p => p.take (2 * s) ++ (p.drop (4 * s)).take (2 * s) ++ (p.drop (2 * s)).take (2 * s)
      ++ (p.drop (6 * s)).take (2 * s))
    (src.length / s / 8) 0 src

/-- Modelled from the spec: the channel reordering of `PcmExport` is not among the
sources.  Only 5.1 and 7.1 layouts of 16- or 32-bit samples are reordered. -/
def ToAlsaChannelOrder (src : List Byte) (sample_format : SampleFormat) (channels : Nat) :
    List Byte :=
  let s := match sample_format with
    | .S16 => 2
    | .S24_P32 => 4
    | .S32 => 4
    | .FLOAT => 4
    | _ => 0
  if s = 0 then src
  else if channels = 6 then ToAlsaChannelOrder51 s src
  else if channels = 8 then ToAlsaChannelOrder71 s src
  else src

/-- The word built from the bytes `p[0]`, `p[channels]`, ..., `p[(k-1) * channels]`,
the oldest byte in the most significant position. -/
def dsdWord (k channels : Nat) (p : List Byte) : Nat :=
  (List.range k).foldl (fun acc j => (acc <<< 8) ||| sampleAt p (j * channels)) 0

/-- Modelled from the spec: the DSD packing of `PcmExport` is not among the sources.
"`dsdU16`: groups of 4 source bytes `[a0 b0 a1 b1]` become 16-bit words `[a0a1, b0b1]`",
"`dsdU32`: groups of 8 source bytes become 32-bit words": `k` consecutive frames give one
frame of `k`-byte words, one word per channel; frames beyond the last whole group are
ignored. -/
def exportDsd (be : Bool) (k channels : Nat) (src : List Byte) : List Byte :=
  frameLoop (k * channels)
    (fun _ p => (List.range channels).flatMap fun c => wordBytes be k (dsdWord k channels (p.drop c)))
    (src.length / channels / k) 0 src

/-- The DoP sample carrying the DSD bytes `a` (older) and `b` under the marker 0x05. -/
def dopMarker1 (a b : Nat) : Nat := 0xff050000 ||| (a <<< 8) ||| b

/-- The DoP sample carrying the DSD bytes `a` (older) and `b` under the marker 0xFA. -/
def dopMarker2 (a b : Nat) : Nat := 0xfffa0000 ||| (a <<< 8) ||| b

/-- Modelled from the spec: the DoP encoder of `PcmExport` is not among the sources.
"`dop`: pairs of DSD bytes pack into 24-bit samples with alternating 0x05 / 0xFA marker":
two consecutive DSD frames give one frame of 32-bit words, the marker changing from one
output frame to the next; "the DoP filter converts two frames at a time and ignores the
last odd frame". -/
def exportDop (be : Bool) (channels : Nat) (src : List Byte) : List Byte :=
  frameLoop (2 * channels)
    (fun i p => (List.range channels).flatMap fun c =>
      wordBytes be 4
        (if i % 2 = 0 then dopMarker1 (sampleAt p c) (sampleAt p (channels + c))
         else dopMarker2 (sampleAt p c) (sampleAt p (channels + c))))
    (src.length / channels / 2) 0 src

/-- Modelled from the spec: the 24-bit packing of `PcmExport` is not among the sources.
"`pack24`: output length = input_samples × 3; each 3-byte group equals the low 24 bits of
the 32-bit input in platform endian": of the four bytes of a sample the one holding the
top eight bits (the last on a little-endian host, the first on a big-endian host) is
left out. -/
def exportPack24 (be : Bool) (src : List Byte) : List Byte :=
  frameLoop 4 (fun _ p => if be then (p.drop 1).take 3 else p.take 3) (src.length / 4) 0 src

/-- Modelled from the spec: the 8-bit shift of `PcmExport` is not among the sources.
"`shift8`: for S24_P32 input, output equals input shifted left by 8 bits", every sample a
32-bit word; bytes after the last whole sample are passed through. -/
def exportShift8 (be : Bool) (src : List Byte) : List Byte :=
  frameLoop 4 (fun _ p => wordBytes be 4 ((wordValue be (p.take 4) <<< 8) % 2 ^ 32))
    (src.length / 4) 0 src
  ++ src.drop (src.length / 4 * 4)

/-- Modelled from the spec: the byte swapping of `PcmExport` is not among the sources.
"`reverseEndian`: byte-swap per sample" of `sample_size` bytes; bytes after the last whole
sample are passed through. -/
def exportReverseEndian (sample_size : Nat) (src : List Byte) : List Byte :=
  frameLoop sample_size (fun _ p => (p.take sample_size).reverse) (src.length / sample_size) 0 src
  ++ src.drop (src.length / sample_size * sample_size)

/-- Modelled from the spec: `PcmExport.cxx` (`PcmExport::Export`) is not among the
sources.  The active effects are applied one after the other: channel reordering, DSD
packing or DoP, 24-bit packing or the 8-bit shift, byte swapping. -/
def PcmExport.Export (be : Bool) (e : PcmExport) (data : List Byte) : List Byte :=
  let d1 := if e.alsa_channel_order ≠ SampleFormat.UNDEFINED then
      ToAlsaChannelOrder data e.alsa_channel_order e.channels else data
  let d2 := if e.dsd_u16 then exportDsd be 2 e.channels d1 else d1
  let d3 := if e.dsd_u32 then exportDsd be 4 e.channels d2 else d2
  let d4 := if e.dop then exportDop be e.channels d3 else d3
  let d5 := if e.pack24 then exportPack24 be d4
    else if e.shift8 then exportShift8 be d4 else d4
  if e.reverse_endian > 0 then exportReverseEndian e.reverse_endian d5 else d5

/-- The input channel that ALSA channel `q` of a 5.1 or 7.1 frame is taken from:
channels {2,3} and {4,5} change places, the others stay. -/
def alsaChannelSource (q : Nat) : Nat := [0, 1, 4, 5, 2, 3, 6, 7].getD q q

/-- The memory image of an array of `k`-byte words. -/
def wordsBytes (be : Bool) (k : Nat) (ws : List Nat) : List Byte :=
  ws.flatMap (wordBytes be k)

/-- The `i`-th `k`-byte word of a buffer. -/
def wordOf (be : Bool) (k : Nat) (data : List Byte) (i : Nat) : Nat :=
  wordValue be ((data.drop (i * k)).take k)

/-- The DSD bytes of `PcmExportTest::TestDsdU16`: eight frames of two channels. -/
def sampleDsd : List Byte :=
  [0x01, 0x23, 0x45, 0x67, 0x89, 0xab, 0xcd, 0xef, 0x11, 0x22, 0x33, 0x44, 0x55, 0x66, 0x77, 0x88]

/-- The two 5.1 frames of `TestAlsaChannelOrder51` as S16 samples on a little-endian host. -/
def sampleFrames51 : List Byte :=
  wordsBytes false 2 [0, 1, 2, 3, 4, 5, 6, 7, 8, 9, 10, 11]

/-- Six outputs: one reporting 50, a disabled one whose mixer would report 100, one
without a mixer, one whose mixer read throws, one whose mixer reports -1, and one
reporting 75. -/
def sampleOutputs : List AudioOutput :=
  [ { enabled := true, mixer := some { get_volume := some 50 } },
    { enabled := false, mixer := some { get_volume := some 100 } },
    { enabled := true, mixer := none },
    { enabled := true, mixer := some { get_volume := none } },
    { enabled := true, mixer := some { get_volume := some (-1) } },
    { enabled := true, mixer := some { get_volume := some 75 } } ]

/-! ## The convert filter (`ConvertFilterPlugin.cxx`) -/

/-- A call made on the `PcmConvert` member `state` of a `ConvertFilter`. -/
inductive PcmConvertCall where
  | Open (src dest : AudioFormat)
  | Close
  | Convert
  | Reset
  deriving DecidableEq, Repr

/-- The class `PcmConvert` is not among the sources; what the filter needs of it is a
parameter: whether `Open` throws for a pair of formats, and what `Convert` returns. -/
structure PcmConvertEnv where
  open_throws : AudioFormat → AudioFormat → Bool
  convert : AudioFormat → AudioFormat → List Byte → List Byte

/-- The fields of a `ConvertFilter`: the input format, the output format inherited from
`Filter`, whether the `PcmConvert` member `state` is open, and the calls made on it so
far, oldest first. -/
structure ConvertFilter where
  in_audio_format : AudioFormat
  out_audio_format : AudioFormat
  state_open : Bool := false
  calls : List PcmConvertCall := []
  deriving DecidableEq, Repr

/-- The constructor `ConvertFilter::ConvertFilter`: `Filter(audio_format)` sets the
output format, the initialiser the input format. -/
def ConvertFilter.create (audio_format : AudioFormat) : ConvertFilter :=
  { in_audio_format := audio_format, out_audio_format := audio_format }

/-- The method `PreparedConvertFilter::Open`. -/
def PreparedConvertFilter_Open (audio_format : AudioFormat) : ConvertFilter :=
  ConvertFilter.create audio_format

/-- The method `ConvertFilter::IsActive`. -/
def ConvertFilter.IsActive (f : ConvertFilter) : Bool :=
  decide (f.out_audio_format ≠ f.in_audio_format)

/-- The method `ConvertFilter::Set`; `Except.error` carries the filter as it is left
when `state.Open` throws. -/
def ConvertFilter.Set (env : PcmConvertEnv) (f : ConvertFilter) (out_audio_format : AudioFormat) :
    Except ConvertFilter ConvertFilter :=
  if out_audio_format = f.out_audio_format then Except.ok f
  else
    let f1 := if f.IsActive then
        { f with out_audio_format := f.in_audio_format, state_open := false,
                 calls := f.calls ++ [PcmConvertCall.Close] }
      else f
    if out_audio_format = f1.in_audio_format then Except.ok f1
    else
      let f2 := { f1 with
        calls := f1.calls ++ [PcmConvertCall.Open f1.in_audio_format out_audio_format] }
      if env.open_throws f1.in_audio_format out_audio_format then Except.error f2
      else Except.ok { f2 with state_open := true, out_audio_format := out_audio_format }

/-- The method `ConvertFilter::FilterPCM`: the returned buffer and the filter
afterwards. -/
def ConvertFilter.FilterPCM (env : PcmConvertEnv) (f : ConvertFilter) (src : List Byte) :
    List Byte × ConvertFilter :=
  if f.IsActive then
    (env.convert f.in_audio_format f.out_audio_format src,
      { f with calls := f.calls ++ [PcmConvertCall.Convert] })
  else (src, f)

/-- The method `ConvertFilter::Reset`. -/
def ConvertFilter.Reset (f : ConvertFilter) : ConvertFilter :=
  if f.IsActive then { f with calls := f.calls ++ [PcmConvertCall.Reset] } else f

/-! ## Buffered sockets (`BufferedSocket.cxx`) -/

/-- What one `SocketMonitor::Read` did: its return value, the bytes it stored when that
is positive, and the value of `GetSocketError()` afterwards. -/
structure SocketRead where
  nbytes : Int
  data : List Byte := []
  code : Int := 0
  deriving DecidableEq, Repr

/-- A handler of the socket that `DirectRead` invokes. -/
inductive SocketCallback where
  | OnSocketClosed
  | OnSocketError (code : Int)
  deriving DecidableEq, Repr

/-- The method `BufferedSocket::DirectRead`: its return value and the handlers it
invoked.  `IsSocketErrorAgain` and `IsSocketErrorClosed` (`net/SocketError.hxx`, not among
the sources) are parameters. -/
def DirectRead (IsSocketErrorAgain IsSocketErrorClosed : Int → Bool) (r : SocketRead) :
    Int × List SocketCallback :=
  if r.nbytes > 0 then (r.nbytes, [])
  else if r.nbytes = 0 then (-1, [SocketCallback.OnSocketClosed])
  else if IsSocketErrorAgain r.code then (0, [])
  else if IsSocketErrorClosed r.code then (-1, [SocketCallback.OnSocketClosed])
  else (-1, [SocketCallback.OnSocketError r.code])

/-- The method `BufferedSocket::ReadToBuffer`: its return value, the readable content of
the input buffer afterwards, and the handlers invoked.  `input.Append(nbytes)` makes the
`nbytes` bytes just read readable. -/
def ReadToBuffer (IsSocketErrorAgain IsSocketErrorClosed : Int → Bool) (input : List Byte)
    (r : SocketRead) : Bool × List Byte × List SocketCallback :=
  let d := DirectRead IsSocketErrorAgain IsSocketErrorClosed r
  let input1 := if d.1 > 0 then input ++ r.data.take d.1.toNat else input
  (decide (d.1 ≥ 0), input1, d.2)

/-! ## The player control (`player/Control.cxx`) -/

/-- The transport states. -/
inductive PlayerState where
  | STOP
  | PAUSE
  | PLAY
  deriving DecidableEq, Repr

/-- The commands a client hands to the player thread. -/
inductive PlayerCommand where
  | NONE
  | EXIT
  | STOP
  | PAUSE
  | SEEK
  | CLOSE_AUDIO
  | UPDATE_AUDIO
  | QUEUE
  | CANCEL
  | REFRESH
  deriving DecidableEq, Repr

/-- The kinds of error the player thread latches. -/
inductive PlayerError where
  | NONE
  | DECODER
  | OUTPUT
  deriving DecidableEq, Repr

/-- What a call on the control facade does besides changing the fields: taking and
releasing the mutex, handing a command to the player thread and waiting for it,
`idle_add(IDLE_PLAYER)`, and rethrowing the exception pointer `error`. -/
inductive PlayerEvent where
  | lock
  | unlock
  | command (c : PlayerCommand)
  | idle_add_player
  | rethrow (error : Option Nat)
  deriving DecidableEq, Repr

/-- How a call ended: it returned, or it threw the exception behind an exception
pointer (`none` for a null pointer). -/
inductive Completion where
  | returned
  | threw (error : Option Nat)
  deriving DecidableEq, Repr

/-- The fields of `PlayerControl` that the calls below read and write; `error` is the
`std::exception_ptr`, `none` when null; songs are named by numbers. -/
structure PlayerControl where
  state : PlayerState := PlayerState.STOP
  error_type : PlayerError := PlayerError.NONE
  error : Option Nat := none
  next_song : Option Nat := none
  seek_time : Nat := 0
  border_pause : Bool := false
  deriving DecidableEq, Repr

/-- The result of a call: the fields afterwards, the events of the call in order, and
how it ended. -/
structure PlayerOutcome where
  pc : PlayerControl
  events : List PlayerEvent := []
  completion : Completion := Completion.returned
  deriving DecidableEq, Repr

/-- The method `PlayerControl::SetError`. -/
def PlayerControl.SetError (pc : PlayerControl) (type : PlayerError) (error : Option Nat) :
    PlayerControl :=
  { pc with error_type := type, error := error }

/-- Modelled from the spec: `player/Control.hxx` (`PlayerControl::ClearError`) is not
among the sources; the error slot is emptied. -/
def PlayerControl.ClearError (pc : PlayerControl) : PlayerControl :=
  { pc with error_type := PlayerError.NONE, error := none }

/-- Modelled from the spec: `player/Control.hxx` (`PlayerControl::SynchronousCommand`) is
not among the sources; "stores command code and arguments, signals the worker's
condition variable, and waits for completion".  `worker cmd` is what the player thread
does to the fields until the command is finished. -/
def PlayerControl.SynchronousCommand (worker : PlayerCommand → PlayerControl → PlayerControl)
    (pc : PlayerControl) (cmd : PlayerCommand) : PlayerOutcome :=
  { pc := worker cmd pc, events := [PlayerEvent.command cmd] }

/-- The method `PlayerControl::PauseLocked`. -/
def PlayerControl.PauseLocked (worker : PlayerCommand → PlayerControl → PlayerControl)
    (pc : PlayerControl) : PlayerOutcome :=
  if pc.state ≠ PlayerState.STOP then
    let r := pc.SynchronousCommand worker PlayerCommand.PAUSE
    { r with events := r.events ++ [PlayerEvent.idle_add_player] }
  else { pc := pc }

/-- The method `PlayerControl::LockSetPause`. -/
def PlayerControl.LockSetPause (worker : PlayerCommand → PlayerControl → PlayerControl)
    (pc : PlayerControl) (pause_flag : Bool) : PlayerOutcome :=
  let r : PlayerOutcome :=
    match pc.state with
    | PlayerState.STOP => { pc := pc }
    | PlayerState.PLAY => if pause_flag then pc.PauseLocked worker else { pc := pc }
    | PlayerState.PAUSE => if !pause_flag then pc.PauseLocked worker else { pc := pc }
  { r with events := [PlayerEvent.lock] ++ r.events ++ [PlayerEvent.unlock] }

/-- The fields at the moment the SEEK command issued by `SeekLocked` has completed. -/
def PlayerControl.seekCompleted (worker : PlayerCommand → PlayerControl → PlayerControl)
    (pc : PlayerControl) (song t : Nat) : PlayerControl :=
  let pc1 := if pc.next_song ≠ none then worker PlayerCommand.CANCEL pc else pc
  worker PlayerCommand.SEEK { pc1.ClearError with next_song := some song, seek_time := t }

/-- The method `PlayerControl::SeekLocked`. -/
def PlayerControl.SeekLocked (worker : PlayerCommand → PlayerControl → PlayerControl)
    (pc : PlayerControl) (song t : Nat) : PlayerOutcome :=
  let r1 : PlayerOutcome :=
    if pc.next_song ≠ none then pc.SynchronousCommand worker PlayerCommand.CANCEL
    else { pc := pc }
  let pc2 := { r1.pc.ClearError with next_song := some song, seek_time := t }
  let r3 := pc2.SynchronousCommand worker PlayerCommand.SEEK
  let events := r1.events ++ r3.events
  if r3.pc.error_type ≠ PlayerError.NONE then
    { pc := r3.pc, events := events ++ [PlayerEvent.rethrow r3.pc.error],
      completion := Completion.threw r3.pc.error }
  else { pc := r3.pc, events := events }

/-- The method `PlayerControl::Play`; the lock guard releases the mutex also when
`SeekLocked` throws. -/
def PlayerControl.Play (worker : PlayerCommand → PlayerControl → PlayerControl)
    (pc : PlayerControl) (song : Nat) : PlayerOutcome :=
  let r := pc.SeekLocked worker song 0
  match r.completion with
  | Completion.threw e =>
    { pc := r.pc, events := [PlayerEvent.lock] ++ r.events ++ [PlayerEvent.unlock],
      completion := Completion.threw e }
  | Completion.returned =>
    let p : PlayerOutcome :=
      if r.pc.state = PlayerState.PAUSE then r.pc.PauseLocked worker else { pc := r.pc }
    { pc := p.pc, events := [PlayerEvent.lock] ++ r.events ++ p.events ++ [PlayerEvent.unlock] }

/-- The method `PlayerControl::LockSeek`. -/
def PlayerControl.LockSeek (worker : PlayerCommand → PlayerControl → PlayerControl)
    (pc : PlayerControl) (song t : Nat) : PlayerOutcome :=
  let r := pc.SeekLocked worker song t
  match r.completion with
  | Completion.threw e =>
    { pc := r.pc, events := [PlayerEvent.lock] ++ r.events ++ [PlayerEvent.unlock],
      completion := Completion.threw e }
  | Completion.returned =>
    { pc := r.pc,
      events := [PlayerEvent.lock] ++ r.events
        ++ [PlayerEvent.unlock, PlayerEvent.idle_add_player] }

/-- A player thread for which the PAUSE command switches between PLAY and PAUSE, and
which latches a decoder error when told to seek in song 13. -/
def sampleWorker : PlayerCommand → PlayerControl → PlayerControl
  | PlayerCommand.PAUSE, pc =>
    match pc.state with
    | PlayerState.PLAY => { pc with state := PlayerState.PAUSE }
    | PlayerState.PAUSE => { pc with state := PlayerState.PLAY }
    | PlayerState.STOP => pc
  | PlayerCommand.SEEK, pc =>
    if pc.next_song = some 13 then
      { pc with next_song := none }.SetError PlayerError.DECODER (some 7)
    else { pc with next_song := none, state := PlayerState.PLAY }
  | PlayerCommand.CANCEL, pc => { pc with next_song := none }
  | _, pc => pc

/-! ## The ALSA output plugin: sample format negotiation (`AlsaOutputPlugin.cxx`) -/

/-- The `snd_pcm_format_t` values the plugin names. -/
inductive AlsaFormat where
  | UNKNOWN
  | S8
  | S16_LE
  | S16_BE
  | S24_LE
  | S24_BE
  | S24_3LE
  | S24_3BE
  | S32_LE
  | S32_BE
  | FLOAT_LE
  | FLOAT_BE
  | DSD_U8
  | DSD_U16_LE
  | DSD_U16_BE
  | DSD_U32_LE
  | DSD_U32_BE
  deriving DecidableEq, Repr

/-- The preprocessor symbols the negotiation depends on. -/
structure AlsaBuild where
  ENABLE_DSD : Bool := true
  HAVE_ALSA_DSD : Bool := true
  HAVE_ALSA_DSD_U32 : Bool := true
  deriving DecidableEq, Repr

/-- The error number `EINVAL`. -/
def EINVAL : Int := 22

/-- The function `ToAlsaPcmFormat`; `be` tells whether the host is big-endian, which
decides what the alsa-lib names `SND_PCM_FORMAT_S16` etc. stand for. -/
def ToAlsaPcmFormat (be : Bool) (cfg : AlsaBuild) : SampleFormat → AlsaFormat
  | .UNDEFINED => AlsaFormat.UNKNOWN
  | .DSD => if cfg.HAVE_ALSA_DSD then AlsaFormat.DSD_U8 else AlsaFormat.UNKNOWN
  | .S8 => AlsaFormat.S8
  | .S16 => if be then AlsaFormat.S16_BE else AlsaFormat.S16_LE
  | .S24_P32 => if be then AlsaFormat.S24_BE else AlsaFormat.S24_LE
  | .S32 => if be then AlsaFormat.S32_BE else AlsaFormat.S32_LE
  | .FLOAT => if be then AlsaFormat.FLOAT_BE else AlsaFormat.FLOAT_LE

/-- The function `ByteSwapAlsaPcmFormat`. -/
def ByteSwapAlsaPcmFormat (cfg : AlsaBuild) : AlsaFormat → AlsaFormat
  | .S16_LE => AlsaFormat.S16_BE
  | .S24_LE => AlsaFormat.S24_BE
  | .S32_LE => AlsaFormat.S32_BE
  | .S16_BE => AlsaFormat.S16_LE
  | .S24_BE => AlsaFormat.S24_LE
  | .S24_3BE => AlsaFormat.S24_3LE
  | .S24_3LE => AlsaFormat.S24_3BE
  | .S32_BE => AlsaFormat.S32_LE
  | .DSD_U16_LE => if cfg.HAVE_ALSA_DSD_U32 then AlsaFormat.DSD_U16_BE else AlsaFormat.UNKNOWN
  | .DSD_U16_BE => if cfg.HAVE_ALSA_DSD_U32 then AlsaFormat.DSD_U16_LE else AlsaFormat.UNKNOWN
  | .DSD_U32_LE => if cfg.HAVE_ALSA_DSD_U32 then AlsaFormat.DSD_U32_BE else AlsaFormat.UNKNOWN
  | .DSD_U32_BE => if cfg.HAVE_ALSA_DSD_U32 then AlsaFormat.DSD_U32_LE else AlsaFormat.UNKNOWN
  | _ => AlsaFormat.UNKNOWN

/-- The function `PackAlsaPcmFormat`. -/
def PackAlsaPcmFormat : AlsaFormat → AlsaFormat
  | .S24_LE => AlsaFormat.S24_3LE
  | .S24_BE => AlsaFormat.S24_3BE
  | _ => AlsaFormat.UNKNOWN

/-- The function `AlsaTryFormatOrPacked`; `dev fmt` is what
`snd_pcm_hw_params_set_format` returns for `fmt`. -/
def AlsaTryFormatOrPacked (dev : AlsaFormat → Int) (fmt : AlsaFormat) (params : Params) :
    Int × Params :=
  let err := dev fmt
  let params1 := if err = 0 then { params with pack24 := false } else params
  if err ≠ -EINVAL then (err, params1)
  else
    let fmt2 := PackAlsaPcmFormat fmt
    if fmt2 = AlsaFormat.UNKNOWN then (-EINVAL, params1)
    else
      let err2 := dev fmt2
      (err2, if err2 = 0 then { params1 with pack24 := true } else params1)

/-- The function `AlsaTryFormatOrByteSwap`. -/
def AlsaTryFormatOrByteSwap (cfg : AlsaBuild) (dev : AlsaFormat → Int) (fmt : AlsaFormat)
    (params : Params) : Int × Params :=
  let r := AlsaTryFormatOrPacked dev fmt params
  let params1 := if r.1 = 0 then { r.2 with reverse_endian := false } else r.2
  if r.1 ≠ -EINVAL then (r.1, params1)
  else
    let fmt2 := ByteSwapAlsaPcmFormat cfg fmt
    if fmt2 = AlsaFormat.UNKNOWN then (-EINVAL, params1)
    else
      let r2 := AlsaTryFormatOrPacked dev fmt2 params1
      (r2.1, if r2.1 = 0 then { r2.2 with reverse_endian := true } else r2.2)

/-- The function `AlsaTryFormatDsd`. -/
def AlsaTryFormatDsd (be : Bool) (cfg : AlsaBuild) (dev : AlsaFormat → Int) (fmt : AlsaFormat)
    (params : Params) : Int × Params :=
  let r := AlsaTryFormatOrByteSwap cfg dev fmt params
  if cfg.ENABLE_DSD && cfg.HAVE_ALSA_DSD_U32 then
    let params1 := if r.1 = 0 then { r.2 with dsd_u16 := false, dsd_u32 := false } else r.2
    let r2 : Int × Params :=
      if r.1 = -EINVAL ∧ fmt = AlsaFormat.DSD_U8 then
        let r32 := AlsaTryFormatOrByteSwap cfg dev
          (if be then AlsaFormat.DSD_U32_BE else AlsaFormat.DSD_U32_LE) params1
        (r32.1, if r32.1 = 0 then { r32.2 with dsd_u32 := true } else r32.2)
      else (r.1, params1)
    if r2.1 = -EINVAL ∧ fmt = AlsaFormat.DSD_U8 then
      let r16 := AlsaTryFormatOrByteSwap cfg dev
        (if be then AlsaFormat.DSD_U16_BE else AlsaFormat.DSD_U16_LE) r2.2
      (r16.1, if r16.1 = 0 then { r16.2 with dsd_u16 := true } else r16.2)
    else r2
  else r

/-- The function `AlsaTryFormat`. -/
def AlsaTryFormat (be : Bool) (cfg : AlsaBuild) (dev : AlsaFormat → Int)
    (sample_format : SampleFormat) (params : Params) : Int × Params :=
  let alsa_format := ToAlsaPcmFormat be cfg sample_format
  if alsa_format = AlsaFormat.UNKNOWN then (-EINVAL, params)
  else AlsaTryFormatDsd be cfg dev alsa_format params

/-- The table `probe_formats` of `AlsaSetupFormat`, without its `UNDEFINED` sentinel. -/
def probe_formats : List SampleFormat :=
  [SampleFormat.S24_P32, SampleFormat.S32, SampleFormat.S16, SampleFormat.S8]

/-- The probing loop of `AlsaSetupFormat` over the remaining entries of the table. -/
def AlsaSetupFormat_loop (be : Bool) (cfg : AlsaBuild) (dev : AlsaFormat → Int) :
    List SampleFormat → Int → AudioFormat → Params → Int × AudioFormat × Params
  | [], err, audio_format, params => (err, audio_format, params)
  | mpd_format :: rest, err, audio_format, params =>
    if err ≠ -EINVAL then (err, audio_format, params)
    else if mpd_format = audio_format.format then
      AlsaSetupFormat_loop be cfg dev rest err audio_format params
    else
      let r := AlsaTryFormat be cfg dev mpd_format params
      let audio_format1 :=
        if r.1 = 0 then { audio_format with format := mpd_format } else audio_format
      AlsaSetupFormat_loop be cfg dev rest r.1 audio_format1 r.2

/-- The function `AlsaSetupFormat`: the result, the audio format and the export
parameters afterwards. -/
def AlsaSetupFormat (be : Bool) (cfg : AlsaBuild) (dev : AlsaFormat → Int)
    (audio_format : AudioFormat) (params : Params) : Int × AudioFormat × Params :=
  let r := AlsaTryFormat be cfg dev audio_format.format params
  AlsaSetupFormat_loop be cfg dev probe_formats r.1 audio_format r.2

/-- The variants of an ALSA format that `AlsaTryFormatOrByteSwap` asks the device for,
in order: native, packed, byte-swapped, byte-swapped packed. -/
def byteSwapVariants (cfg : AlsaBuild) (fmt : AlsaFormat) : List AlsaFormat :=
  [fmt, PackAlsaPcmFormat fmt, ByteSwapAlsaPcmFormat cfg fmt,
    PackAlsaPcmFormat (ByteSwapAlsaPcmFormat cfg fmt)].filter (fun f => f ≠ AlsaFormat.UNKNOWN)

/-- The ALSA formats that `AlsaTryFormat` asks the device for on behalf of a sample
format: the variants of its ALSA format and, for DSD, those of DSD_U32 and DSD_U16. -/
def alsaVariants (be : Bool) (cfg : AlsaBuild) (sample_format : SampleFormat) : List AlsaFormat :=
  let fmt := ToAlsaPcmFormat be cfg sample_format
  if fmt = AlsaFormat.UNKNOWN then []
  else
    byteSwapVariants cfg fmt ++
      (if cfg.ENABLE_DSD && cfg.HAVE_ALSA_DSD_U32 && decide (fmt = AlsaFormat.DSD_U8) then
        byteSwapVariants cfg (if be then AlsaFormat.DSD_U32_BE else AlsaFormat.DSD_U32_LE)
          ++ byteSwapVariants cfg (if be then AlsaFormat.DSD_U16_BE else AlsaFormat.DSD_U16_LE)
       else [])

/-- The answer of the device to a list of formats asked for in order until it answers
something other than `-EINVAL`; `-EINVAL` if it never does. -/
def firstResult (dev : AlsaFormat → Int) : List AlsaFormat → Int
  | [] => -EINVAL
  | fmt :: rest => if dev fmt ≠ -EINVAL then dev fmt else firstResult dev rest

/-- The result of `AlsaTryFormat` for a sample format. -/
def tryResult (be : Bool) (cfg : AlsaBuild) (dev : AlsaFormat → Int)
    (sample_format : SampleFormat) : Int :=
  (AlsaTryFormat be cfg dev sample_format {}).1

/-- The first candidate for which `AlsaTryFormat` returns something other than
`-EINVAL`, if there is one. -/
def firstAnswered (be : Bool) (cfg : AlsaBuild) (dev : AlsaFormat → Int)
    (candidates : List SampleFormat) : Option SampleFormat :=
  candidates.find? (fun f => decide (tryResult be cfg dev f ≠ -EINVAL))

/-- Whether the device accepts one of the variants of a sample format. -/
def deviceAccepts (be : Bool) (cfg : AlsaBuild) (dev : AlsaFormat → Int)
    (sample_format : SampleFormat) : Bool :=
  (alsaVariants be cfg sample_format).any (fun v => decide (dev v = 0))

/-- A device that takes 16-bit samples in the byte order of the other kind of host only. -/
def sampleDevice : AlsaFormat → Int
  | .S16_BE => 0
  | _ => -EINVAL

/-! ## The event loop (`event/Loop.cxx`) -/

/-- A call that a callback running on the loop thread makes on the `EventLoop`; monitors
and timers are named by numbers. -/
inductive LoopAction where
  | AddIdle (i : Nat)
  | RemoveIdle (i : Nat)
  | AddTimer (t : Nat) (d : Int)
  | CancelTimer (t : Nat)
  | AddDeferred (d : Nat)
  | RemoveDeferred (d : Nat)
  | Break
  | RemoveFD (fd m : Nat)
  | Abandon (fd m : Nat)
  deriving DecidableEq, Repr

/-- What `EventLoop::Run` does, as a history: the start of a round of the `do` loop, a
timer, idle, or deferred monitor being run, `poll_group.ReadEvents` being called (with
the idle queue at that moment and the timeout passed), a socket monitor being
dispatched, a call made by a callback, and `wake_fd.Write()`. -/
inductive LoopEvent where
  | iterate
  | timer (t : Nat)
  | idle (i : Nat)
  | deferred (d : Nat)
  | readEvents (idle : List Nat) (timeout_ms : Int)
  | dispatch (m : Nat) (events : Nat)
  | action (a : LoopAction)
  | wake
  deriving DecidableEq, Repr

/-- The places in `EventLoop::Run` between which one step of the loop leads: the top of
the `do` body, the head of the timer loop, the head of the idle loop, the head of the
loop of `HandleDeferred`, the test of `again`, the call of `ReadEvents`, the socket loop
at index `i`, the loop of `HandleDeferred` called from `OnSocketReady` while the
socket loop is at index `i`, `poll_result.Reset()`, the test `while (!quit)`, and the
return. -/
inductive RunPoint where
  | iterate
  | timers
  | idle
  | deferred
  | check
  | wait
  | sockets (i : Nat)
  | socketDeferred (i : Nat)
  | reset
  | condition
  | returned
  deriving DecidableEq, Repr

/-- The fields of `EventLoop` and the local variable `timeout` of `Run`.  `timers` is the
multiset ordered by due time, as pairs of due time and timer; `pending` lists the
deferred monitors whose `pending` flag is set; `poll_result` holds pairs of events and
monitor; `trace` is the history, the most recent event first. -/
structure EventLoop where
  point : RunPoint := RunPoint.iterate
  now : Int := 0
  timeout : Int := 0
  timers : List (Int × Nat) := []
  idle : List Nat := []
  deferred : List Nat := []
  pending : List Nat := []
  again : Bool := false
  busy : Bool := true
  quit : Bool := false
  poll_result : List (Nat × Nat) := []
  trace : List LoopEvent := []
  deriving DecidableEq, Repr

/-- What the loop does not decide itself: the steady clock, what the callbacks of the
monitors do (as the calls they make on the loop, in order), what `ReadEvents` collects,
and the number of clock ticks in a millisecond.  Each may depend on the loop as it is
at that moment, history included. -/
structure LoopEnv where
  clock : EventLoop → Int
  timerRun : EventLoop → Nat → List LoopAction
  idleRun : EventLoop → Nat → List LoopAction
  deferredRun : EventLoop → Nat → List LoopAction
  dispatch : EventLoop → Nat → Nat → List LoopAction
  readEvents : EventLoop → Int → List (Nat × Nat)
  ticks_per_ms : Nat

/-- The monitor that the `EventLoop` itself is: the one watching `wake_fd`. -/
def wakeMonitor : Nat := 0

/-- Modelled from the spec: the class `PollResult` is not among the sources.
"Cancellations are effective immediately (the current dispatch iteration must not call a
cancelled monitor)": `Clear(m)` strips the events of every entry of monitor `m`. -/
def PollResult_Clear (m : Nat) (poll_result : List (Nat × Nat)) : List (Nat × Nat) :=
  poll_result.map fun e => if e.2 = m then (0, e.2) else e

/-- The insertion into the multiset `timers`, after the records that are not due
later. -/
def insertTimer (r : Int × Nat) : List (Int × Nat) → List (Int × Nat)
  | [] => [r]
  | x :: rest => if r.1 < x.1 then r :: x :: rest else x :: insertTimer r rest

/-- The loop of `EventLoop::CancelTimer`: the first record of timer `t` is erased. -/
def cancelTimer (t : Nat) : List (Int × Nat) → List (Int × Nat)
  | [] => []
  | x :: rest => if x.2 = t then rest else x :: cancelTimer t rest

/-- The effect of one call made by a callback: `AddIdle`, `RemoveIdle`, `AddTimer`,
`CancelTimer`, `AddDeferred`, `RemoveDeferred`, `Break`, `RemoveFD`, `Abandon`. -/
def EventLoop.apply (s : EventLoop) (a : LoopAction) : EventLoop :=
  let s1 := { s with trace := LoopEvent.action a :: s.trace }
  match a with
  | .AddIdle i => { s1 with idle := s1.idle ++ [i], again := true }
  | .RemoveIdle i => { s1 with idle := s1.idle.erase i }
  | .AddTimer t d => { s1 with timers := insertTimer (s1.now + d, t) s1.timers, again := true }
  | .CancelTimer t => { s1 with timers := cancelTimer t s1.timers }
  | .AddDeferred d =>
    if d ∈ s1.pending then s1
    else
      let must_wake := !s1.busy && s1.deferred.isEmpty
      { s1 with pending := d :: s1.pending, deferred := s1.deferred ++ [d], again := true,
                trace := if must_wake then LoopEvent.wake :: s1.trace else s1.trace }
  | .RemoveDeferred d =>
    if d ∈ s1.pending then
      { s1 with pending := s1.pending.filter (fun x => x ≠ d), deferred := s1.deferred.erase d }
    else s1
  | .Break =>
    if s1.quit then s1 else { s1 with quit := true, trace := LoopEvent.wake :: s1.trace }
  | .RemoveFD _ m => { s1 with poll_result := PollResult_Clear m s1.poll_result }
  | .Abandon _ m => { s1 with poll_result := PollResult_Clear m s1.poll_result }

/-- The calls of one callback, one after the other. -/
def EventLoop.applyAll (s : EventLoop) (actions : List LoopAction) : EventLoop :=
  actions.foldl EventLoop.apply s

/-- The function `ExportTimeoutMS`: a negative duration gives -1, any other its whole
milliseconds converted to `int`. -/
def ExportTimeoutMS (ticks_per_ms : Nat) (timeout : Int) : Int :=
  if timeout ≥ 0 then unsigned_to_int (timeout / (ticks_per_ms : Int)).toNat else -1

/-- One round of the loop of `HandleDeferred` at the place `here`: if the queue is not
empty and `quit` is not set, the front monitor is taken off, its flag cleared and its
`RunDeferred` run; otherwise the loop is left for `next`. -/
def EventLoop.handleDeferredStep (env : LoopEnv) (s : EventLoop) (next : RunPoint) :
    EventLoop :=
  match s.deferred with
  | [] => { s with point := next }
  | d :: rest =>
    if s.quit then { s with point := next }
    else
      let s1 := { s with deferred := rest, pending := s.pending.filter (fun x => x ≠ d),
                         trace := LoopEvent.deferred d :: s.trace }
      s1.applyAll (env.deferredRun s1 d)

/-- One step of `EventLoop::Run` from the place `s.point`. -/
def EventLoop.step (env : LoopEnv) (s : EventLoop) : EventLoop :=
  match s.point with
  | .iterate =>
    { s with now := env.clock s, again := false, point := RunPoint.timers,
             trace := LoopEvent.iterate :: s.trace }
  | .timers =>
    match s.timers with
    | [] => { s with timeout := -1, point := RunPoint.idle }
    | (due, t) :: rest =>
      let s1 := { s with timeout := due - s.now }
      if s1.timeout > (0 : Int) then { s1 with point := RunPoint.idle }
      else
        let s2 := { s1 with timers := rest, trace := LoopEvent.timer t :: s1.trace }
        let s3 := s2.applyAll (env.timerRun s2 t)
        if s3.quit then { s3 with point := RunPoint.returned } else s3
  | .idle =>
    match s.idle with
    | [] => { s with point := RunPoint.deferred }
    | i :: rest =>
      let s1 := { s with idle := rest, trace := LoopEvent.idle i :: s.trace }
      let s2 := s1.applyAll (env.idleRun s1 i)
      if s2.quit then { s2 with point := RunPoint.returned } else s2
  | .deferred => s.handleDeferredStep env RunPoint.check
  | .check =>
    let s1 := { s with busy := false }
    if s1.again then { s1 with point := RunPoint.condition }
    else { s1 with point := RunPoint.wait }
  | .wait =>
    let timeout_ms := ExportTimeoutMS env.ticks_per_ms s.timeout
    let s1 := { s with poll_result := env.readEvents s timeout_ms,
                       trace := LoopEvent.readEvents s.idle timeout_ms :: s.trace }
    { s1 with now := env.clock s1, busy := true, point := RunPoint.sockets 0 }
  | .sockets i =>
    match s.poll_result.get? i with
    | none => { s with point := RunPoint.reset }
    | some (events, m) =>
      if events ≠ 0 then
        if s.quit then { s with point := RunPoint.reset }
        else
          let s1 := { s with trace := LoopEvent.dispatch m events :: s.trace }
          if m = wakeMonitor then { s1 with point := RunPoint.socketDeferred i }
          else { s1.applyAll (env.dispatch s1 m events) with point := RunPoint.sockets (i + 1) }
      else { s with point := RunPoint.sockets (i + 1) }
  | .socketDeferred i => s.handleDeferredStep env (RunPoint.sockets (i + 1))
  | .reset => { s with poll_result := [], point := RunPoint.condition }
  | .condition =>
    if s.quit then { s with point := RunPoint.returned }
    else { s with point := RunPoint.iterate }
  | .returned => s

/-- The loop after `n` steps of `Run`. -/
def EventLoop.run (env : LoopEnv) : Nat → EventLoop → EventLoop
  | 0, s => s
  | n + 1, s => EventLoop.run env n (s.step env)

/-- The socket monitors cancelled, by `RemoveFD` or `Abandon`, since the most recent
`ReadEvents` of a history. -/
def cancelledSinceWait : List LoopEvent → List Nat
  | [] => []
  | .readEvents _ _ :: _ => []
  | .action (.RemoveFD _ m) :: older => m :: cancelledSinceWait older
  | .action (.Abandon _ m) :: older => m :: cancelledSinceWait older
  | _ :: older => cancelledSinceWait older

/-- Whether in a history no socket monitor is dispatched after it was cancelled, unless
`ReadEvents` was called in between. -/
def cancelRespected : List LoopEvent → Bool
  | [] => true
  | .dispatch m _ :: older => decide (m ∉ cancelledSinceWait older) && cancelRespected older
  | _ :: older => cancelRespected older

/-- Whether a callback has added an idle monitor or a timer since the most recent start
of a round in a history. -/
def addedSinceIterate : List LoopEvent → Bool
  | [] => false
  | .iterate :: _ => false
  | .action (.AddIdle _) :: _ => true
  | .action (.AddTimer _ _) :: _ => true
  | _ :: older => addedSinceIterate older

/-- Whether in a history every `ReadEvents` was called with an empty idle queue and in a
round in which no callback had added an idle monitor or a timer. -/
def waitsRespectIdle : List LoopEvent → Bool
  | [] => true
  | .readEvents idle _ :: older =>
    idle.isEmpty && !addedSinceIterate older && waitsRespectIdle older
  | _ :: older => waitsRespectIdle older

/-- The invariant behind immediate cancellation: the history respects cancellations so
far, and no entry of `poll_result` of a monitor cancelled since the last `ReadEvents` has
events left. -/
def cancelInvariant (s : EventLoop) : Prop :=
  cancelRespected s.trace = true ∧
  ∀ m ∈ cancelledSinceWait s.trace, ∀ e ∈ s.poll_result, e.2 = m → e.1 = 0

/-- The flag `again` is set if a callback has added an idle monitor or a timer in this
round. -/
def againCoversAdded (s : EventLoop) : Prop :=
  addedSinceIterate s.trace = true → s.again = true

/-- The flag `again` is set if the idle queue is not empty. -/
def againCoversIdle (s : EventLoop) : Prop :=
  s.idle ≠ [] → s.again = true

/-- The invariant behind "the idle queue is invoked until empty before the next wait":
the history has waited only with an empty idle queue; between the start of a round and
the test of `again` the flag covers what callbacks added; from the end of the idle loop
to that test it covers a non-empty idle queue; and at the call of `ReadEvents` the idle
queue is empty and nothing was added in the round. -/
def idleInvariant (s : EventLoop) : Prop :=
  waitsRespectIdle s.trace = true ∧
  ((s.point = RunPoint.timers ∨ s.point = RunPoint.idle ∨ s.point = RunPoint.deferred ∨
      s.point = RunPoint.check) → againCoversAdded s) ∧
  ((s.point = RunPoint.deferred ∨ s.point = RunPoint.check) → againCoversIdle s) ∧
  (s.point = RunPoint.wait → s.idle = [] ∧ addedSinceIterate s.trace = false)

/-- Callbacks for a run on concrete inputs: timer 1 adds idle monitor 5, idle monitor 5
adds no more, socket monitor 3 removes socket monitor 4 when dispatched, and every wait
reports events for the monitors 3 and 4. -/
def sampleLoopEnv : LoopEnv :=
  { clock := fun s => s.now + 10
    timerRun := fun _ t => if t = 1 then [LoopAction.AddIdle 5] else []
    idleRun := fun _ _ => []
    deferredRun := fun _ _ => []
    dispatch := fun _ m _ => if m = 3 then [LoopAction.RemoveFD 9 4] else []
    readEvents := fun _ _ => [(1, 3), (1, 4)]
    ticks_per_ms := 1 }

/-- A loop about to run with timer 1 due at once. -/
def sampleLoop : EventLoop := { timers := [(0, 1)] }

/-! ## The convert filter: the state of the converter -/

/-- The invariant written at the declaration of the member `state`: the `PcmConvert`
object is open exactly when the input format differs from the output format. -/
def ConvertFilter.stateInvariant (f : ConvertFilter) : Prop :=
  f.state_open = true ↔ f.in_audio_format ≠ f.out_audio_format

/-- The destructor `ConvertFilter::~ConvertFilter`: the calls made on `state` up to the
end of the filter. -/
def ConvertFilter.destroy (f : ConvertFilter) : List PcmConvertCall :=
  if f.IsActive then f.calls ++ [PcmConvertCall.Close] else f.calls

/-- A converter that cannot produce DSD and otherwise copies its input. -/
def sampleConvertEnv : PcmConvertEnv :=
  { open_throws := fun _ dest => decide (dest.format = SampleFormat.DSD)
    convert := fun _ _ src => src }

/-- A filter from 44100 Hz to 48000 Hz whose converter is open. -/
def sampleConvertFilter : ConvertFilter :=
  { in_audio_format := { sample_rate := 44100, format := SampleFormat.S16, channels := 2 },
    out_audio_format := { sample_rate := 48000, format := SampleFormat.S16, channels := 2 },
    state_open := true }

/-- The format of a DSD stereo stream. -/
def sampleDsdFormat : AudioFormat :=
  { sample_rate := 2822400, format := SampleFormat.DSD, channels := 2 }

/-! ## ALSA: the variants of one format -/

/-- The first variant of a format, in the order native, packed, byte-swapped,
byte-swapped packed, that the device answers with something other than `-EINVAL`. -/
def answeredVariant (cfg : AlsaBuild) (dev : AlsaFormat → Int) (fmt : AlsaFormat) :
    Option AlsaFormat :=
  (byteSwapVariants cfg fmt).find? (fun v => decide (dev v ≠ -EINVAL))

/-- Whether an ALSA format is one of the packed 3-byte formats. -/
def AlsaFormat.isPacked24 : AlsaFormat → Bool
  | .S24_3LE => true
  | .S24_3BE => true
  | _ => false

/-- A device that takes 24-bit samples only packed in three bytes, big-endian. -/
def samplePackedDevice : AlsaFormat → Int
  | .S24_3BE => 0
  | _ => -EINVAL

/-! ## The event loop: the deferred queue -/

/-- The invariant of the deferred queue: a `DeferredMonitor` has its `pending` flag set
exactly when it is in the queue `deferred`, and no monitor is in the queue twice. -/
def deferredInvariant (s : EventLoop) : Prop :=
  (∀ d, d ∈ s.pending ↔ d ∈ s.deferred) ∧ s.deferred.Nodup

/-- The loop as `HandleDeferred` leaves it when it unlocks the mutex to call
`RunDeferred` on the front monitor `d`, `rest` being the queue behind it. -/
def EventLoop.beforeRunDeferred (s : EventLoop) (d : Nat) (rest : List Nat) : EventLoop :=
  { s with deferred := rest, pending := s.pending.filter (fun x => x ≠ d),
           trace := LoopEvent.deferred d :: s.trace }

/-- A loop at the head of the loop of `HandleDeferred` with the monitors 7 and 8 queued. -/
def sampleDeferredLoop : EventLoop :=
  { point := RunPoint.deferred, deferred := [7, 8], pending := [8, 7] }

/-- Callbacks for a run on concrete inputs: deferred monitor 7 queues itself and monitor 9
again and takes monitor 8 off the queue; nothing else does anything. -/
def sampleDeferredEnv : LoopEnv :=
  { clock := fun s => s.now + 10
    timerRun := fun _ _ => []
    idleRun := fun _ _ => []
    deferredRun := fun _ d =>
      if d = 7 then [LoopAction.AddDeferred 7, LoopAction.AddDeferred 9,
        LoopAction.RemoveDeferred 8, LoopAction.AddDeferred 9] else []
    dispatch := fun _ _ _ => []
    readEvents := fun _ _ => []
    ticks_per_ms := 1 }

/-! ## The ALSA output plugin: hardware parameters (`AlsaOutputPlugin.cxx`) -/

/-- The constant `MPD_ALSA_RETRY_NR`. -/
def MPD_ALSA_RETRY_NR : Nat := 5

/-- The constant `MPD_ALSA_BUFFER_TIME_US`. -/
def MPD_ALSA_BUFFER_TIME_US : Nat := 500000

/-- The error number `EPIPE`. -/
def EPIPE : Int := 32

/-- The error number `EAGAIN`. -/
def EAGAIN : Int := 11

/-- The error number `EINTR`. -/
def EINTR : Int := 4

/-- What the plugin throws, named by the library call that failed (with its result), and
`dop` for "Failed to configure DSD-over-PCM". -/
inductive AlsaError where
  | hw_params_any (err : Int)
  | set_access (err : Int)
  | format (format : SampleFormat) (err : Int)
  | channels (channels : Nat) (err : Int)
  | sample_rate (requested : Nat) (err : Int)
  | sample_rate_zero (sample_rate : Nat)
  | set_buffer_time_near (err : Int)
  | set_period_time_near (err : Int)
  | hw_params (err : Int)
  | get_buffer_size (err : Int)
  | get_period_size (err : Int)
  | sw_params_current (err : Int)
  | set_start_threshold (err : Int)
  | set_avail_min (err : Int)
  | sw_params (err : Int)
  | dop
  | writei (err : Int)
  deriving DecidableEq, Repr

/-- What libasound answers during one pass over the label `configure_hw`: the result of
each call and, for the calls that take a pointer, the value left behind it.  The calls
that take a value answer as a function of that value. -/
structure HwAnswers where
  hw_params_any : Int
  set_access : Int
  set_format : AlsaFormat → Int
  set_channels_near : Nat → Int × Nat
  set_rate_near : Nat → Int × Nat
  set_buffer_time_near : Nat → Int × Nat
  get_buffer_time : Int × Nat
  set_period_time_near : Nat → Int × Nat
  hw_params : Int

/-- The arguments and local variables of `AlsaSetupHw` that live across a jump to
`configure_hw`, and the number of calls of `snd_pcm_hw_params` made so far. -/
structure HwVars where
  buffer_time : Nat
  period_time : Nat
  audio_format : AudioFormat
  params : Params
  retry : Nat := MPD_ALSA_RETRY_NR
  period_time_ro : Nat
  hw_params_calls : Nat := 0
  deriving DecidableEq, Repr

/-- How one pass from the label `configure_hw` ends: with an exception, with the jump
back to the label, or with the return (the sample rate the device was configured with is
kept for reference). -/
inductive HwPass where
  | thrown (e : AlsaError) (v : HwVars)
  | configure_hw (v : HwVars)
  | returned (v : HwVars) (output_sample_rate : Nat)
  deriving DecidableEq, Repr

/-- The variables with which a pass ends. -/
def HwPass.vars : HwPass → HwVars
  | .thrown _ v => v
  | .configure_hw v => v
  | .returned v _ => v

/-- What the parts of a pass before `snd_pcm_hw_params` leave alone: the retry counter
and the count of calls. -/
def HwVars.sameRetry (v v1 : HwVars) : Prop :=
  v1.retry = v.retry ∧ v1.hw_params_calls = v.hw_params_calls

/-- The first part of a pass of `AlsaSetupHw`, from the label `configure_hw` to the
assignment of `audio_format.channels`: access mode, sample format, channels. -/
def AlsaSetupHw_format (be : Bool) (cfg : AlsaBuild) (d : HwAnswers) (v : HwVars) :
    Except (AlsaError × HwVars) HwVars :=
  if d.hw_params_any < 0 then Except.error (AlsaError.hw_params_any d.hw_params_any, v)
  else if d.set_access < 0 then Except.error (AlsaError.set_access d.set_access, v)
  else
    let f := AlsaSetupFormat be cfg d.set_format v.audio_format v.params
    let v1 := { v with audio_format := f.2.1, params := f.2.2 }
    if f.1 < 0 then Except.error (AlsaError.format v1.audio_format.format f.1, v1)
    else
      let c := d.set_channels_near v1.audio_format.channels
      if c.1 < 0 then Except.error (AlsaError.channels v1.audio_format.channels c.1, v1)
      else Except.ok { v1 with audio_format := { v1.audio_format with channels := c.2 % 256 } }

/-- The second part of a pass of `AlsaSetupHw`: the sample rate.  The result carries the
local variable `output_sample_rate`. -/
def AlsaSetupHw_rate (d : HwAnswers) (v : HwVars) : Except (AlsaError × HwVars) (HwVars × Nat) :=
  let requested_sample_rate := v.params.CalcOutputSampleRate v.audio_format.sample_rate
  let r := d.set_rate_near requested_sample_rate
  let output_sample_rate := r.2 % 2 ^ 32
  if r.1 < 0 then Except.error (AlsaError.sample_rate requested_sample_rate r.1, v)
  else if output_sample_rate = 0 then
    Except.error (AlsaError.sample_rate_zero v.audio_format.sample_rate, v)
  else if output_sample_rate ≠ requested_sample_rate then
    Except.ok ({ v with audio_format := { v.audio_format with
        sample_rate := v.params.CalcInputSampleRate output_sample_rate } }, output_sample_rate)
  else Except.ok (v, output_sample_rate)

/-- The buffer time as the third part of a pass of `AlsaSetupHw` leaves it: set near the
configured time, or read from the device when none is configured. -/
def AlsaSetupHw_buffer_time (d : HwAnswers) (v : HwVars) : Except (AlsaError × HwVars) HwVars :=
  if v.buffer_time > 0 then
    let b := d.set_buffer_time_near v.buffer_time
    if b.1 < 0 then Except.error (AlsaError.set_buffer_time_near b.1, v)
    else Except.ok { v with buffer_time := b.2 % 2 ^ 32 }
  else
    let b := d.get_buffer_time
    Except.ok { v with buffer_time := if b.1 < 0 then 0 else b.2 % 2 ^ 32 }

/-- The period time as the third part of a pass of `AlsaSetupHw` leaves it: a quarter of
the buffer time by default, and set near `period_time_ro` when that is not 0. -/
def AlsaSetupHw_period_time (d : HwAnswers) (v : HwVars) : Except (AlsaError × HwVars) HwVars :=
  let v1 :=
    if v.period_time_ro = 0 ∧ v.buffer_time ≥ 10000 then
      { v with period_time_ro := v.buffer_time / 4, period_time := v.buffer_time / 4 }
    else v
  if v1.period_time_ro > 0 then
    let p := d.set_period_time_near v1.period_time_ro
    if p.1 < 0 then
      Except.error (AlsaError.set_period_time_near p.1,
        { v1 with period_time := v1.period_time_ro })
    else Except.ok { v1 with period_time := p.2 % 2 ^ 32 }
  else Except.ok v1

/-- The body of `AlsaSetupHw` from the label `configure_hw` up to the call of
`snd_pcm_hw_params`: an exception, or the variables and the configured sample rate. -/
def AlsaSetupHw_settings (be : Bool) (cfg : AlsaBuild) (d : HwAnswers) (v : HwVars) :
    Except (AlsaError × HwVars) (HwVars × Nat) :=
  match AlsaSetupHw_format be cfg d v with
  | Except.error e => Except.error e
  | Except.ok v1 =>
    match AlsaSetupHw_rate d v1 with
    | Except.error e => Except.error e
    | Except.ok (v2, output_sample_rate) =>
      match AlsaSetupHw_buffer_time d v2 with
      | Except.error e => Except.error e
      | Except.ok v3 =>
        match AlsaSetupHw_period_time d v3 with
        | Except.error e => Except.error e
        | Except.ok v4 => Except.ok (v4, output_sample_rate)

/-- The value of an `unsigned` after `--`: one less, and `UINT_MAX` from 0. -/
def decrement_unsigned (n : Nat) : Nat := (n + 2 ^ 32 - 1) % 2 ^ 32

/-- The end of a pass of `AlsaSetupHw`: the result `err` of `snd_pcm_hw_params` is
examined.  `--retry` is evaluated only when `err == -EPIPE`. -/
def AlsaSetupHw_commit (err : Int) (v : HwVars) (output_sample_rate : Nat) : HwPass :=
  let v0 := { v with hw_params_calls := v.hw_params_calls + 1 }
  if err = -EPIPE then
    let v1 := { v0 with retry := decrement_unsigned v0.retry }
    if v1.retry > 0 ∧ v1.period_time_ro > 0 then
      HwPass.configure_hw { v1 with period_time_ro := v1.period_time_ro / 2 }
    else if err < 0 then HwPass.thrown (AlsaError.hw_params err) v1
    else HwPass.returned v1 output_sample_rate
  else if err < 0 then HwPass.thrown (AlsaError.hw_params err) v0
  else HwPass.returned v0 output_sample_rate

/-- One pass of `AlsaSetupHw` from the label `configure_hw`. -/
def AlsaSetupHw_pass (be : Bool) (cfg : AlsaBuild) (d : HwAnswers) (v : HwVars) : HwPass :=
  match AlsaSetupHw_settings be cfg d v with
  | Except.error (e, v1) => HwPass.thrown e v1
  | Except.ok (v1, output_sample_rate) => AlsaSetupHw_commit d.hw_params v1 output_sample_rate

/-- At most `fuel` passes of `AlsaSetupHw` from the label `configure_hw`, the device
answering pass number `pass` with `dev pass`; `none` when a further pass is due. -/
def AlsaSetupHw_from (be : Bool) (cfg : AlsaBuild) (dev : Nat → HwAnswers) :
    Nat → Nat → HwVars → Option HwPass
  | 0, _, _ => none
  | fuel + 1, pass, v =>
    match AlsaSetupHw_pass be cfg (dev pass) v with
    | HwPass.configure_hw v1 => AlsaSetupHw_from be cfg dev fuel (pass + 1) v1
    | r => some r

/-- The function `AlsaSetupHw`, with room for `MPD_ALSA_RETRY_NR` passes. -/
def AlsaSetupHw (be : Bool) (cfg : AlsaBuild) (dev : Nat → HwAnswers)
    (buffer_time period_time : Nat) (audio_format : AudioFormat) (params : Params) :
    Option HwPass :=
  AlsaSetupHw_from be cfg dev MPD_ALSA_RETRY_NR 0
    { buffer_time := buffer_time, period_time := period_time, audio_format := audio_format,
      params := params, period_time_ro := period_time }

/-- Answers of a device that takes every setting as asked and 16 bit samples only. -/
def sampleHwAnswers : HwAnswers :=
  { hw_params_any := 0
    set_access := 0
    set_format := fun f => if f = AlsaFormat.S16_LE then 0 else -EINVAL
    set_channels_near := fun c => (0, c)
    set_rate_near := fun r => (0, r)
    set_buffer_time_near := fun t => (0, t)
    get_buffer_time := (0, 500000)
    set_period_time_near := fun t => (0, t)
    hw_params := 0 }

/-- A device that answers `snd_pcm_hw_params` with `-EPIPE` in every pass. -/
def sampleBrokenPipeDevice : Nat → HwAnswers :=
  fun _ => { sampleHwAnswers with hw_params := -EPIPE }

/-- A device that configures 48000 Hz whatever rate it is asked for and accepts the
settings in the third pass. -/
def sampleNearRateDevice : Nat → HwAnswers :=
  fun pass => { sampleHwAnswers with
    set_rate_near := fun _ => (0, 48000)
    hw_params := if pass < 2 then -EPIPE else 0 }

/-- The variables with which `AlsaSetupHw` returns from the third pass on that device,
asked for a DoP stream of 352800 Hz. -/
def sampleNearRateVars : HwVars :=
  { buffer_time := 500000, period_time := 31250,
    audio_format := { sample_rate := 96000, format := SampleFormat.S16, channels := 2 },
    params := { dop := true }, retry := 3, period_time_ro := 31250, hw_params_calls := 3 }

/-! ## The ALSA output plugin: `Setup`, `SetupDop`, `SetupOrDop` -/

/-- The number of values of `snd_pcm_uframes_t`, an `unsigned long`: `2^64` where `long`
has 64 bits and `2^32` where it has 32. -/
def uframes_range (lp64 : Bool) : Nat := if lp64 then 2 ^ 64 else 2 ^ 32

/-- The difference of two `snd_pcm_uframes_t` values as the machine computes it. -/
def uframes_sub (lp64 : Bool) (a b : Nat) : Nat :=
  (a % uframes_range lp64 + uframes_range lp64 - b % uframes_range lp64) % uframes_range lp64

/-- A call on the PCM device or on the exporter that the playback methods make. -/
inductive AlsaCall where
  | writei (nframes : Nat)
  | WriteSilence (nframes : Nat)
  | drain
  | drop
  | prepare
  | pause
  | resume
  | export_reset
  deriving DecidableEq, Repr

/-- The fields of `AlsaOutput` that `Setup`, `Recover`, `Drain`, `Cancel` and `PlayRaw` use.
`silence` is the length in frames of the allocated silence buffer, `none` when there is
none; `log` lists the calls made by the playback methods, oldest first. -/
structure AlsaOutput where
  dop : Bool := false
  buffer_time : Nat := MPD_ALSA_BUFFER_TIME_US
  period_time : Nat := 0
  period_frames : Nat := 0
  period_position : Nat := 0
  must_prepare : Bool := false
  silence : Option Nat := none
  log : List AlsaCall := []
  deriving DecidableEq, Repr

/-- What libasound answers during one call of `Setup`: the answers to the passes of
`AlsaSetupHw`, the buffer and period size it reports, and the results of the four calls of
`AlsaSetupSw`. -/
structure SetupAnswers where
  hw : Nat → HwAnswers
  get_buffer_size : Int × Nat
  get_period_size : Int × Nat
  sw_params_current : Int
  set_start_threshold : Nat → Int
  set_avail_min : Nat → Int
  sw_params : Int

/-- How `Setup`, `SetupDop` or `SetupOrDop` ends: the exception thrown, if any, and the
object and the two arguments passed by reference as they are left. -/
structure SetupResult where
  error : Option AlsaError := none
  output : AlsaOutput
  audio_format : AudioFormat
  params : Params
  deriving DecidableEq, Repr

/-- The function `AlsaSetupSw`: the exception it throws, if any. -/
def AlsaSetupSw (d : SetupAnswers) (start_threshold avail_min : Nat) : Option AlsaError :=
  if d.sw_params_current < 0 then some (AlsaError.sw_params_current d.sw_params_current)
  else if d.set_start_threshold start_threshold < 0 then
    some (AlsaError.set_start_threshold (d.set_start_threshold start_threshold))
  else if d.set_avail_min avail_min < 0 then
    some (AlsaError.set_avail_min (d.set_avail_min avail_min))
  else if d.sw_params < 0 then some (AlsaError.sw_params d.sw_params)
  else none

/-- The part of `AlsaOutput::Setup` after `AlsaSetupHw` has returned. -/
def AlsaOutput.SetupSizes (lp64 : Bool) (d : SetupAnswers) (ao : AlsaOutput)
    (audio_format : AudioFormat) (params : Params) : SetupResult :=
  let r : SetupResult := { output := ao, audio_format := audio_format, params := params }
  if d.get_buffer_size.1 < 0 then
    { r with error := some (AlsaError.get_buffer_size d.get_buffer_size.1) }
  else if d.get_period_size.1 < 0 then
    { r with error := some (AlsaError.get_period_size d.get_period_size.1) }
  else
    let alsa_buffer_size := d.get_buffer_size.2 % uframes_range lp64
    let alsa_period_size := d.get_period_size.2 % uframes_range lp64
    match AlsaSetupSw d (uframes_sub lp64 alsa_buffer_size alsa_period_size)
        alsa_period_size with
    | some e => { r with error := some e }
    | none =>
      let alsa_period_size1 := if alsa_period_size = 0 then 1 else alsa_period_size
      { r with output := { ao with period_frames := alsa_period_size1, period_position := 0,
                                   silence := some alsa_period_size1 } }

/-- The method `AlsaOutput::Setup`; `none` only if `AlsaSetupHw` were to need a further
pass. -/
def AlsaOutput.Setup (lp64 be : Bool) (cfg : AlsaBuild) (d : SetupAnswers) (ao : AlsaOutput)
    (audio_format : AudioFormat) (params : Params) : Option SetupResult :=
  match AlsaSetupHw be cfg d.hw ao.buffer_time ao.period_time audio_format params with
  | none => none
  | some (HwPass.configure_hw _) => none
  | some (HwPass.thrown e v) =>
    some { error := some e, output := ao, audio_format := v.audio_format, params := v.params }
  | some (HwPass.returned v _) => some (ao.SetupSizes lp64 d v.audio_format v.params)

/-- The method `AlsaOutput::SetupDop`.  The audio format is passed by value; the result
carries the local `dop_format`. -/
def AlsaOutput.SetupDop (lp64 be : Bool) (cfg : AlsaBuild) (d : SetupAnswers)
    (ao : AlsaOutput) (audio_format : AudioFormat) (params : Params) : Option SetupResult :=
  let check : AudioFormat := { audio_format with format := SampleFormat.S24_P32 }
  match ao.Setup lp64 be cfg d check params with
  | none => none
  | some r =>
    if r.error.isSome then some r
    else
      let params1 := { r.params with shift8 := decide (r.audio_format.format = SampleFormat.S32) }
      let dop_format :=
        if r.audio_format.format = SampleFormat.S32 then
          { r.audio_format with format := SampleFormat.S24_P32 }
        else r.audio_format
      if dop_format ≠ check then
        some { error := some AlsaError.dop, output := { r.output with silence := none },
               audio_format := dop_format, params := params1 }
      else some { r with audio_format := dop_format, params := params1 }

/-- The method `AlsaOutput::SetupOrDop`; `d1` answers the attempt with DoP and `d2` the
call of `Setup` that follows when there was no such attempt or it failed. -/
def AlsaOutput.SetupOrDop (lp64 be : Bool) (cfg : AlsaBuild) (d1 d2 : SetupAnswers)
    (ao : AlsaOutput) (audio_format : AudioFormat) (params : Params) : Option SetupResult :=
  if cfg.ENABLE_DSD ∧ ao.dop = true ∧ audio_format.format = SampleFormat.DSD then
    match ao.SetupDop lp64 be cfg d1 audio_format { params with dop := true } with
    | none => none
    | some r =>
      match r.error with
      | none => some { r with audio_format := audio_format }
      | some dop_error =>
        match r.output.Setup lp64 be cfg d2 audio_format { r.params with dop := false } with
        | none => none
        | some r2 => some (if r2.error.isSome then { r2 with error := some dop_error } else r2)
  else ao.Setup lp64 be cfg d2 audio_format params

/-- Answers of a device that takes 32 bit samples only and every other setting as asked,
and reports a buffer of 4096 frames in periods of 1024. -/
def sampleSetupAnswers : SetupAnswers :=
  { hw := fun _ => { sampleHwAnswers with
      set_format := fun f => if f = AlsaFormat.S32_LE then 0 else -EINVAL }
    get_buffer_size := (0, 4096)
    get_period_size := (0, 1024)
    sw_params_current := 0
    set_start_threshold := fun _ => 0
    set_avail_min := fun _ => 0
    sw_params := 0 }

/-- Answers of a device like that one which configures 48000 Hz whatever it is asked. -/
def sampleResamplingAnswers : SetupAnswers :=
  { sampleSetupAnswers with
    hw := fun _ => { sampleHwAnswers with
      set_format := fun f => if f = AlsaFormat.S32_LE then 0 else -EINVAL
      set_rate_near := fun _ => (0, 48000) } }

/-! ## The ALSA output plugin: `Recover`, `Drain`, `Cancel`, `PlayRaw` -/

/-- The states of a PCM device that `snd_pcm_state` reports. -/
inductive PcmState where
  | OPEN
  | SETUP
  | PREPARED
  | RUNNING
  | XRUN
  | DRAINING
  | PAUSED
  | SUSPENDED
  | DISCONNECTED
  | PRIVATE1
  deriving DecidableEq, Repr

/-- What the device answers during one call of `Recover`: its state and the results of
`snd_pcm_pause`, `snd_pcm_resume` and `snd_pcm_prepare`. -/
structure RecoverAnswers where
  state : PcmState
  pause : Int
  resume : Int
  prepare : Int
  deriving DecidableEq, Repr

/-- What the device answers during one round of the loop of `PlayRaw`: the result of
`snd_pcm_writei` and the answers to the call of `Recover` that may follow. -/
structure WriteAnswers where
  frames_written : Int
  recover : RecoverAnswers
  deriving DecidableEq, Repr

/-- How `PlayRaw` ends: it returns a number of bytes, it throws, or it is still in its
loop when the answers given are used up. -/
inductive PlayResult where
  | returned (bytes : Nat)
  | thrown (e : AlsaError)
  | looping
  deriving DecidableEq, Repr

/-- The period position after `frames_written` more frames, as `PlayRaw` computes it. -/
def advance_period (lp64 : Bool) (period_position period_frames : Nat)
    (frames_written : Int) : Nat :=
  ((period_position + frames_written.toNat) % uframes_range lp64) % period_frames

/-- The method `AlsaOutput::Recover`: the result and the object afterwards. -/
def AlsaOutput.Recover (d : RecoverAnswers) (ao : AlsaOutput) (err : Int) : Int × AlsaOutput :=
  let prepare (a : AlsaOutput) : Int × AlsaOutput :=
    (d.prepare, { a with period_position := 0, log := a.log ++ [AlsaCall.prepare] })
  match d.state with
  | .PAUSED => (d.pause, { ao with log := ao.log ++ [AlsaCall.pause] })
  | .SUSPENDED =>
    let ao1 := { ao with log := ao.log ++ [AlsaCall.resume] }
    if d.resume = -EAGAIN then (0, ao1) else prepare ao1
  | .OPEN => prepare ao
  | .SETUP => prepare ao
  | .XRUN => prepare ao
  | .DISCONNECTED => (err, ao)
  | .PREPARED => (0, ao)
  | .RUNNING => (0, ao)
  | .DRAINING => (0, ao)
  | .PRIVATE1 => (err, ao)

/-- The method `AlsaOutput::Drain`; `state` is what `snd_pcm_state` reports. -/
def AlsaOutput.Drain (lp64 : Bool) (state : PcmState) (ao : AlsaOutput) : AlsaOutput :=
  if state ≠ PcmState.RUNNING then ao
  else
    let ao1 :=
      if ao.period_position > 0 then
        { ao with log := ao.log ++
            [AlsaCall.WriteSilence (uframes_sub lp64 ao.period_frames ao.period_position)] }
      else ao
    { ao1 with log := ao1.log ++ [AlsaCall.drain], period_position := 0 }

/-- The method `AlsaOutput::Cancel`. -/
def AlsaOutput.Cancel (ao : AlsaOutput) : AlsaOutput :=
  { ao with period_position := 0, must_prepare := true,
            log := ao.log ++ [AlsaCall.drop, AlsaCall.export_reset] }

/-- The loop of `AlsaOutput::PlayRaw`, one round for each of the answers given. -/
def AlsaOutput.PlayRaw_loop (lp64 : Bool) (out_frame_size n_frames : Nat) :
    List WriteAnswers → AlsaOutput → PlayResult × AlsaOutput
  | [], ao => (PlayResult.looping, ao)
  | d :: rest, ao =>
    let ao1 := { ao with log := ao.log ++ [AlsaCall.writei n_frames] }
    if d.frames_written > 0 then
      (PlayResult.returned (d.frames_written.toNat * out_frame_size),
        { ao1 with period_position :=
            advance_period lp64 ao1.period_position ao1.period_frames d.frames_written })
    else if d.frames_written < 0 ∧ d.frames_written ≠ -EAGAIN ∧ d.frames_written ≠ -EINTR then
      let r := ao1.Recover d.recover d.frames_written
      if r.1 < 0 then (PlayResult.thrown (AlsaError.writei d.frames_written), r.2)
      else AlsaOutput.PlayRaw_loop lp64 out_frame_size n_frames rest r.2
    else AlsaOutput.PlayRaw_loop lp64 out_frame_size n_frames rest ao1

/-- The method `AlsaOutput::PlayRaw` on `size` bytes of data. -/
def AlsaOutput.PlayRaw (lp64 : Bool) (out_frame_size : Nat) (answers : List WriteAnswers)
    (ao : AlsaOutput) (size : Nat) : PlayResult × AlsaOutput :=
  if size = 0 then (PlayResult.returned 0, ao)
  else ao.PlayRaw_loop lp64 (out_frame_size) (size / out_frame_size) answers

/-- The invariant of the period counters: the position is inside the period, and the
period length is a value of `snd_pcm_uframes_t`. -/
def AlsaOutput.periodInvariant (lp64 : Bool) (ao : AlsaOutput) : Prop :=
  ao.period_position < ao.period_frames ∧ ao.period_frames < uframes_range lp64

/-- Answers of a device that reports a period size of 0. -/
def sampleZeroPeriodAnswers : SetupAnswers :=
  { sampleSetupAnswers with get_period_size := (0, 0) }

/-- An output 300 frames into a period of 1024 frames. -/
def samplePlayingOutput : AlsaOutput :=
  { period_frames := 1024, period_position := 300, silence := some 1024 }

/-- Answers to a write that is interrupted, then hits an underrun from which the device
recovers, then takes 1000 frames. -/
def sampleWriteAnswers : List WriteAnswers :=
  [ { frames_written := -EINTR, recover := ⟨PcmState.RUNNING, 0, 0, 0⟩ },
    { frames_written := -EPIPE, recover := ⟨PcmState.XRUN, 0, 0, 0⟩ },
    { frames_written := 1000, recover := ⟨PcmState.RUNNING, 0, 0, 0⟩ } ]

/-! ## The database file: directories (`db/plugins/simple/DirectorySave.cxx`) -/

/-- The constant `DIRECTORY_DIR`. -/
def DIRECTORY_DIR : List Char := "directory: ".toList

/-- The constant `DIRECTORY_TYPE`. -/
def DIRECTORY_TYPE : List Char := "type: ".toList

/-- The constant `DIRECTORY_MTIME`. -/
def DIRECTORY_MTIME : List Char := "mtime: ".toList

/-- The constant `DIRECTORY_BEGIN`. -/
def DIRECTORY_BEGIN : List Char := "begin: ".toList

/-- The constant `DIRECTORY_END`. -/
def DIRECTORY_END : List Char := "end: ".toList

/-- The constant `SONG_BEGIN` of `SongSave.hxx`, which is not among the sources. -/
def SONG_BEGIN : List Char := "song_begin: ".toList

/-- The constant `PLAYLIST_META_BEGIN` of `PlaylistDatabase.hxx`, which is not among the
sources. -/
def PLAYLIST_META_BEGIN : List Char := "playlist_begin: ".toList

/-- The constant `DEVICE_INARCHIVE` of `Directory.hxx`, which is not among the sources:
`(unsigned)-1`. -/
def DEVICE_INARCHIVE : Nat := 2 ^ 32 - 1

/-- The constant `DEVICE_CONTAINER` of `Directory.hxx`, which is not among the sources:
`(unsigned)-2`. -/
def DEVICE_CONTAINER : Nat := 2 ^ 32 - 2

/-- The fields of a `Directory` that `DirectorySave.cxx` reads and writes, and whether it
is a mount point (`IsMount()`).  The class is not among the sources. -/
structure DirInfo where
  name : List Char
  mtime : Nat := 0
  device : Nat := 0
  mount : Bool := false
  deriving DecidableEq, Repr

/-- The list `children` of a `Directory`, in order: empty, or a first child with its own
children, followed by the children after it. -/
inductive DirectoryList where
  | nil
  | cons (d : DirInfo) (children : DirectoryList) (next : DirectoryList)
  deriving DecidableEq, Repr

/-- The names of the children in a list. -/
def DirectoryList.names : DirectoryList → List (List Char)
  | .nil => []
  | .cons d _ next => d.name :: next.names

/-- The method `Directory::FindChild`, as far as the loader uses it: whether there is a
child of that name. -/
def DirectoryList.FindChild (l : DirectoryList) (name : List Char) : Bool :=
  l.names.contains name

/-- The method `Directory::CreateChild` followed by the filling in of the new child: a
child is added at the end of the list. -/
def DirectoryList.push_back : DirectoryList → DirInfo → DirectoryList → DirectoryList
  | .nil, d, children => .cons d children .nil
  | .cons d0 c0 next, d, children => .cons d0 c0 (next.push_back d children)

/-- The function `DeviceToTypeString`. -/
def DeviceToTypeString (device : Nat) : Option (List Char) :=
  if device = DEVICE_INARCHIVE then some "archive".toList
  else if device = DEVICE_CONTAINER then some "container".toList
  else none

/-- The function `ParseTypeString`. -/
def ParseTypeString (type : List Char) : Nat :=
  if type = "archive".toList then DEVICE_INARCHIVE
  else if type = "container".toList then DEVICE_CONTAINER
  else 0

/-- The decimal digits that `%lu` prints for an `unsigned long`. -/
def formatUnsigned (n : Nat) : List Char :=
  if n = 0 then ['0'] else ((Nat.digits 10 n).reverse.map Nat.digitChar)

/-- The value of a decimal digit, if the character is one. -/
def digitValue (c : Char) : Option Nat :=
  if '0' ≤ c ∧ c ≤ '9' then some (c.toNat - '0'.toNat) else none

/-- The function `ParseUint64` of `util/NumberParser.hxx`, which is not among the sources,
on a text that starts with a digit: the value of the leading decimal digits, `2^64 - 1`
when that does not fit (leading blanks and signs are not modelled). -/
def ParseUint64 (p : List Char) : Nat :=
  let v := (p.takeWhile fun c => (digitValue c).isSome).foldl
    (fun acc c => acc * 10 + (digitValue c).getD 0) 0
  if v < 2 ^ 64 then v else 2 ^ 64 - 1

/-- The function `StringStartsWith`. -/
def StringStartsWith (s pre : List Char) : Bool := pre.isPrefixOf s

/-- The function `StringAfterPrefix`: the rest of the string behind the prefix, if the
string starts with it. -/
def StringAfterPrefix (s pre : List Char) : Option (List Char) :=
  if pre.isPrefixOf s then some (s.drop pre.length) else none

/-- The method `TextFile::ReadLine`, which is not among the sources: the text up to the
next newline, as it is, and the text behind that newline; `none` at the end of the file. -/
def ReadLine (file : List Char) : Option (List Char × List Char) :=
  if file = [] then none
  else some (file.takeWhile (fun c => c ≠ '\n'), (file.dropWhile (fun c => c ≠ '\n')).drop 1)

/-- The path of a child: its name behind the path of its parent and a slash, the root
having the empty path (`Directory::GetPath`). -/
def childPath (parent name : List Char) : List Char :=
  if parent = [] then name else parent ++ '/' :: name

/-- The function `directory_save` on the children of a directory whose path is `path`:
for each child the line naming it and, unless it is a mount point, what
`directory_save` writes for it.  There are no songs and no playlists. -/
def directory_save_children (path : List Char) : DirectoryList → List Char
  | .nil => []
  | .cons d children next =>
    (DIRECTORY_DIR ++ d.name ++ ['\n']) ++
    (if d.mount then []
     else
      (match DeviceToTypeString d.device with
        | some type => DIRECTORY_TYPE ++ type ++ ['\n']
        | none => []) ++
      (if d.mtime ≠ 0 then DIRECTORY_MTIME ++ formatUnsigned d.mtime ++ ['\n'] else []) ++
      (DIRECTORY_BEGIN ++ childPath path d.name ++ ['\n']) ++
      directory_save_children (childPath path d.name) children ++
      (DIRECTORY_END ++ childPath path d.name ++ ['\n'])) ++
    directory_save_children path next

/-- A root directory: its own fields and its children. -/
structure Directory where
  info : DirInfo := { name := [] }
  children : DirectoryList := DirectoryList.nil
  deriving DecidableEq, Repr

/-- The function `directory_save` on the root directory: `IsRoot()` holds, so neither the
type, the mtime and the `begin:` line nor the `end:` line is written, only the children.
The calls on the other directories are part of `directory_save_children`. -/
def directory_save (root : Directory) : List Char :=
  directory_save_children [] root.children

/-- What `directory_load` throws. -/
inductive LoadError where
  | Duplicate (name : List Char)
  | UnexpectedEndOfFile
  | Malformed (line : List Char)
  | song
  | playlist
  deriving DecidableEq, Repr

/-- The function `ParseLine`: the directory with the field set, `none` for `false`. -/
def ParseLine (d : DirInfo) (line : List Char) : Option DirInfo :=
  match StringAfterPrefix line DIRECTORY_MTIME with
  | some p => some { d with mtime := ParseUint64 p }
  | none =>
    match StringAfterPrefix line DIRECTORY_TYPE with
    | some p => some { d with device := ParseTypeString p }
    | none => none

/-- The loop of `directory_load_subdir` that reads the lines before `begin:`; at most
`fuel` lines are read, and `none` means that more are to be read. -/
def directory_load_header : Nat → List Char → DirInfo →
    Option (Except LoadError (DirInfo × List Char))
  | 0, _, _ => none
  | fuel + 1, file, d =>
    match ReadLine file with
    | none => some (Except.error LoadError.UnexpectedEndOfFile)
    | some (line, rest) =>
      if StringStartsWith line DIRECTORY_BEGIN then some (Except.ok (d, rest))
      else
        match ParseLine d line with
        | none => some (Except.error (LoadError.Malformed line))
        | some d1 => directory_load_header fuel rest d1

/-- The function `directory_load_subdir`, given the function that loads the contents:
the children of the parent with the new directory added, and the rest of the file. -/
def directory_load_subdir
    (load : List Char → DirectoryList → Option (Except LoadError (DirectoryList × List Char)))
    (fuel : Nat) (file : List Char) (parent : DirectoryList) (name : List Char) :
    Option (Except LoadError (DirectoryList × List Char)) :=
  if parent.FindChild name then some (Except.error (LoadError.Duplicate name))
  else
    match directory_load_header fuel file { name := name } with
    | none => none
    | some (Except.error e) => some (Except.error e)
    | some (Except.ok (d, rest)) =>
      match load rest DirectoryList.nil with
      | none => none
      | some (Except.error e) => some (Except.error e)
      | some (Except.ok (children, rest1)) =>
        some (Except.ok (parent.push_back d children, rest1))

/-- The function `directory_load` on the children of a directory: at most `fuel` lines
deep, `none` meaning that more are to be read.  Songs and playlists are not loaded: their
lines end the load with an error of their own. -/
def directory_load : Nat → List Char → DirectoryList →
    Option (Except LoadError (DirectoryList × List Char))
  | 0, _, _ => none
  | fuel + 1, file, children =>
    match ReadLine file with
    | none => some (Except.ok (children, []))
    | some (line, rest) =>
      if StringStartsWith line DIRECTORY_END then some (Except.ok (children, rest))
      else
        match StringAfterPrefix line DIRECTORY_DIR with
        | some name =>
          match directory_load_subdir (directory_load fuel) fuel rest children name with
          | none => none
          | some (Except.error e) => some (Except.error e)
          | some (Except.ok (children1, rest1)) => directory_load fuel rest1 children1
        | none =>
          if StringStartsWith line SONG_BEGIN then some (Except.error LoadError.song)
          else if StringStartsWith line PLAYLIST_META_BEGIN then
            some (Except.error LoadError.playlist)
          else some (Except.error (LoadError.Malformed line))

/-- What the loader makes of a saved directory: its name and mtime, the device number of
an archive or container and 0 for any other, and no mount. -/
def DirInfo.loaded (d : DirInfo) : DirInfo :=
  { name := d.name, mtime := d.mtime,
    device := match DeviceToTypeString d.device with
      | some type => ParseTypeString type
      | none => 0 }

/-- The children as the loader rebuilds them, at every depth. -/
def DirectoryList.loaded : DirectoryList → DirectoryList
  | .nil => .nil
  | .cons d children next => .cons d.loaded children.loaded next.loaded

/-- One list of children followed by another. -/
def DirectoryList.append : DirectoryList → DirectoryList → DirectoryList
  | .nil, l => l
  | .cons d children next, l => .cons d children (next.append l)

/-- The trees for which saving and loading is shown to agree: at every depth no child
is a mount point, no name contains a newline, no two children of one directory have the
same name, and every mtime is a value of a 64 bit `unsigned long`. -/
def DirectoryList.savable : DirectoryList → Prop
  | .nil => True
  | .cons d children next =>
    d.mount = false ∧ '\n' ∉ d.name ∧ d.mtime < 2 ^ 64 ∧ d.name ∉ next.names ∧
    children.savable ∧ next.savable

/-- A number of lines that is enough to load what was saved for the children: five for
each directory, at every depth. -/
def DirectoryList.loadFuel : DirectoryList → Nat
  | .nil => 0
  | .cons _ children next => 5 + children.loadFuel + next.loadFuel

/-- Whether two lists of children have the same names in the same nesting and order, the
same mtime for every directory, and the same archive or container type for every
directory. -/
def DirectoryList.sameTree : DirectoryList → DirectoryList → Prop
  | .nil, .nil => True
  | .cons d1 c1 n1, .cons d2 c2 n2 =>
    d1.name = d2.name ∧ d1.mtime = d2.mtime ∧
    DeviceToTypeString d1.device = DeviceToTypeString d2.device ∧
    DirectoryList.sameTree c1 c2 ∧ DirectoryList.sameTree n1 n2
  | _, _ => False

/-- A tree on which the two functions are run: an archive `a` with a subdirectory `x y`,
and a directory `b` on some device. -/
def sampleTree : DirectoryList :=
  .cons { name := "a".toList, mtime := 1700000000, device := DEVICE_INARCHIVE }
    (.cons { name := "x y".toList, mtime := 5 } .nil .nil)
    (.cons { name := "b".toList, device := 77 } .nil .nil)

/-- A root whose only child is a mount point. -/
def sampleMountTree : DirectoryList :=
  .cons { name := "m".toList, mount := true } .nil .nil

/-- A root with two children of the same name. -/
def sampleDuplicateTree : DirectoryList :=
  .cons { name := "a".toList } .nil (.cons { name := "a".toList } .nil .nil)

/-! # Theorems -/

/-! ## Output control -/

/-- For an enabled output whose `fail_timer` was set at `T`, `LockUpdate` without
`force` calls `Open` exactly when `REOPEN_AFTER * 1000`, that is 10000 seconds, have
elapsed, and otherwise returns false leaving the output untouched. -/
theorem LockUpdate_failed_output (thread : Command → AudioOutput → AudioOutput)
    (hz now T : Nat) (ao : AudioOutput) (audio_format : AudioFormat) (mp : Nat)
    (he : ao.enabled = true) (hr : ao.really_enabled = true)
    (hf : ao.fail_timer = some T) :
    ao.LockUpdate thread hz now audio_format mp false =
      if T + 10000 * hz ≤ now then ao.Open thread audio_format mp else (false, ao) := by
  have h10 : 10 * hz * 1000 = 10000 * hz := by ring
  simp [AudioOutput.LockUpdate, he, hr, hf, PeriodClock_Check, REOPEN_AFTER, h10]

/-- C1 (the code at the failing input): with the clock counting milliseconds, an
enabled output that failed at time 0 is not reopened by `LockUpdate(force = false)`
10 seconds, 60 seconds or 9999 seconds later: the call returns false and leaves the
output as it was, without any command.  Only 10000 seconds after the failure does the
call go through `Open`, issue the OPEN command and return true. -/
theorem LockUpdate_reopens_after_10000_seconds :
    (failedOutput 0).LockUpdate openingThread 1000 (10 * 1000) {} 0 false
        = (false, failedOutput 0) ∧
    (failedOutput 0).LockUpdate openingThread 1000 (60 * 1000) {} 0 false
        = (false, failedOutput 0) ∧
    (failedOutput 0).LockUpdate openingThread 1000 (9999 * 1000) {} 0 false
        = (false, failedOutput 0) ∧
    ((failedOutput 0).LockUpdate openingThread 1000 (10000 * 1000) {} 0 false).1 = true ∧
    ((failedOutput 0).LockUpdate openingThread 1000 (10000 * 1000) {} 0 false).2.commands
        = [Command.OPEN] := by
  refine ⟨?_, ?_, ?_, ?_, ?_⟩ <;> decide

/-! ## The chunk pipe -/

/-- Nothing is lost or reordered: what has been shifted, followed by what is still in
the pipe, is what was in the pipe at the start followed by what has been pushed. -/
theorem MusicPipe.run_conserves {α : Type} (ops : List (PipeOp α)) :
    ∀ p : MusicPipe α,
      shiftedChunks (p.run ops).1 ++ (p.run ops).2.chain = p.chain ++ PipeOp.pushed ops := by
  induction ops with
  | nil => intro p; simp [MusicPipe.run, shiftedChunks, PipeOp.pushed]
  | cons op ops ih =>
    intro p
    cases op with
    | Push chunk =>
      simp only [MusicPipe.run, PipeOp.pushed]
      rw [ih (p.Push chunk)]
      simp [MusicPipe.Push]
    | Shift =>
      simp only [MusicPipe.run, PipeOp.pushed]
      cases hc : p.chain with
      | nil =>
        have hs : p.Shift = (none, p) := by simp [MusicPipe.Shift, hc]
        have := ih p
        simp only [hs, shiftedChunks, List.filterMap_cons, id] at this ⊢
        rw [this, hc]
      | cons c rest =>
        have hs : p.Shift = (some c, { chain := rest, size := p.size - 1 }) := by
          simp [MusicPipe.Shift, hc]
        have := ih { chain := rest, size := p.size - 1 }
        simp only [hs, shiftedChunks, List.filterMap_cons, id] at this ⊢
        simp [this]

/-- C2: starting from a new pipe, for every sequence of `Push` and `Shift` calls the
chunks returned by the non-null `Shift` results are, in order, exactly the first `k`
chunks pushed, `k` being the number of those results. -/
theorem MusicPipe_shift_returns_pushed_in_order {α : Type} (ops : List (PipeOp α)) :
    shiftedChunks (({} : MusicPipe α).run ops).1 =
      (PipeOp.pushed ops).take (shiftedChunks (({} : MusicPipe α).run ops).1).length := by
  have h := MusicPipe.run_conserves ops ({} : MusicPipe α)
  simp only [List.nil_append] at h
  rw [← h]
  simp

/-! ## Volume aggregation -/

/-- An output is counted by the loop exactly when `reportedVolume` yields its volume. -/
theorem reportedVolume_eq (ao : AudioOutput) :
    reportedVolume ao =
      if output_mixer_get_volume ao ≥ 0 then some (output_mixer_get_volume ao) else none := by
  simp only [reportedVolume, output_mixer_get_volume]
  cases he : ao.enabled with
  | false => simp
  | true =>
    cases hm : ao.mixer with
    | none => simp
    | some mixer =>
      cases hg : mixer.get_volume with
      | none => simp [hg]
      | some volume => simp [hg]

/-- Every counted volume is non-negative. -/
theorem reportedVolumes_nonneg (outputs : List AudioOutput) :
    ∀ v ∈ reportedVolumes outputs, 0 ≤ v := by
  intro v hv
  simp only [reportedVolumes, List.mem_filterMap, reportedVolume_eq] at hv
  obtain ⟨ao, -, h⟩ := hv
  split at h
  · simp only [Option.some.injEq] at h; omega
  · simp at h

/-- The sum of the counted volumes is non-negative. -/
theorem reportedVolumes_sum_nonneg (outputs : List AudioOutput) :
    0 ≤ (reportedVolumes outputs).sum :=
  List.sum_nonneg (reportedVolumes_nonneg outputs)

/-- At most one volume is counted per output. -/
theorem reportedVolumes_length_le (outputs : List AudioOutput) :
    (reportedVolumes outputs).length ≤ outputs.length := by
  simpa [reportedVolumes] using List.length_filterMap_le reportedVolume outputs

/-- The loop counts (modulo `2^32`) and sums the counted volumes. -/
theorem GetVolume_loop_eq (outputs : List AudioOutput) :
    ∀ (ok : Nat) (total : Int), ok < 2 ^ 32 →
      GetVolume_loop outputs (ok, total) =
        ((ok + (reportedVolumes outputs).length) % 2 ^ 32,
          total + (reportedVolumes outputs).sum) := by
  induction outputs with
  | nil =>
    intro ok total hok
    have h32 : (2 : Nat) ^ 32 = 4294967296 := by norm_num
    rw [h32] at hok
    simp [GetVolume_loop, reportedVolumes, Nat.mod_eq_of_lt hok]
  | cons ao rest ih =>
    intro ok total hok
    have hcons : reportedVolumes (ao :: rest) =
        (match reportedVolume ao with
          | some v => v :: reportedVolumes rest
          | none => reportedVolumes rest) := by
      simp only [reportedVolumes, List.filterMap_cons]
      cases reportedVolume ao <;> rfl
    rw [hcons, reportedVolume_eq]
    simp only [GetVolume_loop]
    by_cases hv : output_mixer_get_volume ao ≥ 0
    · simp only [hv, if_true]
      rw [ih _ _ (Nat.mod_lt _ (by norm_num))]
      simp only [List.length_cons, List.sum_cons, Nat.mod_add_mod]
      refine Prod.ext ?_ ?_
      · simp only; congr 1; omega
      · simp only; omega
    · simp only [hv, if_false]
      rw [ih _ _ hok]

/-- C3: `MultipleOutputs::GetVolume` returns -1 if no output reports a volume and
otherwise the truncated average, sum divided by count, of the volumes of exactly the
outputs that are enabled, have a mixer and whose read returned a non-negative value
without throwing (for fewer than `2^32` outputs whose volumes sum below `2^31`, so
that neither `ok` nor `total` overflows). -/
theorem GetVolume_is_average_of_reported (outputs : List AudioOutput)
    (hlen : outputs.length < 2 ^ 32) (hsum : (reportedVolumes outputs).sum < 2 ^ 31) :
    MultipleOutputs_GetVolume outputs =
      if (reportedVolumes outputs).length = 0 then -1
      else (reportedVolumes outputs).sum / ((reportedVolumes outputs).length : Int) := by
  have h32 : (2 : Nat) ^ 32 = 4294967296 := by norm_num
  have hcnt : (reportedVolumes outputs).length < 4294967296 :=
    lt_of_le_of_lt (reportedVolumes_length_le outputs) (h32 ▸ hlen)
  have h0 := reportedVolumes_sum_nonneg outputs
  unfold MultipleOutputs_GetVolume
  rw [GetVolume_loop_eq outputs 0 0 (by norm_num)]
  simp only [Nat.zero_add, Int.zero_add, h32, Nat.mod_eq_of_lt hcnt]
  by_cases hz : (reportedVolumes outputs).length = 0
  · simp [hz]
  · simp only [hz, if_false]
    obtain ⟨s, hs⟩ := Int.eq_ofNat_of_zero_le h0
    rw [hs] at hsum ⊢
    have hs31 : s < 2147483648 := by
      have : ((s : Nat) : Int) < 2147483648 := by simpa using hsum
      exact_mod_cast this
    have hmod : ((s : Int) % 2 ^ 32).toNat = s := by omega
    rw [hmod]
    have hq : s / (reportedVolumes outputs).length < 2147483648 :=
      lt_of_le_of_lt (Nat.div_le_self _ _) hs31
    unfold unsigned_to_int
    rw [h32, Nat.mod_eq_of_lt (by omega)]
    simp only [show (2 : Nat) ^ 31 = 2147483648 by norm_num, hq, if_true]
    exact Int.natCast_div _ _

/-- C3 at a concrete input: of six outputs only the volumes 50 and 75 count, and the
result is their truncated average 62. -/
theorem GetVolume_is_average_of_reported_witness :
    sampleOutputs.length < 2 ^ 32 ∧ (reportedVolumes sampleOutputs).sum < 2 ^ 31 ∧
    MultipleOutputs_GetVolume sampleOutputs =
      (if (reportedVolumes sampleOutputs).length = 0 then -1
       else (reportedVolumes sampleOutputs).sum / ((reportedVolumes sampleOutputs).length : Int)) ∧
    MultipleOutputs_GetVolume sampleOutputs = 62 :=
  ⟨by decide, by decide,
    GetVolume_is_average_of_reported sampleOutputs (by decide) (by decide), by decide⟩

/-! ## PCM export: sample rates -/

/-- C4 as stated fails: with `dsd_u16` the rate 11025 is halved to 5512 and doubled
back to 11024. -/
theorem CalcInputSampleRate_of_odd_rate :
    Params.CalcInputSampleRate { dsd_u16 := true }
      (Params.CalcOutputSampleRate { dsd_u16 := true } 11025) ≠ 11025 := by
  decide

/-- C4 (amended): for every `Params` value and every 32-bit sample rate `x`,
`CalcInputSampleRate (CalcOutputSampleRate x)` is `x` rounded down to a multiple of
the rate divisor of the set DSD flags; it is `x` exactly when `x` is such a multiple. -/
theorem CalcInputSampleRate_CalcOutputSampleRate (p : Params) (x : Nat) (hx : x < 2 ^ 32) :
    p.CalcInputSampleRate (p.CalcOutputSampleRate x) = x - x % p.rateDivisor ∧
    (p.CalcInputSampleRate (p.CalcOutputSampleRate x) = x ↔ x % p.rateDivisor = 0) := by
  obtain ⟨a, b, c, d, e, f, g⟩ := p
  have h32 : (2 : Nat) ^ 32 = 4294967296 := by norm_num
  simp only [Params.CalcInputSampleRate, Params.CalcOutputSampleRate, Params.rateDivisor,
    h32] at hx ⊢
  cases b <;> cases c <;> cases d <;> simp <;> omega

/-- C4 (amended), at a concrete input: the DSD rate 705600 with `dsd_u32`. -/
theorem CalcInputSampleRate_CalcOutputSampleRate_witness :
    (705600 < 2 ^ 32) ∧
    (Params.CalcInputSampleRate { dsd_u32 := true }
        (Params.CalcOutputSampleRate { dsd_u32 := true } 705600)
      = 705600 - 705600 % Params.rateDivisor { dsd_u32 := true } ∧
     (Params.CalcInputSampleRate { dsd_u32 := true }
        (Params.CalcOutputSampleRate { dsd_u32 := true } 705600) = 705600
      ↔ 705600 % Params.rateDivisor { dsd_u32 := true } = 0)) :=
  ⟨by norm_num, CalcInputSampleRate_CalcOutputSampleRate { dsd_u32 := true } 705600 (by norm_num)⟩

/-! ## PCM export: buffers, words and loops -/

/-- A word occupies `k` bytes. -/
theorem wordBytes_length (be : Bool) (k w : Nat) : (wordBytes be k w).length = k := by
  cases be <;> simp [wordBytes]

/-- The rounds of a loop whose `emit` ignores the round number do not depend on it. -/
theorem frameLoop_index_irrelevant (adv : Nat) (emit : List Byte → List Byte) :
    ∀ (n i j : Nat) (src : List Byte),
      frameLoop adv (fun _ p => emit p) n i src = frameLoop adv (fun _ p => emit p) n j src := by
  intro n
  induction n with
  | zero => intro i j src; rfl
  | succ n ih => intro i j src; simp only [frameLoop]; rw [ih (i + 1) (j + 1)]

/-- A loop of `n` rounds that each write `L` bytes writes `n * L` bytes. -/
theorem frameLoop_length (adv L : Nat) (emit : Nat → List Byte → List Byte)
    (hL : ∀ i p, adv ≤ p.length → (emit i p).length = L) :
    ∀ (n i : Nat) (src : List Byte), n * adv ≤ src.length →
      (frameLoop adv emit n i src).length = n * L := by
  intro n
  induction n with
  | zero => intro i src _; simp [frameLoop]
  | succ n ih =>
    intro i src h
    have h1 : adv ≤ src.length := by
      have : (n + 1) * adv = n * adv + adv := by ring
      omega
    have h2 : n * adv ≤ (src.drop adv).length := by
      have : (n + 1) * adv = n * adv + adv := by ring
      simp only [List.length_drop]; omega
    simp only [frameLoop, List.length_append, hL i src h1, ih (i + 1) _ h2]
    ring

/-- Round `j` of a loop writes bytes `j * L .. (j + 1) * L` of the output, from the
source advanced `j` times. -/
theorem frameLoop_block (adv L : Nat) (emit : Nat → List Byte → List Byte)
    (hL : ∀ i p, adv ≤ p.length → (emit i p).length = L) :
    ∀ (n i : Nat) (src : List Byte) (j : Nat), n * adv ≤ src.length → j < n →
      ((frameLoop adv emit n i src).drop (j * L)).take L = emit (i + j) (src.drop (j * adv)) := by
  intro n
  induction n with
  | zero => intro i src j _ hj; omega
  | succ n ih =>
    intro i src j h hj
    have hmul : (n + 1) * adv = n * adv + adv := by ring
    have h1 : adv ≤ src.length := by omega
    have h2 : n * adv ≤ (src.drop adv).length := by
      simp only [List.length_drop]; omega
    have hlen := hL i src h1
    cases j with
    | zero =>
      simp only [frameLoop, Nat.zero_mul, List.drop_zero, Nat.add_zero]
      exact List.take_left' hlen
    | succ j =>
      have hj' : j < n := by omega
      have hidx : (j + 1) * L = (emit i src).length + j * L := by rw [hlen]; ring
      simp only [frameLoop]
      have e1 : i + 1 + j = i + (j + 1) := by omega
      have e2 : adv + j * adv = (j + 1) * adv := by ring
      rw [hidx, List.drop_append, ih (i + 1) (src.drop adv) j h2 hj', List.drop_drop, e1, e2]

/-- The pieces of a `flatMap` over `range n` with pieces of length `k`. -/
theorem flatMap_range_length (f : Nat → List Byte) (k : Nat) (hk : ∀ c, (f c).length = k)
    (n : Nat) : ((List.range n).flatMap f).length = n * k := by
  induction n with
  | zero => simp
  | succ n ih =>
    rw [List.range_succ, List.flatMap_append, List.length_append, ih]
    simp [hk]; ring

/-- Piece `c` of a `flatMap` over `range n` with pieces of length `k`. -/
theorem flatMap_range_block (f : Nat → List Byte) (k : Nat) (hk : ∀ c, (f c).length = k) :
    ∀ (n c : Nat), c < n → (((List.range n).flatMap f).drop (c * k)).take k = f c := by
  intro n
  induction n with
  | zero => intro c hc; omega
  | succ n ih =>
    intro c hc
    rw [List.range_succ, List.flatMap_append]
    have hlen := flatMap_range_length f k hk n
    by_cases hcn : c < n
    · have hle : c * k + k ≤ ((List.range n).flatMap f).length := by
        rw [hlen]
        calc c * k + k = (c + 1) * k := by ring
          _ ≤ n * k := Nat.mul_le_mul_right k hcn
      rw [List.drop_append_of_le_length (by omega), List.take_append_of_le_length
        (by simp only [List.length_drop]; omega)]
      exact ih c hcn
    · have hc' : c = n := by omega
      subst hc'
      have : c * k = ((List.range c).flatMap f).length + 0 := by rw [hlen]; rfl
      rw [this, List.drop_append]
      simp [hk]

/-- A block inside a block. -/
theorem drop_take_drop_take (l : List Byte) (a m b k : Nat) (h : b + k ≤ m) :
    (((l.drop a).take m).drop b).take k = (l.drop (a + b)).take k := by
  rw [List.drop_take, List.take_take, List.drop_drop]
  congr 1
  omega

/-- The memory image of a list of words: one word after the other. -/
theorem wordsBytes_cons (be : Bool) (k w : Nat) (ws : List Nat) :
    wordsBytes be k (w :: ws) = wordBytes be k w ++ wordsBytes be k ws := by
  simp [wordsBytes]

/-- A list of `n` words of `k` bytes occupies `n * k` bytes. -/
theorem wordsBytes_length (be : Bool) (k : Nat) (ws : List Nat) :
    (wordsBytes be k ws).length = ws.length * k := by
  induction ws with
  | nil => simp [wordsBytes]
  | cons w ws ih => rw [wordsBytes_cons, List.length_append, ih, wordBytes_length]; simp; ring

/-- Reading back a 4-byte word. -/
theorem wordValue_wordBytes4 (be : Bool) (w : Nat) :
    wordValue be (wordBytes be 4 w) = w % 2 ^ 32 := by
  cases be <;> simp [wordValue, wordBytes, List.range_succ, Fin.ofNat] <;> omega

/-- Reading back a 2-byte word. -/
theorem wordValue_wordBytes2 (be : Bool) (w : Nat) :
    wordValue be (wordBytes be 2 w) = w % 2 ^ 16 := by
  cases be <;> simp [wordValue, wordBytes, List.range_succ, Fin.ofNat] <;> omega

/-- A loop over the memory image of `ws` that rewrites each 4-byte word by `g`. -/
theorem frameLoop_words4 (be : Bool) (k : Nat) (emit : List Byte → List Byte)
    (g : Nat → Nat)
    (hemit : ∀ (w : Nat) (rest : List Byte),
      emit (wordBytes be 4 w ++ rest) = wordBytes be k (g w)) :
    ∀ (ws : List Nat) (i : Nat) (tail : List Byte),
      frameLoop 4 (fun _ p => emit p) ws.length i (wordsBytes be 4 ws ++ tail)
        = wordsBytes be k (ws.map g) := by
  intro ws
  induction ws with
  | nil => intro i tail; simp [frameLoop, wordsBytes]
  | cons w ws ih =>
    intro i tail
    simp only [List.length_cons, frameLoop, List.map_cons, wordsBytes_cons, List.append_assoc]
    rw [hemit, List.drop_left' (wordBytes_length be 4 w), ih]

/-! ## PCM export: shift8 and pack24 -/

/-- C6: with only `shift8` set and the export opened for S24_P32, a buffer of `n`
32-bit samples is exported as `n` 32-bit words `out[i] = in[i] << 8` modulo `2^32`:
as many bytes as were given, every sample moved into the high 24 bits, the low
8 bits cleared. -/
theorem Export_shift8 (be : Bool) (channels : Nat) (ws : List Nat) :
    PcmExport.Export be (PcmExport.Open SampleFormat.S24_P32 channels { shift8 := true })
        (wordsBytes be 4 ws)
      = wordsBytes be 4 (ws.map fun w => (w <<< 8) % 2 ^ 32) ∧
    (PcmExport.Export be (PcmExport.Open SampleFormat.S24_P32 channels { shift8 := true })
        (wordsBytes be 4 ws)).length = (wordsBytes be 4 ws).length ∧
    ∀ w : Nat, ((w <<< 8) % 2 ^ 32) % 256 = 0 ∧ ((w <<< 8) % 2 ^ 32) / 256 = w % 2 ^ 24 := by
  have hexp : PcmExport.Export be
      (PcmExport.Open SampleFormat.S24_P32 channels { shift8 := true }) (wordsBytes be 4 ws)
      = wordsBytes be 4 (ws.map fun w => (w <<< 8) % 2 ^ 32) := by
    have hopen : PcmExport.Export be
        (PcmExport.Open SampleFormat.S24_P32 channels { shift8 := true }) (wordsBytes be 4 ws)
        = exportShift8 be (wordsBytes be 4 ws) := by
      simp [PcmExport.Export, PcmExport.Open, sample_format_size]
    rw [hopen]
    unfold exportShift8
    have hlen := wordsBytes_length be 4 ws
    have hn : (wordsBytes be 4 ws).length / 4 = ws.length := by rw [hlen]; simp
    rw [hn, ← hlen, List.drop_length, List.append_nil]
    have h := frameLoop_words4 be 4
      (fun p => wordBytes be 4 ((wordValue be (p.take 4) <<< 8) % 2 ^ 32))
      (fun w => (w <<< 8) % 2 ^ 32)
      (by
        intro w rest
        simp only [List.take_left' (wordBytes_length be 4 w), wordValue_wordBytes4]
        congr 1
        simp only [Nat.shiftLeft_eq]
        norm_num)
      ws 0 []
    simpa using h
  refine ⟨hexp, ?_, ?_⟩
  · rw [hexp, wordsBytes_length, wordsBytes_length, List.length_map]
  · intro w
    simp only [Nat.shiftLeft_eq]
    norm_num
    omega

/-- C7: with only `pack24` set and the export opened for S24_P32, a buffer of `n`
32-bit samples is exported as exactly `3 * n` bytes, bytes `3i .. 3i+2` being the low
24 bits of `in[i]` in host byte order; the top byte of every sample is discarded. -/
theorem Export_pack24 (be : Bool) (channels : Nat) (ws : List Nat) :
    PcmExport.Export be (PcmExport.Open SampleFormat.S24_P32 channels { pack24 := true })
        (wordsBytes be 4 ws)
      = wordsBytes be 3 (ws.map fun w => w % 2 ^ 24) ∧
    (PcmExport.Export be (PcmExport.Open SampleFormat.S24_P32 channels { pack24 := true })
        (wordsBytes be 4 ws)).length = 3 * ws.length ∧
    ∀ v : Nat,
      wordBytes false 3 v = [Fin.ofNat v, Fin.ofNat (v / 256), Fin.ofNat (v / 65536)] ∧
      wordBytes true 3 v = [Fin.ofNat (v / 65536), Fin.ofNat (v / 256), Fin.ofNat v] := by
  have hexp : PcmExport.Export be
      (PcmExport.Open SampleFormat.S24_P32 channels { pack24 := true }) (wordsBytes be 4 ws)
      = wordsBytes be 3 (ws.map fun w => w % 2 ^ 24) := by
    have hopen : PcmExport.Export be
        (PcmExport.Open SampleFormat.S24_P32 channels { pack24 := true }) (wordsBytes be 4 ws)
        = exportPack24 be (wordsBytes be 4 ws) := by
      simp [PcmExport.Export, PcmExport.Open, sample_format_size]
    rw [hopen]
    unfold exportPack24
    have hlen := wordsBytes_length be 4 ws
    have hn : (wordsBytes be 4 ws).length / 4 = ws.length := by rw [hlen]; simp
    rw [hn]
    have h := frameLoop_words4 be 3
      (fun p => if be then (p.drop 1).take 3 else p.take 3)
      (fun w => w % 2 ^ 24)
      (by
        intro w rest
        cases be
        · simp [wordBytes, List.range_succ, Fin.ofNat]
          omega
        · simp [wordBytes, List.range_succ, Fin.ofNat]
          omega)
      ws 0 []
    simpa using h
  refine ⟨hexp, ?_, ?_⟩
  · rw [hexp, wordsBytes_length, List.length_map]; ring
  · intro v
    simp [wordBytes, List.range_succ]

/-! ## PCM export: byte swapping -/

/-- Byte `t` of the block of `k` bytes at offset `a`. -/
theorem getD_block (l : List Byte) (a k t : Nat) (d : Byte) (ht : t < k) :
    ((l.drop a).take k).getD t d = l.getD (a + t) d := by
  simp [List.getD_eq_getElem?_getD, List.getElem?_take, ht]

/-- Byte `t` of a reversed list. -/
theorem getD_reverse (l : List Byte) (t : Nat) (d : Byte) (ht : t < l.length) :
    l.reverse.getD t d = l.getD (l.length - 1 - t) d := by
  simp [List.getD_eq_getElem?_getD, List.getElem?_reverse ht]

/-- A byte of the output read through the block that holds it. -/
theorem getD_of_block (l : List Byte) (k j t : Nat) (d : Byte) (ht : t < k) :
    l.getD (j * k + t) d = ((l.drop (j * k)).take k).getD t d :=
  (getD_block l (j * k) k t d ht).symm

/-- The swapping loop keeps the length. -/
theorem exportReverseEndian_length (k : Nat) (src : List Byte) :
    (exportReverseEndian k src).length = src.length := by
  unfold exportReverseEndian
  have hn : src.length / k * k ≤ src.length := Nat.div_mul_le_self _ _
  rw [List.length_append, frameLoop_length k k _ (by
    intro i p hp
    simp only [List.length_reverse, List.length_take]; omega) _ _ _ hn, List.length_drop]
  omega

/-- The swapping loop reverses the bytes inside every whole sample. -/
theorem exportReverseEndian_getD (k : Nat) (src : List Byte) (i t : Nat)
    (hi : i < src.length / k) (ht : t < k) :
    (exportReverseEndian k src).getD (i * k + t) 0 = src.getD (i * k + (k - 1 - t)) 0 := by
  have hn : src.length / k * k ≤ src.length := Nat.div_mul_le_self _ _
  have hL : ∀ (i : Nat) (p : List Byte), k ≤ p.length →
      ((fun (_ : Nat) (p : List Byte) => (p.take k).reverse) i p).length = k := by
    intro i p hp
    simp only [List.length_reverse, List.length_take]; omega
  have hik : i * k + k ≤ src.length / k * k := by
    calc i * k + k = (i + 1) * k := by ring
      _ ≤ src.length / k * k := Nat.mul_le_mul_right k hi
  unfold exportReverseEndian
  rw [List.getD_append _ _ _ _ (by rw [frameLoop_length k k _ hL _ _ _ hn]; omega),
    getD_of_block _ k i t 0 ht, frameLoop_block k k _ hL _ _ _ i hn hi]
  have hlen : ((src.drop (i * k)).take k).length = k := by
    simp only [List.length_take, List.length_drop]; omega
  rw [getD_reverse _ _ _ (by rw [hlen]; exact ht), hlen, getD_block _ _ _ _ _ (by omega)]

/-- Swapping the swapped samples gives back the samples. -/
theorem reverseLoop_reverseLoop (k : Nat) :
    ∀ (n : Nat) (src tail : List Byte), n * k ≤ src.length →
      frameLoop k (fun _ p => (p.take k).reverse) n 0
          (frameLoop k (fun _ p => (p.take k).reverse) n 0 src ++ tail)
        = src.take (n * k) := by
  intro n
  induction n with
  | zero => intro src tail _; simp [frameLoop]
  | succ n ih =>
    intro src tail h
    have hmul : (n + 1) * k = k + n * k := by ring
    have h1 : k ≤ src.length := by omega
    have h2 : n * k ≤ (src.drop k).length := by
      simp only [List.length_drop]; omega
    have hA : ((src.take k).reverse).length = k := by
      simp only [List.length_reverse, List.length_take]; omega
    simp only [frameLoop, List.append_assoc]
    rw [List.take_left' hA, List.reverse_reverse, List.drop_left' hA,
      frameLoop_index_irrelevant k (fun p => (p.take k).reverse) n (0 + 1) 0 (src.drop k),
      frameLoop_index_irrelevant k (fun p => (p.take k).reverse) n (0 + 1) 0,
      ih (src.drop k) tail h2, hmul, List.take_add]

/-- Swapping twice restores the buffer. -/
theorem exportReverseEndian_involutive (k : Nat) (src : List Byte) :
    exportReverseEndian k (exportReverseEndian k src) = src := by
  have hn : src.length / k * k ≤ src.length := Nat.div_mul_le_self _ _
  have hlen := exportReverseEndian_length k src
  have hloop : (frameLoop k (fun _ p => (p.take k).reverse) (src.length / k) 0 src).length
      = src.length / k * k :=
    frameLoop_length k k _ (by
      intro i p hp
      simp only [List.length_reverse, List.length_take]; omega) _ _ _ hn
  have hdef : ∀ data : List Byte, exportReverseEndian k data
      = frameLoop k (fun _ p => (p.take k).reverse) (data.length / k) 0 data
        ++ data.drop (data.length / k * k) := fun _ => rfl
  rw [hdef (exportReverseEndian k src), hlen, hdef src]
  rw [reverseLoop_reverseLoop k _ _ _ hn, List.drop_left' hloop, List.take_append_drop]

/-- C10: with only `reverse_endian` set, `Export` reverses the byte order inside every
sample of the opened format, returns S8 data unchanged, always returns as many bytes as
it was given, and exporting twice restores the original bytes. -/
theorem Export_reverse_endian (be : Bool) (fmt : SampleFormat) (channels : Nat)
    (src : List Byte) :
    ((PcmExport.Open fmt channels { reverse_endian := true }).Export be src).length
        = src.length ∧
    (∀ i t : Nat, i < src.length / sample_format_size fmt → t < sample_format_size fmt →
      ((PcmExport.Open fmt channels { reverse_endian := true }).Export be src).getD
          (i * sample_format_size fmt + t) 0
        = src.getD (i * sample_format_size fmt + (sample_format_size fmt - 1 - t)) 0) ∧
    (fmt = SampleFormat.S8 →
      (PcmExport.Open fmt channels { reverse_endian := true }).Export be src = src) ∧
    (PcmExport.Open fmt channels { reverse_endian := true }).Export be
        ((PcmExport.Open fmt channels { reverse_endian := true }).Export be src) = src := by
  have hexp : ∀ data : List Byte,
      (PcmExport.Open fmt channels { reverse_endian := true }).Export be data
        = if sample_format_size fmt > 1 then exportReverseEndian (sample_format_size fmt) data
          else data := by
    intro data
    cases fmt <;> simp [PcmExport.Export, PcmExport.Open, sample_format_size]
  rw [hexp, hexp]
  by_cases hk : sample_format_size fmt > 1
  · simp only [hk, if_true]
    refine ⟨exportReverseEndian_length _ _, ?_, ?_, exportReverseEndian_involutive _ _⟩
    · intro i t hi ht
      exact exportReverseEndian_getD _ _ i t hi ht
    · intro h8
      rw [h8] at hk
      simp [sample_format_size] at hk
  · simp only [hk, if_false]
    refine ⟨trivial, ?_, fun _ => trivial, trivial⟩
    intro i t hi ht
    have : t = 0 := by omega
    subst this
    have : sample_format_size fmt = 1 := by omega
    simp [this]

/-! ## PCM export: channel order -/

/-- Piece `q` of a `flatMap` whose pieces all have length `k`. -/
theorem flatMap_block (f : Nat → List Byte) (k : Nat) :
    ∀ (l : List Nat) (q : Nat), (∀ x ∈ l, (f x).length = k) → q < l.length →
      ((l.flatMap f).drop (q * k)).take k = f (l.getD q 0) := by
  intro l
  induction l with
  | nil => intro q _ hq; simp at hq
  | cons x xs ih =>
    intro q hk hq
    have hx : (f x).length = k := hk x (List.mem_cons_self _ _)
    cases q with
    | zero =>
      simp only [List.flatMap_cons, Nat.zero_mul, List.drop_zero, List.getD_cons_zero]
      exact List.take_left' hx
    | succ q =>
      have hidx : (q + 1) * k = (f x).length + q * k := by rw [hx]; ring
      simp only [List.flatMap_cons, List.getD_cons_succ]
      rw [hidx, List.drop_append]
      exact ih q (fun y hy => hk y (List.mem_cons_of_mem _ hy))
        (by simpa using hq)

/-- Two samples are one sample after the other. -/
theorem take_two_samples (p : List Byte) (a s : Nat) :
    (p.drop (a * s)).take (2 * s)
      = (p.drop (a * s)).take s ++ (p.drop ((a + 1) * s)).take s := by
  have h2 : 2 * s = s + s := by ring
  have h1 : (a + 1) * s = a * s + s := by ring
  rw [h2, List.take_add, List.drop_drop, h1]

/-- The 5.1 round written sample by sample. -/
theorem channelOrder51_emit (s : Nat) (p : List Byte) :
    p.take (2 * s) ++ (p.drop (4 * s)).take (2 * s) ++ (p.drop (2 * s)).take (2 * s)
      = [0, 1, 4, 5, 2, 3].flatMap fun x => (p.drop (x * s)).take s := by
  have h0 := take_two_samples p 0 s
  have h4 := take_two_samples p 4 s
  have h2 := take_two_samples p 2 s
  simp only [Nat.zero_mul, List.drop_zero, Nat.zero_add, Nat.one_mul] at h0
  simp only [show 4 + 1 = 5 by rfl] at h4
  simp only [show 2 + 1 = 3 by rfl] at h2
  rw [h0, h4, h2]
  simp [List.flatMap]

/-- The 7.1 round written sample by sample. -/
theorem channelOrder71_emit (s : Nat) (p : List Byte) :
    p.take (2 * s) ++ (p.drop (4 * s)).take (2 * s) ++ (p.drop (2 * s)).take (2 * s)
        ++ (p.drop (6 * s)).take (2 * s)
      = [0, 1, 4, 5, 2, 3, 6, 7].flatMap fun x => (p.drop (x * s)).take s := by
  have h0 := take_two_samples p 0 s
  have h4 := take_two_samples p 4 s
  have h2 := take_two_samples p 2 s
  have h6 := take_two_samples p 6 s
  simp only [Nat.zero_mul, List.drop_zero, Nat.zero_add, Nat.one_mul] at h0
  simp only [show 4 + 1 = 5 by rfl] at h4
  simp only [show 2 + 1 = 3 by rfl] at h2
  simp only [show 6 + 1 = 7 by rfl] at h6
  rw [h0, h4, h2, h6]
  simp [List.flatMap]

/-- Whole frames of `c` samples of `s` bytes fit into the buffer. -/
theorem frames_le_length (len s c : Nat) : len / s / c * (c * s) ≤ len := by
  calc len / s / c * (c * s) = (len / s / c * c) * s := by ring
    _ ≤ (len / s) * s := Nat.mul_le_mul_right s (Nat.div_mul_le_self _ _)
    _ ≤ len := Nat.div_mul_le_self _ _

/-- A buffer of whole frames is filled by its frames. -/
theorem frames_eq_length (len s c : Nat) (h : len % (c * s) = 0) :
    len / s / c * (c * s) = len := by
  rw [Nat.div_div_eq_div_mul, Nat.mul_comm s c]
  exact Nat.div_mul_cancel (Nat.dvd_of_mod_eq_zero h)

/-- A loop that writes the samples of every frame in the order `l`: sample `q` of output
frame `f` is sample `l[q]` of input frame `f`. -/
theorem permLoop_sample (s c : Nat) (l : List Nat) (hl : l.length = c)
    (hlt : ∀ x ∈ l, x < c) (src : List Byte) (f q : Nat)
    (hf : f < src.length / s / c) (hq : q < c) :
    ((frameLoop (c * s) (fun _ p => l.flatMap fun x => (p.drop (x * s)).take s)
        (src.length / s / c) 0 src).drop ((f * c + q) * s)).take s
      = (src.drop ((f * c + l.getD q 0) * s)).take s := by
  have hn := frames_le_length src.length s c
  have hpiece : ∀ (p : List Byte), c * s ≤ p.length → ∀ x ∈ l,
      ((p.drop (x * s)).take s).length = s := by
    intro p hp x hx
    have hxc : x * s + s ≤ c * s := by
      calc x * s + s = (x + 1) * s := by ring
        _ ≤ c * s := Nat.mul_le_mul_right s (hlt x hx)
    simp only [List.length_take, List.length_drop]; omega
  have hL : ∀ (i : Nat) (p : List Byte), c * s ≤ p.length →
      ((fun (_ : Nat) (p : List Byte) => l.flatMap fun x => (p.drop (x * s)).take s) i p).length
        = c * s := by
    intro i p hp
    have hmap : l.map (List.length ∘ fun x => (p.drop (x * s)).take s) = l.map fun _ => s :=
      List.map_congr_left (fun x hx => by simpa using hpiece p hp x hx)
    simp only [List.length_flatMap]
    rw [hmap]
    simp [hl]
  have hfc : f * (c * s) + (c * s) ≤ src.length := by
    calc f * (c * s) + c * s = (f + 1) * (c * s) := by ring
      _ ≤ src.length / s / c * (c * s) := Nat.mul_le_mul_right _ hf
      _ ≤ src.length := hn
  have hqs : q * s + s ≤ c * s := by
    calc q * s + s = (q + 1) * s := by ring
      _ ≤ c * s := Nat.mul_le_mul_right s hq
  have hidx : (f * c + q) * s = f * (c * s) + q * s := by ring
  rw [hidx, ← drop_take_drop_take _ (f * (c * s)) (c * s) (q * s) s hqs,
    frameLoop_block (c * s) (c * s) _ hL _ _ _ f hn hf]
  rw [flatMap_block _ s l q (hpiece _ (by simp only [List.length_drop]; omega)) (by omega),
    List.drop_drop]
  congr 2
  ring

/-- The length of what such a loop writes. -/
theorem permLoop_length (s c : Nat) (l : List Nat) (hl : l.length = c)
    (hlt : ∀ x ∈ l, x < c) (src : List Byte) :
    (frameLoop (c * s) (fun _ p => l.flatMap fun x => (p.drop (x * s)).take s)
        (src.length / s / c) 0 src).length = src.length / s / c * (c * s) := by
  have hn := frames_le_length src.length s c
  refine frameLoop_length (c * s) (c * s) _ ?_ _ _ _ hn
  intro i p hp
  have hmap : l.map (List.length ∘ fun x => (p.drop (x * s)).take s) = l.map fun _ => s :=
    List.map_congr_left (fun x hx => by
      have hxc : x * s + s ≤ c * s := by
        calc x * s + s = (x + 1) * s := by ring
          _ ≤ c * s := Nat.mul_le_mul_right s (hlt x hx)
      simp only [Function.comp, List.length_take, List.length_drop]; omega)
  simp only [List.length_flatMap]
  rw [hmap]
  simp [hl]

/-- The 5.1 reordering as a loop over the sample order 0, 1, 4, 5, 2, 3. -/
theorem ToAlsaChannelOrder51_eq (s : Nat) (src : List Byte) :
    ToAlsaChannelOrder51 s src
      = frameLoop (6 * s) (fun _ p => [0, 1, 4, 5, 2, 3].flatMap fun x => (p.drop (x * s)).take s)
          (src.length / s / 6) 0 src := by
  unfold ToAlsaChannelOrder51
  congr 1
  funext _ p
  exact channelOrder51_emit s p

/-- The 7.1 reordering as a loop over the sample order 0, 1, 4, 5, 2, 3, 6, 7. -/
theorem ToAlsaChannelOrder71_eq (s : Nat) (src : List Byte) :
    ToAlsaChannelOrder71 s src
      = frameLoop (8 * s)
          (fun _ p => [0, 1, 4, 5, 2, 3, 6, 7].flatMap fun x => (p.drop (x * s)).take s)
          (src.length / s / 8) 0 src := by
  unfold ToAlsaChannelOrder71
  congr 1
  funext _ p
  exact channelOrder71_emit s p

/-- C8: with `alsa_channel_order` set and sample format S16 or S32, `Export` permutes
the samples inside every frame and nothing else: sample `q` of output frame `f` is
sample 0, 1, 4, 5, 2, 3 (and 6, 7 for eight channels) of input frame `f`, and a buffer
of whole frames keeps its length. -/
theorem Export_alsa_channel_order (be : Bool) (fmt : SampleFormat) (c : Nat)
    (src : List Byte) (hfmt : fmt = SampleFormat.S16 ∨ fmt = SampleFormat.S32)
    (hc : c = 6 ∨ c = 8) :
    (src.length % (c * sample_format_size fmt) = 0 →
      ((PcmExport.Open fmt c { alsa_channel_order := true }).Export be src).length
        = src.length) ∧
    ∀ f q : Nat, f < src.length / sample_format_size fmt / c → q < c →
      (((PcmExport.Open fmt c { alsa_channel_order := true }).Export be src).drop
          ((f * c + q) * sample_format_size fmt)).take (sample_format_size fmt)
        = (src.drop ((f * c + alsaChannelSource q) * sample_format_size fmt)).take
            (sample_format_size fmt) := by
  have h6 : (∀ x ∈ [0, 1, 4, 5, 2, 3], x < 6) ∧ [0, 1, 4, 5, 2, 3].length = 6 :=
    ⟨by decide, rfl⟩
  have h8 : (∀ x ∈ [0, 1, 4, 5, 2, 3, 6, 7], x < 8) ∧ [0, 1, 4, 5, 2, 3, 6, 7].length = 8 :=
    ⟨by decide, rfl⟩
  have hs6 : ∀ q, q < 6 → [0, 1, 4, 5, 2, 3].getD q 0 = alsaChannelSource q := by
    intro q hq; interval_cases q <;> rfl
  have hs8 : ∀ q, q < 8 → [0, 1, 4, 5, 2, 3, 6, 7].getD q 0 = alsaChannelSource q := by
    intro q hq; interval_cases q <;> rfl
  rcases hfmt with rfl | rfl <;> rcases hc with rfl | rfl
  · have hexp : (PcmExport.Open SampleFormat.S16 6 { alsa_channel_order := true }).Export be src
        = ToAlsaChannelOrder51 2 src := by
      simp [PcmExport.Export, PcmExport.Open, sample_format_size, ToAlsaChannelOrder]
    rw [hexp, ToAlsaChannelOrder51_eq]
    simp only [sample_format_size]
    refine ⟨fun h => ?_, fun f q hf hq => ?_⟩
    · rw [permLoop_length 2 6 _ h6.2 h6.1, frames_eq_length _ _ _ h]
    · rw [permLoop_sample 2 6 _ h6.2 h6.1 src f q hf hq, hs6 q hq]
  · have hexp : (PcmExport.Open SampleFormat.S16 8 { alsa_channel_order := true }).Export be src
        = ToAlsaChannelOrder71 2 src := by
      simp [PcmExport.Export, PcmExport.Open, sample_format_size, ToAlsaChannelOrder]
    rw [hexp, ToAlsaChannelOrder71_eq]
    simp only [sample_format_size]
    refine ⟨fun h => ?_, fun f q hf hq => ?_⟩
    · rw [permLoop_length 2 8 _ h8.2 h8.1, frames_eq_length _ _ _ h]
    · rw [permLoop_sample 2 8 _ h8.2 h8.1 src f q hf hq, hs8 q hq]
  · have hexp : (PcmExport.Open SampleFormat.S32 6 { alsa_channel_order := true }).Export be src
        = ToAlsaChannelOrder51 4 src := by
      simp [PcmExport.Export, PcmExport.Open, sample_format_size, ToAlsaChannelOrder]
    rw [hexp, ToAlsaChannelOrder51_eq]
    simp only [sample_format_size]
    refine ⟨fun h => ?_, fun f q hf hq => ?_⟩
    · rw [permLoop_length 4 6 _ h6.2 h6.1, frames_eq_length _ _ _ h]
    · rw [permLoop_sample 4 6 _ h6.2 h6.1 src f q hf hq, hs6 q hq]
  · have hexp : (PcmExport.Open SampleFormat.S32 8 { alsa_channel_order := true }).Export be src
        = ToAlsaChannelOrder71 4 src := by
      simp [PcmExport.Export, PcmExport.Open, sample_format_size, ToAlsaChannelOrder]
    rw [hexp, ToAlsaChannelOrder71_eq]
    simp only [sample_format_size]
    refine ⟨fun h => ?_, fun f q hf hq => ?_⟩
    · rw [permLoop_length 4 8 _ h8.2 h8.1, frames_eq_length _ _ _ h]
    · rw [permLoop_sample 4 8 _ h8.2 h8.1 src f q hf hq, hs8 q hq]

/-! ## PCM export: DSD packing and DoP -/

/-- Reading a byte through an advanced source pointer. -/
theorem sampleAt_drop (l : List Byte) (a i : Nat) :
    sampleAt (l.drop a) i = sampleAt l (a + i) := by
  simp [sampleAt, List.getD_eq_getElem?_getD]

/-- Reading a byte through a source pointer advanced twice. -/
theorem getD_drop_drop (l : List Byte) (a b i j : Nat) (h : a + b + i = j) :
    ((l.drop a).drop b).getD i 0 = l.getD j 0 := by
  subst h
  simp [List.getD_eq_getElem?_getD, Nat.add_assoc]

/-- A byte is below 256. -/
theorem sampleAt_lt (l : List Byte) (i : Nat) : sampleAt l i < 256 :=
  (l.getD i 0).isLt

/-- Appending a byte below a word shifted by eight bits. -/
theorem shl8_or (x b : Nat) (hb : b < 256) : (x <<< 8) ||| b = x * 256 + b := by
  have h := Nat.mul_add_lt_is_or (show b < 2 ^ 8 by simpa using hb) x
  rw [Nat.shiftLeft_eq, Nat.mul_comm, ← h]

/-- A loop that writes one `k`-byte word per channel and round: the word of round `j`
and channel `ch` is word `j * c + ch` of the output. -/
theorem wordLoop_word (be : Bool) (k c adv : Nat) (W : Nat → List Byte → Nat → Nat)
    (n : Nat) (src : List Byte) (hn : n * adv ≤ src.length) (j ch : Nat)
    (hj : j < n) (hch : ch < c) :
    ((frameLoop adv (fun i p => (List.range c).flatMap fun x => wordBytes be k (W i p x))
        n 0 src).drop ((j * c + ch) * k)).take k
      = wordBytes be k (W j (src.drop (j * adv)) ch) := by
  have hL : ∀ (i : Nat) (p : List Byte), adv ≤ p.length →
      ((fun (i : Nat) (p : List Byte) =>
          (List.range c).flatMap fun x => wordBytes be k (W i p x)) i p).length = c * k := by
    intro i p _
    exact flatMap_range_length _ k (fun x => wordBytes_length be k _) c
  have hck : ch * k + k ≤ c * k := by
    calc ch * k + k = (ch + 1) * k := by ring
      _ ≤ c * k := Nat.mul_le_mul_right k hch
  have hidx : (j * c + ch) * k = j * (c * k) + ch * k := by ring
  rw [hidx, ← drop_take_drop_take _ (j * (c * k)) (c * k) (ch * k) k hck,
    frameLoop_block adv (c * k) _ hL n 0 src j hn hj]
  simp only [Nat.zero_add]
  exact flatMap_range_block _ k (fun x => wordBytes_length be k _) c ch hch

/-- The length of what such a loop writes. -/
theorem wordLoop_length (be : Bool) (k c adv : Nat) (W : Nat → List Byte → Nat → Nat)
    (n : Nat) (src : List Byte) (hn : n * adv ≤ src.length) :
    (frameLoop adv (fun i p => (List.range c).flatMap fun x => wordBytes be k (W i p x))
        n 0 src).length = n * (c * k) :=
  frameLoop_length adv (c * k) _
    (fun _ _ _ => flatMap_range_length _ k (fun _ => wordBytes_length be k _) c) n 0 src hn

/-- The bytes of a 16-bit DSD word, most significant first. -/
theorem dsdWord2_bytes (be : Bool) (c : Nat) (p : List Byte) :
    wordBytes true 2 (wordValue be (wordBytes be 2 (dsdWord 2 c p)))
      = [p.getD 0 0, p.getD c 0] := by
  have ha := sampleAt_lt p 0
  have hb := sampleAt_lt p c
  rw [wordValue_wordBytes2]
  simp only [dsdWord, List.range_succ, List.range_zero, List.nil_append, List.cons_append,
    List.foldl_cons, List.foldl_nil, Nat.zero_mul, Nat.one_mul, Nat.zero_shiftLeft, Nat.zero_or]
  rw [shl8_or _ _ hb]
  simp only [sampleAt] at ha hb ⊢
  simp only [wordBytes, List.range_succ, List.range_zero, List.nil_append, List.cons_append,
    List.map_cons, List.map_nil, List.reverse_cons, List.reverse_nil, if_true]
  simp only [List.cons.injEq, and_true]
  constructor <;> (apply Fin.ext; simp [Fin.ofNat]; omega)

/-- The bytes of a 32-bit DSD word, most significant first. -/
theorem dsdWord4_bytes (be : Bool) (c : Nat) (p : List Byte) :
    wordBytes true 4 (wordValue be (wordBytes be 4 (dsdWord 4 c p)))
      = [p.getD 0 0, p.getD c 0, p.getD (2 * c) 0, p.getD (3 * c) 0] := by
  have ha := sampleAt_lt p 0
  have hb := sampleAt_lt p c
  have hc := sampleAt_lt p (2 * c)
  have hd := sampleAt_lt p (3 * c)
  rw [wordValue_wordBytes4]
  simp only [dsdWord, List.range_succ, List.range_zero, List.nil_append, List.cons_append,
    List.foldl_cons, List.foldl_nil, Nat.zero_mul, Nat.one_mul, Nat.zero_shiftLeft, Nat.zero_or]
  rw [shl8_or _ _ hb, shl8_or _ _ hc, shl8_or _ _ hd]
  simp only [sampleAt] at ha hb hc hd ⊢
  simp only [wordBytes, List.range_succ, List.range_zero, List.nil_append, List.cons_append,
    List.map_cons, List.map_nil, List.reverse_cons, List.reverse_nil, if_true]
  simp only [List.cons.injEq, and_true]
  refine ⟨?_, ?_, ?_, ?_⟩ <;> (apply Fin.ext; simp [Fin.ofNat]; omega)

/-- C9: with `dsd_u16` (`k = 2`) or `dsd_u32` (`k = 4`) set and the export opened for DSD
with `c` channels, every group of `k` consecutive DSD frames gives, for each channel in
channel order, one `k`-byte word whose bytes from most to least significant are that
channel's bytes of the `k` frames in time order; input of whole groups keeps its
length. -/
theorem Export_dsd (be : Bool) (k c : Nat) (p : Params) (src : List Byte)
    (hp : (p = { dsd_u16 := true } ∧ k = 2) ∨ (p = { dsd_u32 := true } ∧ k = 4)) :
    ((PcmExport.Open SampleFormat.DSD c p).Export be src).length
        = src.length / c / k * (c * k) ∧
    (src.length % (k * c) = 0 →
      ((PcmExport.Open SampleFormat.DSD c p).Export be src).length = src.length) ∧
    ∀ g ch : Nat, g < src.length / c / k → ch < c →
      wordBytes true k
          (wordOf be k ((PcmExport.Open SampleFormat.DSD c p).Export be src) (g * c + ch))
        = (List.range k).map fun j => src.getD ((g * k + j) * c + ch) 0 := by
  have hn := frames_le_length src.length c k
  have hexp : (PcmExport.Open SampleFormat.DSD c p).Export be src = exportDsd be k c src := by
    rcases hp with ⟨rfl, rfl⟩ | ⟨rfl, rfl⟩ <;>
      simp [PcmExport.Export, PcmExport.Open, sample_format_size]
  have hlen : (exportDsd be k c src).length = src.length / c / k * (c * k) :=
    wordLoop_length be k c (k * c) (fun _ q x => dsdWord k c (q.drop x)) _ src hn
  rw [hexp]
  refine ⟨hlen, fun h => ?_, fun g ch hg hch => ?_⟩
  · rw [hlen, Nat.mul_comm c k]; exact frames_eq_length _ _ _ h
  · have hw : ((exportDsd be k c src).drop ((g * c + ch) * k)).take k
        = wordBytes be k (dsdWord k c ((src.drop (g * (k * c))).drop ch)) :=
      wordLoop_word be k c (k * c) (fun _ q x => dsdWord k c (q.drop x)) _ src hn g ch hg hch
    unfold wordOf
    rw [hw]
    rcases hp with ⟨-, rfl⟩ | ⟨-, rfl⟩
    · rw [dsdWord2_bytes,
        getD_drop_drop src _ _ 0 ((g * 2 + 0) * c + ch) (by ring),
        getD_drop_drop src _ _ c ((g * 2 + 1) * c + ch) (by ring)]
      simp [List.range_succ]
    · rw [dsdWord4_bytes,
        getD_drop_drop src _ _ 0 ((g * 4 + 0) * c + ch) (by ring),
        getD_drop_drop src _ _ c ((g * 4 + 1) * c + ch) (by ring),
        getD_drop_drop src _ _ (2 * c) ((g * 4 + 2) * c + ch) (by ring),
        getD_drop_drop src _ _ (3 * c) ((g * 4 + 3) * c + ch) (by ring)]
      simp [List.range_succ]

/-- A DoP sample fits 32 bits. -/
theorem dopMarker_lt (a b : Nat) (ha : a < 256) (hb : b < 256) :
    dopMarker1 a b < 2 ^ 32 ∧ dopMarker2 a b < 2 ^ 32 := by
  have h8 : a <<< 8 < 2 ^ 32 := by
    rw [Nat.shiftLeft_eq]; norm_num; omega
  have hb32 : b < 2 ^ 32 := by norm_num; omega
  exact ⟨Nat.or_lt_two_pow (Nat.or_lt_two_pow (by norm_num) h8) hb32,
    Nat.or_lt_two_pow (Nat.or_lt_two_pow (by norm_num) h8) hb32⟩

/-- C5: with `dop` set and the export opened for DSD with `c` channels, every pair of
consecutive DSD frames gives one output frame of `c` 32-bit words; the word of a
channel is `0xFF000000 | marker << 16 | first byte << 8 | second byte`, the marker being
0x05 for the first output frame and alternating with 0xFA from frame to frame; the
output has 4 bytes for every 2 input bytes. -/
theorem Export_dop (be : Bool) (c : Nat) (aco : Bool) (src : List Byte) :
    ((PcmExport.Open SampleFormat.DSD c { dop := true, alsa_channel_order := aco }).Export
        be src).length = src.length / c / 2 * (c * 4) ∧
    (src.length % (2 * c) = 0 →
      ((PcmExport.Open SampleFormat.DSD c { dop := true, alsa_channel_order := aco }).Export
        be src).length = 2 * src.length) ∧
    ∀ j ch : Nat, j < src.length / c / 2 → ch < c →
      wordOf be 4
          ((PcmExport.Open SampleFormat.DSD c { dop := true, alsa_channel_order := aco }).Export
            be src) (j * c + ch)
        = ((0xFF000000 ||| ((if j % 2 = 0 then 0x05 else 0xFA) <<< 16))
            ||| (sampleAt src (2 * j * c + ch) <<< 8))
            ||| sampleAt src ((2 * j + 1) * c + ch) := by
  have hn := frames_le_length src.length c 2
  have hexp : (PcmExport.Open SampleFormat.DSD c
      { dop := true, alsa_channel_order := aco }).Export be src = exportDop be c src := by
    cases aco <;>
      simp [PcmExport.Export, PcmExport.Open, sample_format_size, ToAlsaChannelOrder]
  have hlen : (exportDop be c src).length = src.length / c / 2 * (c * 4) :=
    wordLoop_length be 4 c (2 * c)
      (fun i q x => if i % 2 = 0 then dopMarker1 (sampleAt q x) (sampleAt q (c + x))
        else dopMarker2 (sampleAt q x) (sampleAt q (c + x))) _ src hn
  rw [hexp]
  refine ⟨hlen, fun h => ?_, fun j ch hj hch => ?_⟩
  · have h2 := frames_eq_length src.length c 2 h
    rw [hlen]
    calc src.length / c / 2 * (c * 4) = 2 * (src.length / c / 2 * (2 * c)) := by ring
      _ = 2 * src.length := by rw [h2]
  · have hw : ((exportDop be c src).drop ((j * c + ch) * 4)).take 4
        = wordBytes be 4
            (if j % 2 = 0 then
              dopMarker1 (sampleAt (src.drop (j * (2 * c))) ch)
                (sampleAt (src.drop (j * (2 * c))) (c + ch))
             else
              dopMarker2 (sampleAt (src.drop (j * (2 * c))) ch)
                (sampleAt (src.drop (j * (2 * c))) (c + ch))) :=
      wordLoop_word be 4 c (2 * c)
        (fun i q x => if i % 2 = 0 then dopMarker1 (sampleAt q x) (sampleAt q (c + x))
          else dopMarker2 (sampleAt q x) (sampleAt q (c + x))) _ src hn j ch hj hch
    have e1 : j * (2 * c) + ch = 2 * j * c + ch := by ring
    have e2 : j * (2 * c) + (c + ch) = (2 * j + 1) * c + ch := by ring
    unfold wordOf
    rw [hw, wordValue_wordBytes4, sampleAt_drop, sampleAt_drop, e1, e2]
    have hb := dopMarker_lt (sampleAt src (2 * j * c + ch)) (sampleAt src ((2 * j + 1) * c + ch))
      (sampleAt_lt _ _) (sampleAt_lt _ _)
    by_cases hpar : j % 2 = 0
    · simp only [hpar, if_true]
      rw [Nat.mod_eq_of_lt hb.1]
      rfl
    · simp only [hpar, if_false]
      rw [Nat.mod_eq_of_lt hb.2]
      rfl

/-! ## PCM export: the vectors of `test_pcm_export.cxx` -/

/-- C8 at a concrete input: in the second 5.1 frame of the test, output sample 2 is
input sample 4 of that frame. -/
theorem Export_alsa_channel_order_witness :
    (SampleFormat.S16 = SampleFormat.S16 ∨ SampleFormat.S16 = SampleFormat.S32) ∧
    (6 = 6 ∨ 6 = 8) ∧
    (((PcmExport.Open SampleFormat.S16 6 { alsa_channel_order := true }).Export false
          sampleFrames51).drop ((1 * 6 + 2) * sample_format_size SampleFormat.S16)).take
        (sample_format_size SampleFormat.S16)
      = (sampleFrames51.drop ((1 * 6 + alsaChannelSource 2)
          * sample_format_size SampleFormat.S16)).take (sample_format_size SampleFormat.S16) :=
  ⟨Or.inl rfl, Or.inl rfl,
    (Export_alsa_channel_order false SampleFormat.S16 6 sampleFrames51 (Or.inl rfl)
      (Or.inl rfl)).2 1 2 (by decide) (by decide)⟩

/-- C9 at a concrete input: the second group of the `dsd_u16` test gives the word
`0x89cd` for the first channel. -/
theorem Export_dsd_witness :
    (((({ dsd_u16 := true } : Params) = { dsd_u16 := true } ∧ 2 = 2) ∨
      (({ dsd_u16 := true } : Params) = { dsd_u32 := true } ∧ 2 = 4))) ∧
    wordBytes true 2
        (wordOf false 2
          ((PcmExport.Open SampleFormat.DSD 2 { dsd_u16 := true }).Export false sampleDsd)
          (1 * 2 + 0))
      = (List.range 2).map fun j => sampleDsd.getD ((1 * 2 + j) * 2 + 0) 0 :=
  ⟨Or.inl ⟨rfl, rfl⟩,
    (Export_dsd false 2 2 { dsd_u16 := true } sampleDsd (Or.inl ⟨rfl, rfl⟩)).2.2 1 0
      (by decide) (by decide)⟩

/-- The model reproduces every expected buffer of `test_pcm_export.cxx` (little-endian
host, and the big-endian variant of the pack24 test). -/
theorem Export_agrees_with_test_pcm_export :
    PcmExport.Export false (PcmExport.Open SampleFormat.S24_P32 2 { shift8 := true })
        (wordsBytes false 4 [0x0, 0x1, 0x100, 0x10000, 0xffffff])
      = wordsBytes false 4 [0x0, 0x100, 0x10000, 0x1000000, 0xffffff00] ∧
    PcmExport.Export false (PcmExport.Open SampleFormat.S24_P32 2 { pack24 := true })
        (wordsBytes false 4 [0x0, 0x1, 0x100, 0x10000, 0xffffff])
      = [0, 0, 0, 1, 0, 0, 0, 1, 0, 0, 0, 1, 0xff, 0xff, 0xff] ∧
    PcmExport.Export true (PcmExport.Open SampleFormat.S24_P32 2 { pack24 := true })
        (wordsBytes true 4 [0x0, 0x1, 0x100, 0x10000, 0xffffff])
      = [0, 0, 0, 0, 0, 1, 0, 1, 0, 1, 0, 0, 0xff, 0xff, 0xff] ∧
    PcmExport.Export false (PcmExport.Open SampleFormat.S8 2 { reverse_endian := true })
        [1, 2, 3, 4, 5, 6, 7, 8, 9, 10, 11, 12] = [1, 2, 3, 4, 5, 6, 7, 8, 9, 10, 11, 12] ∧
    PcmExport.Export false (PcmExport.Open SampleFormat.S16 2 { reverse_endian := true })
        [1, 2, 3, 4, 5, 6, 7, 8, 9, 10, 11, 12] = [2, 1, 4, 3, 6, 5, 8, 7, 10, 9, 12, 11] ∧
    PcmExport.Export false (PcmExport.Open SampleFormat.S32 2 { reverse_endian := true })
        [1, 2, 3, 4, 5, 6, 7, 8, 9, 10, 11, 12] = [4, 3, 2, 1, 8, 7, 6, 5, 12, 11, 10, 9] ∧
    PcmExport.Export false (PcmExport.Open SampleFormat.DSD 2 { dsd_u16 := true }) sampleDsd
      = wordsBytes false 2 [0x0145, 0x2367, 0x89cd, 0xabef, 0x1133, 0x2244, 0x5577, 0x6688] ∧
    PcmExport.Export false (PcmExport.Open SampleFormat.DSD 2 { dsd_u32 := true }) sampleDsd
      = wordsBytes false 4 [0x014589cd, 0x2367abef, 0x11335577, 0x22446688] ∧
    PcmExport.Export false (PcmExport.Open SampleFormat.DSD 2 { dop := true })
        [0x01, 0x23, 0x45, 0x67, 0x89, 0xab, 0xcd, 0xef]
      = wordsBytes false 4 [0xff050145, 0xff052367, 0xfffa89cd, 0xfffaabef] ∧
    PcmExport.Export false (PcmExport.Open SampleFormat.S16 6 { alsa_channel_order := true })
        sampleFrames51
      = wordsBytes false 2 [0, 1, 4, 5, 2, 3, 6, 7, 10, 11, 8, 9] ∧
    PcmExport.Export false (PcmExport.Open SampleFormat.S32 8 { alsa_channel_order := true })
        (wordsBytes false 4 [0, 1, 2, 3, 4, 5, 6, 7, 8, 9, 10, 11, 12, 13, 14, 15])
      = wordsBytes false 4 [0, 1, 4, 5, 2, 3, 6, 7, 8, 9, 12, 13, 10, 11, 14, 15] ∧
    Params.CalcOutputSampleRate { dsd_u16 := true } 705600 = 352800 ∧
    Params.CalcInputSampleRate { dsd_u16 := true } 352800 = 705600 ∧
    Params.CalcOutputSampleRate { dsd_u32 := true } 705600 = 176400 ∧
    Params.CalcInputSampleRate { dsd_u32 := true } 176400 = 705600 ∧
    Params.CalcOutputSampleRate { dop := true } 705600 = 352800 ∧
    Params.CalcInputSampleRate { dop := true } 352800 = 705600 ∧
    Params.CalcOutputSampleRate { shift8 := true } 42 = 42 ∧
    Params.CalcInputSampleRate { shift8 := true } 42 = 42 := by
  refine ⟨?_, ?_, ?_, ?_, ?_, ?_, ?_, ?_, ?_, ?_, ?_, ?_, ?_, ?_, ?_, ?_, ?_, ?_, ?_⟩ <;> decide

/-! ## Output control: releasing an output -/

/-- The output after the `mixer_auto_close` call that `CloseWait` makes for an output
with a mixer. -/
theorem CloseWait_of_closed (thread : Command → AudioOutput → AudioOutput)
    (ao : AudioOutput) (h : ao.is_open = false) :
    (ao.CloseWait thread).log
        = ao.log ++ (if ao.mixer.isSome then [Event.mixer_auto_close] else []) ∧
    { ao.CloseWait thread with log := ao.log } = { ao with fail_timer := none } := by
  unfold AudioOutput.CloseWait
  cases hm : ao.mixer.isSome <;> simp [h]

/-- C15: an output with `always_on` set is never sent CLOSE by `LockRelease`: it is sent
PAUSE, without waiting, if it is open and nothing otherwise.  An output without
`always_on` is sent CLOSE, which is waited for, if it is open; otherwise no command is
issued and, of the fields of the output, only the fail timer is reset (the mixer of the
output, if there is one, is auto-closed first). -/
theorem LockRelease_prefers_pause (thread : Command → AudioOutput → AudioOutput)
    (ao : AudioOutput) :
    (ao.always_on = true →
      (ao.LockRelease thread).commands
          = ao.commands ++ (if ao.is_open then [Command.PAUSE] else []) ∧
      Command.CLOSE ∉ (if ao.is_open then [Command.PAUSE] else []) ∧
      (ao.LockRelease thread).command = (if ao.is_open then Command.PAUSE else ao.command) ∧
      (ao.LockRelease thread).is_open = ao.is_open ∧
      (ao.LockRelease thread).fail_timer = ao.fail_timer) ∧
    (ao.always_on = false → ao.is_open = true →
      ∃ ao1 : AudioOutput,
        ao.LockRelease thread = thread Command.CLOSE ao1 ∧
        ao1.commands = ao.commands ++ [Command.CLOSE] ∧
        { ao1 with log := ao.log } = ao) ∧
    (ao.always_on = false → ao.is_open = false →
      (ao.LockRelease thread).commands = ao.commands ∧
      (ao.LockRelease thread).log
          = ao.log ++ (if ao.mixer.isSome then [Event.mixer_auto_close] else []) ∧
      { ao.LockRelease thread with log := ao.log } = { ao with fail_timer := none }) := by
  refine ⟨fun ha => ?_, fun ha ho => ?_, fun ha ho => ?_⟩
  · simp only [AudioOutput.LockRelease, ha, if_true, AudioOutput.LockPauseAsync]
    cases ho : ao.is_open <;> cases hm : (ao.mixer.isSome && !ao.plugin_has_pause) <;>
      simp [AudioOutput.CommandAsync, AudioOutput.commands, List.filterMap_append, ho]
  · have hrel : ao.LockRelease thread = ao.CloseWait thread := by
      simp [AudioOutput.LockRelease, AudioOutput.LockCloseWait, ha]
    rw [hrel]
    unfold AudioOutput.CloseWait
    cases hm : ao.mixer.isSome
    · refine ⟨{ ao with log := ao.log ++ [Event.command Command.CLOSE] }, ?_, ?_, ?_⟩
      · simp [ho, AudioOutput.CommandWait]
      · simp [AudioOutput.commands, List.filterMap_append]
      · rfl
    · refine ⟨{ ao with log := ao.log ++ [Event.mixer_auto_close]
          ++ [Event.command Command.CLOSE] }, ?_, ?_, ?_⟩
      · simp [ho, AudioOutput.CommandWait]
      · simp [AudioOutput.commands, List.filterMap_append]
      · rfl
  · have hrel : ao.LockRelease thread = ao.CloseWait thread := by
      simp [AudioOutput.LockRelease, AudioOutput.LockCloseWait, ha]
    have h := CloseWait_of_closed thread ao ho
    rw [hrel]
    refine ⟨?_, h.1, h.2⟩
    simp only [AudioOutput.commands, h.1]
    cases hm : ao.mixer.isSome <;> simp [List.filterMap_append]

/-! ## Volume writes -/

/-- The loop visits every output and reports whether the flag was set or some visited
output took the volume. -/
theorem SetVolume_loop_eq (volume : Nat) (outputs : List AudioOutput) :
    ∀ success : Bool,
      (SetVolume_loop outputs volume success).2
          = outputs.map (fun ao => (output_mixer_set_volume ao volume).2) ∧
      ((SetVolume_loop outputs volume success).1 = true ↔
        success = true ∨ ∃ ao ∈ outputs, (output_mixer_set_volume ao volume).1 = true) := by
  induction outputs with
  | nil => intro success; simp [SetVolume_loop]
  | cons ao rest ih =>
    intro success
    have h := ih ((output_mixer_set_volume ao volume).1 || success)
    simp only [SetVolume_loop, List.map_cons, h.1, h.2, true_and, Bool.or_eq_true,
      List.mem_cons, exists_eq_or_imp]
    tauto

/-- C16: `MultipleOutputs::SetVolume(v)` calls `mixer_set_volume(v)` on every output
that is enabled and has a mixer, whatever happened at the outputs before it, and on no
other output; it returns true exactly when one of these calls did not throw. -/
theorem SetVolume_fans_out (outputs : List AudioOutput) (volume : Nat) :
    (MultipleOutputs_SetVolume outputs volume).2
        = outputs.map (fun ao =>
            if ao.enabled = true ∧ ao.mixer.isSome = true then
              { ao with log := ao.log ++ [Event.mixer_set_volume volume] }
            else ao) ∧
    ((MultipleOutputs_SetVolume outputs volume).1 = true ↔
      ∃ ao ∈ outputs, ao.enabled = true ∧
        ∃ mixer, ao.mixer = some mixer ∧ volume ∉ mixer.set_volume_throws) := by
  have h := SetVolume_loop_eq volume outputs false
  have h2 : ∀ ao : AudioOutput, (output_mixer_set_volume ao volume).2
      = (if ao.enabled = true ∧ ao.mixer.isSome = true then
          { ao with log := ao.log ++ [Event.mixer_set_volume volume] } else ao) := by
    intro ao
    unfold output_mixer_set_volume
    cases he : ao.enabled <;> cases hm : ao.mixer <;> simp
    split <;> rfl
  have h1 : ∀ ao : AudioOutput, ((output_mixer_set_volume ao volume).1 = true ↔
      ao.enabled = true ∧ ∃ mixer, ao.mixer = some mixer ∧ volume ∉ mixer.set_volume_throws) := by
    intro ao
    unfold output_mixer_set_volume
    cases he : ao.enabled <;> cases hm : ao.mixer <;> simp
    split <;> simp_all
  unfold MultipleOutputs_SetVolume
  refine ⟨?_, ?_⟩
  · rw [h.1]
    exact List.map_congr_left (fun ao _ => h2 ao)
  · rw [h.2]
    simp only [Bool.false_eq_true, false_or]
    constructor
    · rintro ⟨ao, hao, hs⟩
      exact ⟨ao, hao, (h1 ao).1 hs⟩
    · rintro ⟨ao, hao, hs⟩
      exact ⟨ao, hao, (h1 ao).2 hs⟩

/-! ## The chunk pipe: size and emptiness -/

/-- A `Shift` keeps the counter equal to the length of the chain and removes what it
returns. -/
theorem MusicPipe.Shift_size {α : Type} (p : MusicPipe α) (h : p.size = p.chain.length) :
    p.Shift.2.size = p.Shift.2.chain.length ∧
    p.Shift.1.toList.length + p.Shift.2.size = p.size := by
  cases hc : p.chain with
  | nil => simp [MusicPipe.Shift, hc, h]
  | cons c rest =>
    simp only [MusicPipe.Shift, hc, Option.toList, List.length_singleton]
    rw [h, hc]
    simp
    omega

/-- The clearing loop keeps the counter equal to the length of the chain, and once it
has run as often as the pipe is long the pipe is empty. -/
theorem MusicPipe.clearLoop_size {α : Type} :
    ∀ (n : Nat) (p : MusicPipe α), p.size = p.chain.length →
      (p.clearLoop n).2.size = (p.clearLoop n).2.chain.length ∧
      (p.clearLoop n).1.length + (p.clearLoop n).2.size = p.size ∧
      (p.chain.length ≤ n → (p.clearLoop n).2.chain = []) := by
  intro n
  induction n with
  | zero =>
    intro p h
    refine ⟨h, by simp [MusicPipe.clearLoop], fun hl => ?_⟩
    simpa [MusicPipe.clearLoop] using hl
  | succ n ih =>
    intro p h
    cases hc : p.chain with
    | nil =>
      have hs : p.Shift = (none, p) := by simp [MusicPipe.Shift, hc]
      simp only [MusicPipe.clearLoop, hs]
      exact ⟨h, by simp, fun _ => hc⟩
    | cons c rest =>
      have hs : p.Shift = (some c, { chain := rest, size := p.size - 1 }) := by
        simp [MusicPipe.Shift, hc]
      have hq : ({ chain := rest, size := p.size - 1 } : MusicPipe α).size
          = ({ chain := rest, size := p.size - 1 } : MusicPipe α).chain.length := by
        simp only [h, hc, List.length_cons]; omega
      have := ih _ hq
      simp only [MusicPipe.clearLoop, hs, List.length_cons]
      refine ⟨this.1, ?_, fun hl => this.2.2 (by simpa using hl)⟩
      have h2 := this.2.1
      simp only [h, hc, List.length_cons] at h2 ⊢
      omega

/-- Every sequence of calls keeps the counter equal to the length of the chain, and
the chunks that left the pipe plus those still counted are those that were there or
were pushed. -/
theorem MusicPipe.exec_size {α : Type} (calls : List (PipeCall α)) :
    ∀ p : MusicPipe α, p.size = p.chain.length →
      (p.exec calls).2.size = (p.exec calls).2.chain.length ∧
      (p.exec calls).1.length + (p.exec calls).2.size = p.size + PipeCall.pushCount calls := by
  induction calls with
  | nil => intro p h; simp [MusicPipe.exec, PipeCall.pushCount, h]
  | cons call calls ih =>
    intro p h
    cases call with
    | Push chunk =>
      have hq : (p.Push chunk).size = (p.Push chunk).chain.length := by
        simp [MusicPipe.Push, h]
      have := ih _ hq
      have hsz : (p.Push chunk).size = p.size + 1 := rfl
      simp only [MusicPipe.exec, PipeCall.pushCount]
      refine ⟨this.1, ?_⟩
      have h2 := this.2
      omega
    | Shift =>
      have hs := MusicPipe.Shift_size p h
      have := ih _ hs.1
      simp only [MusicPipe.exec, PipeCall.pushCount, List.length_append]
      exact ⟨this.1, by omega⟩
    | Clear =>
      have hs := MusicPipe.clearLoop_size p.chain.length p h
      have := ih _ hs.1
      simp only [MusicPipe.exec, PipeCall.pushCount, List.length_append, MusicPipe.Clear] at this ⊢
      exact ⟨this.1, by omega⟩

/-- C17: a new pipe is empty, and in every pipe reached from a new pipe by `Push`,
`Shift` and `Clear` calls `IsEmpty()` holds iff `GetSize() == 0` iff `Peek()` returns
`nullptr`, and `GetSize()` is the number of chunks pushed minus the number of chunks
that left through `Shift` or `Clear`. -/
theorem MusicPipe_size_and_emptiness {α : Type} (calls : List (PipeCall α)) :
    ({} : MusicPipe α).IsEmpty = true ∧
    ((({} : MusicPipe α).exec calls).2.IsEmpty = true ↔
      (({} : MusicPipe α).exec calls).2.GetSize = 0) ∧
    ((({} : MusicPipe α).exec calls).2.GetSize = 0 ↔
      (({} : MusicPipe α).exec calls).2.Peek = none) ∧
    (({} : MusicPipe α).exec calls).2.GetSize
      = PipeCall.pushCount calls - (({} : MusicPipe α).exec calls).1.length ∧
    (({} : MusicPipe α).exec calls).1.length ≤ PipeCall.pushCount calls := by
  have h := MusicPipe.exec_size calls ({} : MusicPipe α) rfl
  refine ⟨rfl, by simp [MusicPipe.IsEmpty], ?_, ?_, ?_⟩
  · simp only [MusicPipe.GetSize, MusicPipe.Peek, h.1]
    cases (({} : MusicPipe α).exec calls).2.chain <;> simp
  · have h2 := h.2
    simp only [MusicPipe.GetSize] at h2 ⊢
    have h0 : ({} : MusicPipe α).size = 0 := rfl
    omega
  · have h2 := h.2
    have h0 : ({} : MusicPipe α).size = 0 := rfl
    omega

/-- A `Clear` empties the pipe. -/
theorem MusicPipe.Clear_empties {α : Type} (p : MusicPipe α) (h : p.size = p.chain.length) :
    p.Clear.2.chain = [] ∧ p.Clear.2.size = 0 ∧ p.Clear.1.length = p.size := by
  have hs := MusicPipe.clearLoop_size p.chain.length p h
  have hc := hs.2.2 (Nat.le_refl _)
  unfold MusicPipe.Clear
  refine ⟨hc, ?_, ?_⟩
  · rw [hs.1, hc]; rfl
  · have h1 := hs.1
    have h2 := hs.2.1
    rw [hc] at h1
    simp only [List.length_nil] at h1
    omega

/-! ## The convert filter -/

/-- Setting the output format to the input format leaves a filter whose formats agree,
never opens the converter, and closes it exactly when it was active. -/
theorem ConvertFilter.Set_input_format (env : PcmConvertEnv) (f : ConvertFilter) :
    ∃ f1 : ConvertFilter,
      f.Set env f.in_audio_format = Except.ok f1 ∧
      f1.in_audio_format = f.in_audio_format ∧
      f1.out_audio_format = f.in_audio_format ∧
      f1.calls = f.calls ++ (if f.IsActive then [PcmConvertCall.Close] else []) := by
  unfold ConvertFilter.Set
  by_cases h : f.in_audio_format = f.out_audio_format
  · refine ⟨f, by simp [h], rfl, h.symm, ?_⟩
    simp [ConvertFilter.IsActive, h]
  · have ha : f.IsActive = true := by
      simp only [ConvertFilter.IsActive, decide_eq_true_eq]
      exact fun e => h e.symm
    refine ⟨{ f with out_audio_format := f.in_audio_format, state_open := false,
                     calls := f.calls ++ [PcmConvertCall.Close] }, ?_, rfl, rfl, ?_⟩
    · simp [h, ha]
    · simp [ha]

/-- C11: a `ConvertFilter` whose output format equals its input format is a
pass-through: `FilterPCM` returns the buffer it was given and makes no call on the
`PcmConvert` state.  This holds for the filter created by `PreparedConvertFilter::Open`
and for every filter after `Set(f)` with `f` equal to its input format. -/
theorem ConvertFilter_pass_through (env : PcmConvertEnv) (audio_format : AudioFormat)
    (f : ConvertFilter) (src : List Byte) :
    (∀ g : ConvertFilter, g.out_audio_format = g.in_audio_format →
      g.FilterPCM env src = (src, g)) ∧
    (PreparedConvertFilter_Open audio_format).FilterPCM env src
      = (src, PreparedConvertFilter_Open audio_format) ∧
    (∃ f1 : ConvertFilter, f.Set env f.in_audio_format = Except.ok f1 ∧
      f1.out_audio_format = f1.in_audio_format ∧
      f1.FilterPCM env src = (src, f1)) := by
  have hpass : ∀ g : ConvertFilter, g.out_audio_format = g.in_audio_format →
      g.FilterPCM env src = (src, g) := by
    intro g hg
    simp [ConvertFilter.FilterPCM, ConvertFilter.IsActive, hg]
  refine ⟨hpass, hpass _ rfl, ?_⟩
  obtain ⟨f1, h1, h2, h3, -⟩ := ConvertFilter.Set_input_format env f
  exact ⟨f1, h1, by rw [h2, h3], hpass f1 (by rw [h2, h3])⟩

/-! ## Buffered sockets -/

/-- C14: when the read fails with a code for which `IsSocketErrorAgain` holds,
`DirectRead` returns 0 and invokes no handler, and `ReadToBuffer` returns true and leaves
the input buffer as it was; `OnSocketClosed` or `OnSocketError` is invoked, and -1
returned, only at the end of the stream or for another error code. -/
theorem DirectRead_would_block (IsSocketErrorAgain IsSocketErrorClosed : Int → Bool)
    (input : List Byte) (r : SocketRead) :
    (r.nbytes < 0 → IsSocketErrorAgain r.code = true →
      DirectRead IsSocketErrorAgain IsSocketErrorClosed r = (0, []) ∧
      ReadToBuffer IsSocketErrorAgain IsSocketErrorClosed input r = (true, input, [])) ∧
    ((DirectRead IsSocketErrorAgain IsSocketErrorClosed r).2 ≠ [] →
      (DirectRead IsSocketErrorAgain IsSocketErrorClosed r).1 = -1 ∧
      (r.nbytes = 0 ∨ (r.nbytes < 0 ∧ IsSocketErrorAgain r.code = false))) ∧
    ((r.nbytes = 0 ∨ (r.nbytes < 0 ∧ IsSocketErrorAgain r.code = false)) →
      (DirectRead IsSocketErrorAgain IsSocketErrorClosed r).1 = -1 ∧
      (DirectRead IsSocketErrorAgain IsSocketErrorClosed r).2 ≠ [] ∧
      (ReadToBuffer IsSocketErrorAgain IsSocketErrorClosed input r).1 = false) := by
  refine ⟨fun hn ha => ?_, fun hc => ?_, fun hc => ?_⟩
  · have h1 : ¬ r.nbytes > 0 := by omega
    have h2 : ¬ r.nbytes = 0 := by omega
    have hd : DirectRead IsSocketErrorAgain IsSocketErrorClosed r = (0, []) := by
      simp [DirectRead, h1, h2, ha]
    exact ⟨hd, by simp [ReadToBuffer, hd]⟩
  · unfold DirectRead at hc ⊢
    by_cases h1 : r.nbytes > 0
    · simp [h1] at hc
    · by_cases h2 : r.nbytes = 0
      · simp [h2]
      · cases ha : IsSocketErrorAgain r.code
        · have h3 : r.nbytes < 0 := by omega
          cases hcl : IsSocketErrorClosed r.code <;> simp [h1, h2, h3]
        · simp [h1, h2, ha] at hc
  · have h1 : ¬ r.nbytes > 0 := by omega
    unfold ReadToBuffer DirectRead
    rcases hc with h0 | ⟨hn, ha⟩
    · simp [h0]
    · have h2 : ¬ r.nbytes = 0 := by omega
      cases hcl : IsSocketErrorClosed r.code <;> simp [h1, h2, ha]

/-! ## The player control -/

/-- The state in which `SeekLocked` ends is the state at the completion of SEEK. -/
theorem PlayerControl.SeekLocked_pc (worker : PlayerCommand → PlayerControl → PlayerControl)
    (pc : PlayerControl) (song t : Nat) :
    (pc.SeekLocked worker song t).pc = pc.seekCompleted worker song t := by
  unfold PlayerControl.SeekLocked PlayerControl.seekCompleted
  by_cases hn : pc.next_song = none
  · simp only [hn, ne_eq, not_true_eq_false, if_false, PlayerControl.SynchronousCommand]
    split_ifs <;> rfl
  · simp only [hn, ne_eq, not_false_eq_true, if_true, PlayerControl.SynchronousCommand]
    split_ifs <;> rfl

/-- How `SeekLocked` ends, by the error slot at the completion of SEEK. -/
theorem PlayerControl.SeekLocked_completion
    (worker : PlayerCommand → PlayerControl → PlayerControl)
    (pc : PlayerControl) (song t : Nat) :
    (pc.SeekLocked worker song t).completion
      = if (pc.seekCompleted worker song t).error_type ≠ PlayerError.NONE then
          Completion.threw (pc.seekCompleted worker song t).error
        else Completion.returned := by
  unfold PlayerControl.SeekLocked PlayerControl.seekCompleted
  by_cases hn : pc.next_song = none
  · simp only [hn, ne_eq, not_true_eq_false, if_false, PlayerControl.SynchronousCommand]
    split_ifs <;> rfl
  · simp only [hn, ne_eq, not_false_eq_true, if_true, PlayerControl.SynchronousCommand]
    split_ifs <;> rfl

/-- C13: if the error slot is set when the SEEK command issued by `SeekLocked` has
completed, `SeekLocked` throws exactly the latched exception, and so do `Play` and
`LockSeek`, which release the mutex only after the rethrow and do nothing else; these
calls return normally only when no error is latched. -/
theorem SeekLocked_rethrows_latched_error
    (worker : PlayerCommand → PlayerControl → PlayerControl)
    (pc : PlayerControl) (song t : Nat) :
    ((pc.seekCompleted worker song t).error_type ≠ PlayerError.NONE →
      (pc.SeekLocked worker song t).completion
          = Completion.threw (pc.seekCompleted worker song t).error ∧
      (pc.SeekLocked worker song t).events.getLast?
          = some (PlayerEvent.rethrow (pc.seekCompleted worker song t).error) ∧
      (pc.LockSeek worker song t).completion
          = Completion.threw (pc.seekCompleted worker song t).error ∧
      (pc.LockSeek worker song t).events
          = [PlayerEvent.lock] ++ (pc.SeekLocked worker song t).events ++ [PlayerEvent.unlock]) ∧
    ((pc.seekCompleted worker song 0).error_type ≠ PlayerError.NONE →
      (pc.Play worker song).completion
          = Completion.threw (pc.seekCompleted worker song 0).error ∧
      (pc.Play worker song).events
          = [PlayerEvent.lock] ++ (pc.SeekLocked worker song 0).events ++ [PlayerEvent.unlock]) ∧
    ((pc.SeekLocked worker song t).completion = Completion.returned ↔
      (pc.seekCompleted worker song t).error_type = PlayerError.NONE) ∧
    ((pc.LockSeek worker song t).completion = Completion.returned ↔
      (pc.seekCompleted worker song t).error_type = PlayerError.NONE) ∧
    ((pc.Play worker song).completion = Completion.returned ↔
      (pc.seekCompleted worker song 0).error_type = PlayerError.NONE) := by
  have hc := PlayerControl.SeekLocked_completion worker pc song
  have hlast : ∀ t, (pc.seekCompleted worker song t).error_type ≠ PlayerError.NONE →
      (pc.SeekLocked worker song t).events.getLast?
        = some (PlayerEvent.rethrow (pc.seekCompleted worker song t).error) := by
    intro t h
    unfold PlayerControl.SeekLocked
    unfold PlayerControl.seekCompleted at h ⊢
    by_cases hn : pc.next_song = none
    · simp only [hn, ne_eq, not_true_eq_false, if_false, PlayerControl.SynchronousCommand] at h ⊢
      rw [if_pos h]
      simp
    · simp only [hn, ne_eq, not_false_eq_true, if_true, PlayerControl.SynchronousCommand] at h ⊢
      rw [if_pos h]
      simp
  have hseek : ∀ t, (pc.LockSeek worker song t).completion
      = (pc.SeekLocked worker song t).completion := by
    intro t
    unfold PlayerControl.LockSeek
    cases h : (pc.SeekLocked worker song t).completion <;> simp [h]
  have hplay : (pc.Play worker song).completion
      = (pc.SeekLocked worker song 0).completion := by
    unfold PlayerControl.Play
    cases h : (pc.SeekLocked worker song 0).completion <;> simp [h]
  refine ⟨fun h => ⟨?_, hlast t h, ?_, ?_⟩, fun h => ⟨?_, ?_⟩, ?_, ?_, ?_⟩
  · rw [hc t, if_pos h]
  · rw [hseek t, hc t, if_pos h]
  · have h1 : (pc.SeekLocked worker song t).completion
        = Completion.threw (pc.seekCompleted worker song t).error := by rw [hc t, if_pos h]
    unfold PlayerControl.LockSeek
    simp [h1]
  · rw [hplay, hc 0, if_pos h]
  · have h1 : (pc.SeekLocked worker song 0).completion
        = Completion.threw (pc.seekCompleted worker song 0).error := by rw [hc 0, if_pos h]
    unfold PlayerControl.Play
    simp [h1]
  · rw [hc t]; split <;> simp_all
  · rw [hseek t, hc t]; split <;> simp_all
  · rw [hplay, hc 0]; split <;> simp_all

/-- C13 on a concrete run: the worker latches error 7 while seeking in song 13; `Play`
throws that error after the SEEK command and before the mutex is released. -/
theorem Play_rethrows_example :
    (({} : PlayerControl).Play sampleWorker 13).completion = Completion.threw (some 7) ∧
    (({} : PlayerControl).Play sampleWorker 13).events
      = [PlayerEvent.lock, PlayerEvent.command PlayerCommand.SEEK,
          PlayerEvent.rethrow (some 7), PlayerEvent.unlock] ∧
    (({} : PlayerControl).Play sampleWorker 5).completion = Completion.returned := by
  decide

/-- C19: `LockSetPause(flag)` issues the PAUSE command exactly when the state is PLAY
and `flag` is true, or the state is PAUSE and `flag` is false; in state STOP and when
the player already is in the requested pause state it issues no command and leaves the
fields alone; with a player thread for which PAUSE switches between PLAY and PAUSE, a
second `LockSetPause` with the same flag issues no command. -/
theorem LockSetPause_issues_pause (worker : PlayerCommand → PlayerControl → PlayerControl)
    (pc : PlayerControl) (pause_flag : Bool) :
    (((pc.state = PlayerState.PLAY ∧ pause_flag = true) ∨
        (pc.state = PlayerState.PAUSE ∧ pause_flag = false)) →
      (pc.LockSetPause worker pause_flag).events
          = [PlayerEvent.lock, PlayerEvent.command PlayerCommand.PAUSE,
              PlayerEvent.idle_add_player, PlayerEvent.unlock] ∧
      (pc.LockSetPause worker pause_flag).pc = worker PlayerCommand.PAUSE pc) ∧
    (¬ ((pc.state = PlayerState.PLAY ∧ pause_flag = true) ∨
        (pc.state = PlayerState.PAUSE ∧ pause_flag = false)) →
      (pc.LockSetPause worker pause_flag).events = [PlayerEvent.lock, PlayerEvent.unlock] ∧
      (pc.LockSetPause worker pause_flag).pc = pc) ∧
    ((∀ q : PlayerControl,
        (q.state = PlayerState.PLAY → (worker PlayerCommand.PAUSE q).state = PlayerState.PAUSE) ∧
        (q.state = PlayerState.PAUSE → (worker PlayerCommand.PAUSE q).state = PlayerState.PLAY)) →
      ((pc.LockSetPause worker pause_flag).pc.LockSetPause worker pause_flag).events
        = [PlayerEvent.lock, PlayerEvent.unlock]) := by
  have hyes : ((pc.state = PlayerState.PLAY ∧ pause_flag = true) ∨
        (pc.state = PlayerState.PAUSE ∧ pause_flag = false)) →
      (pc.LockSetPause worker pause_flag).events
          = [PlayerEvent.lock, PlayerEvent.command PlayerCommand.PAUSE,
              PlayerEvent.idle_add_player, PlayerEvent.unlock] ∧
      (pc.LockSetPause worker pause_flag).pc = worker PlayerCommand.PAUSE pc := by
    rintro (⟨hs, hf⟩ | ⟨hs, hf⟩) <;>
      simp [PlayerControl.LockSetPause, PlayerControl.PauseLocked,
        PlayerControl.SynchronousCommand, hs, hf]
  have hno : ∀ (q : PlayerControl) (flag : Bool),
      ¬ ((q.state = PlayerState.PLAY ∧ flag = true) ∨
        (q.state = PlayerState.PAUSE ∧ flag = false)) →
      (q.LockSetPause worker flag).events = [PlayerEvent.lock, PlayerEvent.unlock] ∧
      (q.LockSetPause worker flag).pc = q := by
    intro q flag h
    cases hs : q.state <;> cases flag <;>
      simp_all [PlayerControl.LockSetPause, PlayerControl.PauseLocked,
        PlayerControl.SynchronousCommand]
  refine ⟨hyes, hno pc pause_flag, fun hw => ?_⟩
  by_cases h : (pc.state = PlayerState.PLAY ∧ pause_flag = true) ∨
      (pc.state = PlayerState.PAUSE ∧ pause_flag = false)
  · rw [(hyes h).2]
    refine (hno _ _ ?_).1
    rcases h with ⟨hs, hf⟩ | ⟨hs, hf⟩
    · have := (hw pc).1 hs
      simp [this, hf]
    · have := (hw pc).2 hs
      simp [this, hf]
  · rw [(hno pc pause_flag h).2]
    exact (hno pc pause_flag h).1

/-! ## ALSA sample format negotiation -/

/-- Asking for two lists of formats one after the other. -/
theorem firstResult_append (dev : AlsaFormat → Int) (l1 l2 : List AlsaFormat) :
    firstResult dev (l1 ++ l2)
      = if firstResult dev l1 ≠ -EINVAL then firstResult dev l1 else firstResult dev l2 := by
  induction l1 with
  | nil => simp [firstResult]
  | cons f rest ih =>
    show firstResult dev (f :: (rest ++ l2)) = _
    simp only [firstResult]
    by_cases h : dev f = -EINVAL
    · simp only [h, ne_eq, not_true_eq_false, if_false, ih]
    · simp [h]

/-- With a device that only accepts or rejects, the answer is 0 exactly when some
format of the list is accepted, and `-EINVAL` otherwise. -/
theorem firstResult_eq_zero (dev : AlsaFormat → Int)
    (hdev : ∀ v, dev v = 0 ∨ dev v = -EINVAL) (l : List AlsaFormat) :
    (firstResult dev l = 0 ↔ ∃ v ∈ l, dev v = 0) ∧
    (firstResult dev l = 0 ∨ firstResult dev l = -EINVAL) := by
  have hne : (-EINVAL : Int) ≠ 0 := by decide
  induction l with
  | nil => simp [firstResult, hne]
  | cons f rest ih =>
    simp only [firstResult, List.mem_cons, exists_eq_or_imp]
    rcases hdev f with h | h
    · have : dev f ≠ -EINVAL := by rw [h]; exact fun e => hne e.symm
      rw [if_pos this]
      exact ⟨⟨fun _ => Or.inl h, fun _ => h⟩, Or.inl h⟩
    · simp only [h, ne_eq, not_true_eq_false, if_false, hne, false_or]
      exact ih

/-- The result of `AlsaTryFormatOrPacked` is the answer to the format and its packed
variant. -/
theorem AlsaTryFormatOrPacked_result (dev : AlsaFormat → Int) (fmt : AlsaFormat)
    (params : Params) (hfmt : fmt ≠ AlsaFormat.UNKNOWN) :
    (AlsaTryFormatOrPacked dev fmt params).1
      = firstResult dev ([fmt, PackAlsaPcmFormat fmt].filter (fun f => f ≠ AlsaFormat.UNKNOWN)) := by
  unfold AlsaTryFormatOrPacked
  by_cases h1 : dev fmt = -EINVAL
  · by_cases h2 : PackAlsaPcmFormat fmt = AlsaFormat.UNKNOWN
    · simp [h1, h2, hfmt, firstResult, List.filter]
    · by_cases h3 : dev (PackAlsaPcmFormat fmt) = -EINVAL <;>
        simp [h1, h2, h3, hfmt, firstResult, List.filter]
  · simp [h1, hfmt, firstResult, List.filter]

/-- The result of `AlsaTryFormatOrByteSwap` is the answer to the four variants of the
format. -/
theorem AlsaTryFormatOrByteSwap_result (cfg : AlsaBuild) (dev : AlsaFormat → Int)
    (fmt : AlsaFormat) (params : Params) (hfmt : fmt ≠ AlsaFormat.UNKNOWN) :
    (AlsaTryFormatOrByteSwap cfg dev fmt params).1
      = firstResult dev (byteSwapVariants cfg fmt) := by
  have hsplit : byteSwapVariants cfg fmt
      = [fmt, PackAlsaPcmFormat fmt].filter (fun f => f ≠ AlsaFormat.UNKNOWN)
        ++ [ByteSwapAlsaPcmFormat cfg fmt,
            PackAlsaPcmFormat (ByteSwapAlsaPcmFormat cfg fmt)].filter
              (fun f => f ≠ AlsaFormat.UNKNOWN) := by
    unfold byteSwapVariants
    rw [← List.filter_append]
    rfl
  rw [hsplit, firstResult_append, ← AlsaTryFormatOrPacked_result dev fmt params hfmt]
  unfold AlsaTryFormatOrByteSwap
  by_cases h1 : (AlsaTryFormatOrPacked dev fmt params).1 = -EINVAL
  · by_cases h2 : ByteSwapAlsaPcmFormat cfg fmt = AlsaFormat.UNKNOWN
    · have h3 : PackAlsaPcmFormat AlsaFormat.UNKNOWN = AlsaFormat.UNKNOWN := rfl
      simp [h1, h2, h3, firstResult, List.filter]
    · simp only [h1, ne_eq, not_true_eq_false, if_false, h2]
      rw [AlsaTryFormatOrPacked_result dev _ _ h2]
  · simp [h1]

/-- The result of `AlsaTryFormat` is the answer of the device to the variants of the
sample format, asked for in order; it does not depend on the export parameters. -/
theorem AlsaTryFormat_result (be : Bool) (cfg : AlsaBuild) (dev : AlsaFormat → Int)
    (sample_format : SampleFormat) (params : Params) :
    (AlsaTryFormat be cfg dev sample_format params).1
      = firstResult dev (alsaVariants be cfg sample_format) := by
  unfold AlsaTryFormat alsaVariants
  by_cases hu : ToAlsaPcmFormat be cfg sample_format = AlsaFormat.UNKNOWN
  · simp [hu, firstResult]
  · simp only [hu, if_false]
    unfold AlsaTryFormatDsd
    have h32 : (if be then AlsaFormat.DSD_U32_BE else AlsaFormat.DSD_U32_LE)
        ≠ AlsaFormat.UNKNOWN := by cases be <;> simp
    have h16 : (if be then AlsaFormat.DSD_U16_BE else AlsaFormat.DSD_U16_LE)
        ≠ AlsaFormat.UNKNOWN := by cases be <;> simp
    by_cases hD : (cfg.ENABLE_DSD && cfg.HAVE_ALSA_DSD_U32) = true
    · by_cases h8 : ToAlsaPcmFormat be cfg sample_format = AlsaFormat.DSD_U8
      · simp only [hD, h8, if_true, and_true, decide_True, Bool.and_self, Bool.true_and,
          firstResult_append, ← AlsaTryFormatOrByteSwap_result cfg dev AlsaFormat.DSD_U8 params
            (by simp)]
        by_cases e1 : (AlsaTryFormatOrByteSwap cfg dev AlsaFormat.DSD_U8 params).1 = -EINVAL
        · simp only [e1, if_true, ne_eq, not_true_eq_false, if_false]
          rw [AlsaTryFormatOrByteSwap_result cfg dev _ _ h32]
          by_cases e2 : firstResult dev (byteSwapVariants cfg
              (if be then AlsaFormat.DSD_U32_BE else AlsaFormat.DSD_U32_LE)) = -EINVAL
          · simp only [e2, if_true, ne_eq, not_true_eq_false, if_false]
            rw [AlsaTryFormatOrByteSwap_result cfg dev _ _ h16]
          · simp [e2]
        · simp [e1]
      · have h := AlsaTryFormatOrByteSwap_result cfg dev _ params hu
        simp [hD, h8, h]
    · have hD1 : (cfg.ENABLE_DSD && cfg.HAVE_ALSA_DSD_U32) = false := by
        simpa using hD
      have h := AlsaTryFormatOrByteSwap_result cfg dev _ params hu
      simp [hD1, h]

/-- The result of `AlsaTryFormat` whatever the export parameters are. -/
theorem AlsaTryFormat_tryResult (be : Bool) (cfg : AlsaBuild) (dev : AlsaFormat → Int)
    (sample_format : SampleFormat) (params : Params) :
    (AlsaTryFormat be cfg dev sample_format params).1 = tryResult be cfg dev sample_format := by
  unfold tryResult
  rw [AlsaTryFormat_result, AlsaTryFormat_result]

/-- The probing loop stops at the first entry of the table for which `AlsaTryFormat`
returns something other than `-EINVAL`, and takes that entry as the format if the result
is 0. -/
theorem AlsaSetupFormat_loop_eq (be : Bool) (cfg : AlsaBuild) (dev : AlsaFormat → Int)
    (table : List SampleFormat) :
    ∀ (err : Int) (audio_format : AudioFormat) (params : Params),
      (err = -EINVAL → tryResult be cfg dev audio_format.format = -EINVAL) →
      (AlsaSetupFormat_loop be cfg dev table err audio_format params).1
        = (if err ≠ -EINVAL then err
           else match firstAnswered be cfg dev table with
             | some f => tryResult be cfg dev f
             | none => -EINVAL) ∧
      (AlsaSetupFormat_loop be cfg dev table err audio_format params).2.1
        = (if err ≠ -EINVAL then audio_format
           else match firstAnswered be cfg dev table with
             | some f =>
               if tryResult be cfg dev f = 0 then { audio_format with format := f }
               else audio_format
             | none => audio_format) := by
  have hne : (-EINVAL : Int) ≠ 0 := by decide
  induction table with
  | nil =>
    intro err audio_format params _
    by_cases he : err = -EINVAL <;> simp [AlsaSetupFormat_loop, firstAnswered, he]
  | cons f rest ih =>
    intro err audio_format params hinv
    by_cases he : err = -EINVAL
    · have hreq := hinv he
      by_cases hf : f = audio_format.format
      · subst hf
        have hfa : firstAnswered be cfg dev (audio_format.format :: rest)
            = firstAnswered be cfg dev rest := by
          simp [firstAnswered, List.find?, hreq]
        have := ih err audio_format params hinv
        simp only [AlsaSetupFormat_loop, he, ne_eq, not_true_eq_false, if_false, if_true,
          hfa] at this ⊢
        exact this
      · have hr := AlsaTryFormat_tryResult be cfg dev f params
        by_cases ht : tryResult be cfg dev f = -EINVAL
        · have hfa : firstAnswered be cfg dev (f :: rest) = firstAnswered be cfg dev rest := by
            simp [firstAnswered, List.find?, ht]
          have h0 : ¬ tryResult be cfg dev f = 0 := by rw [ht]; exact hne
          have := ih (-EINVAL) audio_format (AlsaTryFormat be cfg dev f params).2 (fun _ => hreq)
          simp only [AlsaSetupFormat_loop, he, ne_eq, not_true_eq_false, if_false, hf, hr, ht,
            hfa, hne] at this ⊢
          exact this
        · have hfa : firstAnswered be cfg dev (f :: rest) = some f := by
            simp [firstAnswered, List.find?, ht]
          have := ih (tryResult be cfg dev f)
            (if tryResult be cfg dev f = 0 then { audio_format with format := f }
              else audio_format)
            (AlsaTryFormat be cfg dev f params).2 (fun h => absurd h ht)
          simp only [AlsaSetupFormat_loop, he, ne_eq, not_true_eq_false, if_false, hf, hr,
            hfa, ht, not_false_eq_true, if_true] at this ⊢
          exact this
    · simp [AlsaSetupFormat_loop, he]

/-- The outcome of `AlsaSetupFormat` by the first candidate for which `AlsaTryFormat`
answers something other than `-EINVAL`. -/
theorem AlsaSetupFormat_eq (be : Bool) (cfg : AlsaBuild) (dev : AlsaFormat → Int)
    (audio_format : AudioFormat) (params : Params) :
    (AlsaSetupFormat be cfg dev audio_format params).1
      = (match firstAnswered be cfg dev (audio_format.format :: probe_formats) with
         | some f => tryResult be cfg dev f
         | none => -EINVAL) ∧
    (AlsaSetupFormat be cfg dev audio_format params).2.1
      = (match firstAnswered be cfg dev (audio_format.format :: probe_formats) with
         | some f =>
           if tryResult be cfg dev f = 0 then { audio_format with format := f }
           else audio_format
         | none => audio_format) := by
  have hr := AlsaTryFormat_tryResult be cfg dev audio_format.format params
  have h := AlsaSetupFormat_loop_eq be cfg dev probe_formats
    (tryResult be cfg dev audio_format.format) audio_format
    (AlsaTryFormat be cfg dev audio_format.format params).2 (fun e => e)
  unfold AlsaSetupFormat
  simp only [hr]
  by_cases ht : tryResult be cfg dev audio_format.format = -EINVAL
  · have hfa : firstAnswered be cfg dev (audio_format.format :: probe_formats)
        = firstAnswered be cfg dev probe_formats := by
      simp [firstAnswered, List.find?, ht]
    simp only [ht, ne_eq, not_true_eq_false, if_false] at h
    rw [hfa, ht]
    exact h
  · have hfa : firstAnswered be cfg dev (audio_format.format :: probe_formats)
        = some audio_format.format := by
      simp [firstAnswered, List.find?, ht]
    simp only [ht, ne_eq, not_false_eq_true, if_true] at h
    rw [hfa]
    dsimp only
    refine ⟨h.1, ?_⟩
    rw [h.2]
    split_ifs <;> rfl

/-- With a device that only accepts or rejects, `AlsaTryFormat` returns 0 when the device
accepts one of the variants of the sample format and `-EINVAL` otherwise. -/
theorem tryResult_of_accepting_device (be : Bool) (cfg : AlsaBuild) (dev : AlsaFormat → Int)
    (hdev : ∀ v, dev v = 0 ∨ dev v = -EINVAL) (f : SampleFormat) :
    (tryResult be cfg dev f = 0 ↔ deviceAccepts be cfg dev f = true) ∧
    (tryResult be cfg dev f ≠ -EINVAL ↔ deviceAccepts be cfg dev f = true) ∧
    (deviceAccepts be cfg dev f = true ↔ ∃ v ∈ alsaVariants be cfg f, dev v = 0) := by
  have hne : (-EINVAL : Int) ≠ 0 := by decide
  have hz := firstResult_eq_zero dev hdev (alsaVariants be cfg f)
  have ht : tryResult be cfg dev f = firstResult dev (alsaVariants be cfg f) := by
    unfold tryResult; exact AlsaTryFormat_result be cfg dev f {}
  have hacc : deviceAccepts be cfg dev f = true ↔ ∃ v ∈ alsaVariants be cfg f, dev v = 0 := by
    simp [deviceAccepts, List.any_eq_true]
  refine ⟨?_, ?_, hacc⟩
  · rw [ht, hz.1, hacc]
  · rw [ht, hacc, ← hz.1]
    rcases hz.2 with h | h
    · rw [h]; exact ⟨fun _ => rfl, fun _ e => hne e.symm⟩
    · rw [h]; exact ⟨fun e => absurd rfl e, fun e => absurd e hne⟩

/-- Two searches with predicates that agree find the same entry. -/
theorem find?_congr_pred (p q : SampleFormat → Bool) (l : List SampleFormat)
    (h : ∀ x ∈ l, p x = q x) : l.find? p = l.find? q := by
  induction l with
  | nil => rfl
  | cons x rest ih =>
    simp only [List.find?, h x (List.mem_cons_self _ _)]
    rw [ih (fun y hy => h y (List.mem_cons_of_mem _ hy))]

/-- C20: `AlsaSetupFormat` asks for the requested sample format first and probes S24_P32,
S32, S16, S8 only while the answer is `-EINVAL`; it returns the first answer that is not
`-EINVAL` as it is.  With a device that only accepts or rejects, it returns 0 iff the
device accepts a variant of one of these candidates, `audio_format.format` then being
the first accepted candidate of the list, and otherwise it returns `-EINVAL` with the
audio format unchanged. -/
theorem AlsaSetupFormat_probes (be : Bool) (cfg : AlsaBuild) (dev : AlsaFormat → Int)
    (audio_format : AudioFormat) (params : Params) :
    (∀ f, firstAnswered be cfg dev (audio_format.format :: probe_formats) = some f →
      (AlsaSetupFormat be cfg dev audio_format params).1 = tryResult be cfg dev f ∧
      (tryResult be cfg dev f ≠ 0 →
        (AlsaSetupFormat be cfg dev audio_format params).2.1 = audio_format)) ∧
    ((∀ v, dev v = 0 ∨ dev v = -EINVAL) →
      ((AlsaSetupFormat be cfg dev audio_format params).1 = 0 ↔
        ∃ f ∈ audio_format.format :: probe_formats,
          ∃ v ∈ alsaVariants be cfg f, dev v = 0) ∧
      ((AlsaSetupFormat be cfg dev audio_format params).1 = 0 →
        (audio_format.format :: probe_formats).find? (deviceAccepts be cfg dev)
            = some (AlsaSetupFormat be cfg dev audio_format params).2.1.format ∧
        (AlsaSetupFormat be cfg dev audio_format params).2.1
            = { audio_format with
                format := (AlsaSetupFormat be cfg dev audio_format params).2.1.format }) ∧
      ((AlsaSetupFormat be cfg dev audio_format params).1 ≠ 0 →
        (AlsaSetupFormat be cfg dev audio_format params).1 = -EINVAL ∧
        (AlsaSetupFormat be cfg dev audio_format params).2.1 = audio_format)) := by
  have hne : (-EINVAL : Int) ≠ 0 := by decide
  have heq := AlsaSetupFormat_eq be cfg dev audio_format params
  refine ⟨fun f hf => ?_, fun hdev => ?_⟩
  · rw [hf] at heq
    dsimp only at heq
    refine ⟨heq.1, fun h0 => ?_⟩
    rw [heq.2]
    simp [h0]
  · have hfind : firstAnswered be cfg dev (audio_format.format :: probe_formats)
        = (audio_format.format :: probe_formats).find? (deviceAccepts be cfg dev) := by
      unfold firstAnswered
      refine find?_congr_pred _ _ _ (fun x _ => ?_)
      have h := (tryResult_of_accepting_device be cfg dev hdev x).2.1
      by_cases hx : deviceAccepts be cfg dev x = true
      · rw [hx]; simpa using h.2 hx
      · have hx' : deviceAccepts be cfg dev x = false := by simpa using hx
        rw [hx']
        have : ¬ tryResult be cfg dev x ≠ -EINVAL := fun e => hx (h.1 e)
        simpa using this
    cases hfa : firstAnswered be cfg dev (audio_format.format :: probe_formats) with
    | none =>
      rw [hfa] at heq
      dsimp only at heq
      have hnone : ∀ x ∈ audio_format.format :: probe_formats,
          ¬ deviceAccepts be cfg dev x = true := by
        rw [hfind] at hfa
        intro x hx
        have := List.find?_eq_none.1 hfa x hx
        simpa using this
      refine ⟨?_, ?_, ?_⟩
      · rw [heq.1]
        constructor
        · intro h; exact absurd h hne
        · rintro ⟨f, hf, hv⟩
          exact absurd ((tryResult_of_accepting_device be cfg dev hdev f).2.2.2 hv)
            (hnone f hf)
      · intro h; rw [heq.1] at h; exact absurd h hne
      · intro _; exact ⟨heq.1, heq.2⟩
    | some f =>
      rw [hfa] at heq
      dsimp only at heq
      have hfa2 := hfa
      rw [hfind] at hfa2
      have hacc : deviceAccepts be cfg dev f = true := by
        have := List.find?_some hfa2
        simpa using this
      have hmem : f ∈ audio_format.format :: probe_formats := List.mem_of_find?_eq_some hfa2
      have ht0 : tryResult be cfg dev f = 0 :=
        (tryResult_of_accepting_device be cfg dev hdev f).1.2 hacc
      have hfmt : (AlsaSetupFormat be cfg dev audio_format params).2.1
          = { audio_format with format := f } := by
        rw [heq.2]; simp [ht0]
      refine ⟨?_, ?_, ?_⟩
      · rw [heq.1, ht0]
        exact ⟨fun _ => ⟨f, hmem,
          (tryResult_of_accepting_device be cfg dev hdev f).2.2.1 hacc⟩, fun _ => rfl⟩
      · intro _
        rw [hfmt]
        exact ⟨hfa2, rfl⟩
      · intro h
        rw [heq.1, ht0] at h
        exact absurd rfl h

/-- C20 on a concrete device: a little-endian host asks a device that only takes
big-endian 16-bit samples for 32-bit samples; S24_P32 and S32 are rejected in every
variant and S16 is accepted byte-swapped. -/
theorem AlsaSetupFormat_example :
    AlsaSetupFormat false {} sampleDevice
        { sample_rate := 44100, format := SampleFormat.S32, channels := 2 } {}
      = (0, { sample_rate := 44100, format := SampleFormat.S16, channels := 2 },
          { reverse_endian := true }) := by
  decide

/-! ## The event loop: calls made by callbacks -/

/-- A call made by a callback does not move the loop to another place. -/
theorem EventLoop.apply_point (s : EventLoop) (a : LoopAction) : (s.apply a).point = s.point := by
  cases a <;> simp only [EventLoop.apply] <;> (try split) <;> rfl

/-- The calls of a callback do not move the loop to another place. -/
theorem EventLoop.applyAll_point (actions : List LoopAction) :
    ∀ s : EventLoop, (s.applyAll actions).point = s.point := by
  induction actions with
  | nil => intro s; rfl
  | cons a rest ih =>
    intro s
    show ((s.apply a).applyAll rest).point = s.point
    rw [ih, EventLoop.apply_point]

/-- Clearing the entries of a monitor leaves no events in them and adds none elsewhere. -/
theorem PollResult_Clear_spec (m : Nat) (poll_result : List (Nat × Nat)) :
    (∀ e ∈ PollResult_Clear m poll_result, e.2 = m → e.1 = 0) ∧
    (∀ k : Nat, (∀ e ∈ poll_result, e.2 = k → e.1 = 0) →
      ∀ e ∈ PollResult_Clear m poll_result, e.2 = k → e.1 = 0) := by
  unfold PollResult_Clear
  constructor
  · intro e he hm
    rw [List.mem_map] at he
    obtain ⟨x, _, rfl⟩ := he
    by_cases h : x.2 = m
    · simp [h]
    · simp only [h, if_false] at hm
  · intro k hk e he hek
    rw [List.mem_map] at he
    obtain ⟨x, hx, rfl⟩ := he
    by_cases h : x.2 = m
    · simp [h]
    · simp only [h, if_false] at hek ⊢
      exact hk x hx hek

/-- A call made by a callback keeps the cancellation invariant. -/
theorem EventLoop.apply_cancelInvariant (s : EventLoop) (a : LoopAction)
    (h : cancelInvariant s) : cancelInvariant (s.apply a) := by
  obtain ⟨h1, h2⟩ := h
  cases a with
  | AddIdle i => exact ⟨h1, h2⟩
  | RemoveIdle i => exact ⟨h1, h2⟩
  | AddTimer t d => exact ⟨h1, h2⟩
  | CancelTimer t => exact ⟨h1, h2⟩
  | AddDeferred d =>
    simp only [EventLoop.apply]
    split
    · exact ⟨h1, h2⟩
    · split <;> exact ⟨h1, h2⟩
  | RemoveDeferred d =>
    simp only [EventLoop.apply]
    split <;> exact ⟨h1, h2⟩
  | Break =>
    simp only [EventLoop.apply]
    split <;> exact ⟨h1, h2⟩
  | RemoveFD fd m =>
    refine ⟨h1, ?_⟩
    intro k hk e he hek
    have hc := PollResult_Clear_spec m s.poll_result
    simp only [EventLoop.apply, cancelledSinceWait, List.mem_cons] at hk he
    rcases hk with rfl | hk
    · exact hc.1 e he hek
    · exact hc.2 k (h2 k hk) e he hek
  | Abandon fd m =>
    refine ⟨h1, ?_⟩
    intro k hk e he hek
    have hc := PollResult_Clear_spec m s.poll_result
    simp only [EventLoop.apply, cancelledSinceWait, List.mem_cons] at hk he
    rcases hk with rfl | hk
    · exact hc.1 e he hek
    · exact hc.2 k (h2 k hk) e he hek

/-- The calls of a callback keep the cancellation invariant. -/
theorem EventLoop.applyAll_cancelInvariant (actions : List LoopAction) :
    ∀ s : EventLoop, cancelInvariant s → cancelInvariant (s.applyAll actions) := by
  induction actions with
  | nil => intro s h; exact h
  | cons a rest ih =>
    intro s h
    exact ih (s.apply a) (EventLoop.apply_cancelInvariant s a h)

/-! ## The event loop: cancelling a socket monitor -/

/-- Moving to another place keeps the cancellation invariant. -/
theorem cancelInvariant_of_eq (s t : EventLoop) (h : cancelInvariant s)
    (htrace : t.trace = s.trace) (hpoll : t.poll_result = s.poll_result) :
    cancelInvariant t := by
  unfold cancelInvariant at *
  rw [htrace, hpoll]
  exact h

/-- A round of `HandleDeferred` keeps the cancellation invariant. -/
theorem EventLoop.handleDeferredStep_cancelInvariant (env : LoopEnv) (s : EventLoop)
    (next : RunPoint) (h : cancelInvariant s) :
    cancelInvariant (s.handleDeferredStep env next) := by
  unfold EventLoop.handleDeferredStep
  split
  · exact cancelInvariant_of_eq s _ h rfl rfl
  · split
    · exact cancelInvariant_of_eq s _ h rfl rfl
    · exact EventLoop.applyAll_cancelInvariant _ _ ⟨h.1, h.2⟩

/-- Moving on to another place keeps the cancellation invariant. -/
theorem cancelInvariant_goto (s : EventLoop) (p : RunPoint) (h : cancelInvariant s) :
    cancelInvariant { s with point := p } :=
  cancelInvariant_of_eq s _ h rfl rfl

/-- Every step of `Run` keeps the cancellation invariant. -/
theorem EventLoop.step_cancelInvariant (env : LoopEnv) (s : EventLoop)
    (h : cancelInvariant s) : cancelInvariant (s.step env) := by
  unfold EventLoop.step
  split
  · exact ⟨h.1, h.2⟩
  · split
    · exact cancelInvariant_of_eq s _ h rfl rfl
    · dsimp only
      split
      · exact cancelInvariant_of_eq s _ h rfl rfl
      · split
        · exact cancelInvariant_goto _ _ (EventLoop.applyAll_cancelInvariant _ _ ⟨h.1, h.2⟩)
        · exact EventLoop.applyAll_cancelInvariant _ _ ⟨h.1, h.2⟩
  · split
    · exact cancelInvariant_of_eq s _ h rfl rfl
    · dsimp only
      split
      · exact cancelInvariant_goto _ _ (EventLoop.applyAll_cancelInvariant _ _ ⟨h.1, h.2⟩)
      · exact EventLoop.applyAll_cancelInvariant _ _ ⟨h.1, h.2⟩
  · exact EventLoop.handleDeferredStep_cancelInvariant env s _ h
  · dsimp only
    split <;> exact cancelInvariant_of_eq s _ h rfl rfl
  · exact ⟨h.1, fun m hm => by simp [cancelledSinceWait] at hm⟩
  · rename_i i
    split
    · exact cancelInvariant_of_eq s _ h rfl rfl
    · rename_i events m hget
      split
      · rename_i hev
        split
        · exact cancelInvariant_of_eq s _ h rfl rfl
        · have hmem : (events, m) ∈ s.poll_result := List.get?_mem hget
          have hnot : m ∉ cancelledSinceWait s.trace := by
            intro hm
            exact hev (h.2 m hm (events, m) hmem rfl)
          have h1 : cancelInvariant
              { s with trace := LoopEvent.dispatch m events :: s.trace } := by
            refine ⟨?_, h.2⟩
            simp only [cancelRespected, Bool.and_eq_true, decide_eq_true_eq]
            exact ⟨hnot, h.1⟩
          dsimp only
          split
          · exact cancelInvariant_goto _ _ h1
          · exact cancelInvariant_goto _ _ (EventLoop.applyAll_cancelInvariant _ _ h1)
      · exact cancelInvariant_of_eq s _ h rfl rfl
  · exact EventLoop.handleDeferredStep_cancelInvariant env s _ h
  · exact ⟨h.1, fun m _ e he => by simp at he⟩
  · split <;> exact cancelInvariant_of_eq s _ h rfl rfl
  · exact h

/-- Every run keeps the cancellation invariant. -/
theorem EventLoop.run_cancelInvariant (env : LoopEnv) (n : Nat) :
    ∀ s : EventLoop, cancelInvariant s → cancelInvariant (EventLoop.run env n s) := by
  induction n with
  | zero => intro s h; exact h
  | succ n ih => intro s h; exact ih _ (EventLoop.step_cancelInvariant env s h)

/-- What the check of a history says about each dispatch in it: the dispatched monitor
was not cancelled between the most recent `ReadEvents` and the dispatch. -/
theorem cancelRespected_spec (newer : List LoopEvent) :
    ∀ (m events : Nat) (older : List LoopEvent),
      cancelRespected (newer ++ LoopEvent.dispatch m events :: older) = true →
      m ∉ cancelledSinceWait older := by
  induction newer with
  | nil =>
    intro m events older h
    simp only [List.nil_append, cancelRespected, Bool.and_eq_true, decide_eq_true_eq] at h
    exact h.1
  | cons e rest ih =>
    intro m events older h
    refine ih m events older ?_
    cases e <;>
      simp only [List.cons_append, cancelRespected, Bool.and_eq_true] at h <;>
      first
        | exact h
        | exact h.2

/-- C12: cancelling a socket monitor takes effect at once.  In the history of every run
of `EventLoop::Run`, whatever the callbacks do, the monitor of a `Dispatch` has not been
cancelled by `RemoveFD` or `Abandon` since the `ReadEvents` of that round: a monitor
cancelled during the socket dispatch of a round is not dispatched in the rest of that
round, pending events or not. -/
theorem Run_respects_cancellation (env : LoopEnv) (n : Nat) (s : EventLoop)
    (htrace : s.trace = []) :
    cancelRespected (EventLoop.run env n s).trace = true ∧
    ∀ (newer : List LoopEvent) (m events : Nat) (older : List LoopEvent),
      (EventLoop.run env n s).trace = newer ++ LoopEvent.dispatch m events :: older →
      m ∉ cancelledSinceWait older := by
  have h := (EventLoop.run_cancelInvariant env n s
    ⟨by rw [htrace]; rfl, fun m hm => by rw [htrace] at hm; simp [cancelledSinceWait] at hm⟩).1
  refine ⟨h, fun newer m events older heq => ?_⟩
  rw [heq] at h
  exact cancelRespected_spec newer m events older h

/-- C12 on a concrete run: `ReadEvents` reports events for the monitors 3 and 4, the
callback of monitor 3 removes monitor 4, and monitor 4 is not dispatched although its
events were collected. -/
theorem Run_respects_cancellation_witness :
    sampleLoop.trace = [] ∧
    (cancelRespected (EventLoop.run sampleLoopEnv 19 sampleLoop).trace = true ∧
      ∀ (newer : List LoopEvent) (m events : Nat) (older : List LoopEvent),
        (EventLoop.run sampleLoopEnv 19 sampleLoop).trace
            = newer ++ LoopEvent.dispatch m events :: older →
        m ∉ cancelledSinceWait older) ∧
    (EventLoop.run sampleLoopEnv 19 sampleLoop).trace
      = [LoopEvent.action (LoopAction.RemoveFD 9 4), LoopEvent.dispatch 3 1,
          LoopEvent.readEvents [] (-1), LoopEvent.iterate, LoopEvent.idle 5,
          LoopEvent.action (LoopAction.AddIdle 5), LoopEvent.timer 1, LoopEvent.iterate] :=
  ⟨rfl, Run_respects_cancellation sampleLoopEnv 19 sampleLoop rfl, by decide⟩

/-! ## The event loop: the idle queue and the wait -/

/-- A call made by a callback is no wait. -/
theorem EventLoop.apply_waits (s : EventLoop) (a : LoopAction) :
    waitsRespectIdle (s.apply a).trace = waitsRespectIdle s.trace := by
  cases a <;> simp only [EventLoop.apply] <;> (try split) <;> (try split) <;> rfl

/-- A call made by a callback keeps `again` covering what was added. -/
theorem EventLoop.apply_againCoversAdded (s : EventLoop) (a : LoopAction)
    (h : againCoversAdded s) : againCoversAdded (s.apply a) := by
  unfold againCoversAdded at *
  cases a <;> simp only [EventLoop.apply] <;> (try split) <;> (try split) <;>
    first
      | exact h
      | exact fun _ => rfl
      | exact fun _ => trivial

/-- A call made by a callback keeps `again` covering a non-empty idle queue. -/
theorem EventLoop.apply_againCoversIdle (s : EventLoop) (a : LoopAction)
    (h : againCoversIdle s) : againCoversIdle (s.apply a) := by
  unfold againCoversIdle at *
  cases a with
  | RemoveIdle i =>
    intro hne
    refine h (fun he => hne ?_)
    simp only [EventLoop.apply, he, List.erase_nil]
  | AddIdle i => exact fun _ => rfl
  | AddTimer t d => exact fun _ => rfl
  | CancelTimer t => exact h
  | AddDeferred d =>
    simp only [EventLoop.apply]
    split
    · exact h
    · exact fun _ => rfl
  | RemoveDeferred d =>
    simp only [EventLoop.apply]
    split <;> exact h
  | Break =>
    simp only [EventLoop.apply]
    split <;> exact h
  | RemoveFD fd m => exact h
  | Abandon fd m => exact h

/-- The calls of a callback are no waits and keep `again` covering what was added and a
non-empty idle queue. -/
theorem EventLoop.applyAll_idle (actions : List LoopAction) :
    ∀ s : EventLoop,
      waitsRespectIdle (s.applyAll actions).trace = waitsRespectIdle s.trace ∧
      (againCoversAdded s → againCoversAdded (s.applyAll actions)) ∧
      (againCoversIdle s → againCoversIdle (s.applyAll actions)) := by
  induction actions with
  | nil => intro s; exact ⟨rfl, id, id⟩
  | cons a rest ih =>
    intro s
    have h := ih (s.apply a)
    refine ⟨?_, fun h1 => ?_, fun h2 => ?_⟩
    · exact h.1.trans (EventLoop.apply_waits s a)
    · exact h.2.1 (EventLoop.apply_againCoversAdded s a h1)
    · exact h.2.2 (EventLoop.apply_againCoversIdle s a h2)

/-- The idle invariant at a place after the wait of a round or outside the loop. -/
theorem idleInvariant_free (t : EventLoop) (hw : waitsRespectIdle t.trace = true)
    (h1 : t.point ≠ RunPoint.timers) (h2 : t.point ≠ RunPoint.idle)
    (h3 : t.point ≠ RunPoint.deferred) (h4 : t.point ≠ RunPoint.check)
    (h5 : t.point ≠ RunPoint.wait) : idleInvariant t :=
  ⟨hw, fun h => by rcases h with h | h | h | h <;> contradiction,
    fun h => by rcases h with h | h <;> contradiction, fun h => absurd h h5⟩

/-- The idle invariant in the timer and idle loops. -/
theorem idleInvariant_early (t : EventLoop) (hw : waitsRespectIdle t.trace = true)
    (hp : t.point = RunPoint.timers ∨ t.point = RunPoint.idle) (hA : againCoversAdded t) :
    idleInvariant t := by
  refine ⟨hw, fun _ => hA, fun h => ?_, fun h => ?_⟩
  · rcases hp with hp | hp <;> rcases h with h | h <;> rw [hp] at h <;> cases h
  · rcases hp with hp | hp <;> rw [hp] at h <;> cases h

/-- The idle invariant from the end of the idle loop to the test of `again`. -/
theorem idleInvariant_late (t : EventLoop) (hw : waitsRespectIdle t.trace = true)
    (hp : t.point = RunPoint.deferred ∨ t.point = RunPoint.check)
    (hA : againCoversAdded t) (hI : againCoversIdle t) : idleInvariant t := by
  refine ⟨hw, fun _ => hA, fun _ => hI, fun h => ?_⟩
  rcases hp with hp | hp <;> rw [hp] at h <;> cases h

/-- A round of `HandleDeferred` in `Run` keeps the idle invariant. -/
theorem EventLoop.handleDeferredStep_idleInvariant (env : LoopEnv) (s : EventLoop)
    (hp : s.point = RunPoint.deferred) (h : idleInvariant s) :
    idleInvariant (s.handleDeferredStep env RunPoint.check) := by
  have hA := h.2.1 (Or.inr (Or.inr (Or.inl hp)))
  have hI := h.2.2.1 (Or.inl hp)
  unfold EventLoop.handleDeferredStep
  split
  · exact idleInvariant_late _ h.1 (Or.inr rfl) hA hI
  · split
    · exact idleInvariant_late _ h.1 (Or.inr rfl) hA hI
    · rename_i d rest _ _
      have hall := EventLoop.applyAll_idle
        (env.deferredRun { s with deferred := rest, pending := s.pending.filter (fun x => x ≠ d),
                                  trace := LoopEvent.deferred d :: s.trace } d)
        { s with deferred := rest, pending := s.pending.filter (fun x => x ≠ d),
                 trace := LoopEvent.deferred d :: s.trace }
      refine idleInvariant_late _ (hall.1.trans h.1) (Or.inl ?_) (hall.2.1 hA) (hall.2.2 hI)
      rw [EventLoop.applyAll_point]
      exact hp

/-- A round of `HandleDeferred` called while sockets are dispatched keeps the idle
invariant. -/
theorem EventLoop.handleDeferredStep_idleInvariant_socket (env : LoopEnv) (s : EventLoop)
    (i : Nat) (hp : s.point = RunPoint.socketDeferred i) (h : idleInvariant s) :
    idleInvariant (s.handleDeferredStep env (RunPoint.sockets (i + 1))) := by
  unfold EventLoop.handleDeferredStep
  split
  · exact idleInvariant_free _ h.1 (by simp) (by simp) (by simp) (by simp) (by simp)
  · split
    · exact idleInvariant_free _ h.1 (by simp) (by simp) (by simp) (by simp) (by simp)
    · rename_i d rest _ _
      have hall := EventLoop.applyAll_idle
        (env.deferredRun { s with deferred := rest, pending := s.pending.filter (fun x => x ≠ d),
                                  trace := LoopEvent.deferred d :: s.trace } d)
        { s with deferred := rest, pending := s.pending.filter (fun x => x ≠ d),
                 trace := LoopEvent.deferred d :: s.trace }
      have hpt := EventLoop.applyAll_point
        (env.deferredRun { s with deferred := rest, pending := s.pending.filter (fun x => x ≠ d),
                                  trace := LoopEvent.deferred d :: s.trace } d)
        { s with deferred := rest, pending := s.pending.filter (fun x => x ≠ d),
                 trace := LoopEvent.deferred d :: s.trace }
      refine idleInvariant_free _ (hall.1.trans h.1) ?_ ?_ ?_ ?_ ?_ <;>
        (rw [hpt]; show s.point ≠ _; rw [hp]; simp)

/-- Every step of `Run` keeps the idle invariant. -/
theorem EventLoop.step_idleInvariant (env : LoopEnv) (s : EventLoop)
    (h : idleInvariant s) : idleInvariant (s.step env) := by
  unfold EventLoop.step
  split
  · -- the top of the `do` body
    exact idleInvariant_early _ h.1 (Or.inl rfl) (fun hadd => by cases hadd)
  · -- the timer loop
    rename_i hp
    have hA := h.2.1 (Or.inl hp)
    split
    · exact idleInvariant_early _ h.1 (Or.inr rfl) hA
    · rename_i due t rest _
      dsimp only
      split
      · exact idleInvariant_early _ h.1 (Or.inr rfl) hA
      · have hall := EventLoop.applyAll_idle
          (env.timerRun { s with timeout := due - s.now, timers := rest,
                                 trace := LoopEvent.timer t :: s.trace } t)
          { s with timeout := due - s.now, timers := rest,
                   trace := LoopEvent.timer t :: s.trace }
        have hpt := EventLoop.applyAll_point
          (env.timerRun { s with timeout := due - s.now, timers := rest,
                                 trace := LoopEvent.timer t :: s.trace } t)
          { s with timeout := due - s.now, timers := rest,
                   trace := LoopEvent.timer t :: s.trace }
        split
        · exact idleInvariant_free _ (hall.1.trans h.1) (by simp) (by simp) (by simp)
            (by simp) (by simp)
        · exact idleInvariant_early _ (hall.1.trans h.1) (Or.inl (hpt.trans hp)) (hall.2.1 hA)
  · -- the idle loop
    rename_i hp
    have hA := h.2.1 (Or.inr (Or.inl hp))
    split
    · rename_i hidle
      exact idleInvariant_late _ h.1 (Or.inl rfl) hA (fun hne => absurd hidle hne)
    · rename_i m rest _
      dsimp only
      have hall := EventLoop.applyAll_idle
        (env.idleRun { s with idle := rest, trace := LoopEvent.idle m :: s.trace } m)
        { s with idle := rest, trace := LoopEvent.idle m :: s.trace }
      have hpt := EventLoop.applyAll_point
        (env.idleRun { s with idle := rest, trace := LoopEvent.idle m :: s.trace } m)
        { s with idle := rest, trace := LoopEvent.idle m :: s.trace }
      split
      · exact idleInvariant_free _ (hall.1.trans h.1) (by simp) (by simp) (by simp)
          (by simp) (by simp)
      · exact idleInvariant_early _ (hall.1.trans h.1) (Or.inr (hpt.trans hp)) (hall.2.1 hA)
  · -- `HandleDeferred`
    rename_i hp
    exact EventLoop.handleDeferredStep_idleInvariant env s hp h
  · -- the test of `again`
    rename_i hp
    have hA := h.2.1 (Or.inr (Or.inr (Or.inr hp)))
    have hI := h.2.2.1 (Or.inr hp)
    dsimp only
    split
    · exact idleInvariant_free _ h.1 (by simp) (by simp) (by simp) (by simp) (by simp)
    · rename_i hag
      refine ⟨h.1, fun hx => ?_, fun hx => ?_, fun _ => ⟨?_, ?_⟩⟩
      · rcases hx with hx | hx | hx | hx <;> cases hx
      · rcases hx with hx | hx <;> cases hx
      · by_contra hne
        exact hag (hI hne)
      · cases hadd : addedSinceIterate s.trace
        · rfl
        · exact absurd (hA hadd) hag
  · -- the call of `ReadEvents`
    rename_i hp
    have hw := h.2.2.2 hp
    refine idleInvariant_free _ ?_ (by simp) (by simp) (by simp) (by simp) (by simp)
    show waitsRespectIdle (LoopEvent.readEvents s.idle _ :: s.trace) = true
    simp [waitsRespectIdle, hw.1, hw.2, h.1]
  · -- the socket loop
    rename_i j hp
    split
    · exact idleInvariant_free _ h.1 (by simp) (by simp) (by simp) (by simp) (by simp)
    · rename_i events m _
      split
      · split
        · exact idleInvariant_free _ h.1 (by simp) (by simp) (by simp) (by simp) (by simp)
        · dsimp only
          split
          · exact idleInvariant_free _ h.1 (by simp) (by simp) (by simp) (by simp) (by simp)
          · have hall := EventLoop.applyAll_idle
              (env.dispatch { s with trace := LoopEvent.dispatch m events :: s.trace } m events)
              { s with trace := LoopEvent.dispatch m events :: s.trace }
            exact idleInvariant_free _ (hall.1.trans h.1) (by simp) (by simp) (by simp)
              (by simp) (by simp)
      · exact idleInvariant_free _ h.1 (by simp) (by simp) (by simp) (by simp) (by simp)
  · -- `HandleDeferred` called from `OnSocketReady`
    rename_i j hp
    exact EventLoop.handleDeferredStep_idleInvariant_socket env s j hp h
  · exact idleInvariant_free _ h.1 (by simp) (by simp) (by simp) (by simp) (by simp)
  · split
    · exact idleInvariant_free _ h.1 (by simp) (by simp) (by simp) (by simp) (by simp)
    · exact idleInvariant_free _ h.1 (by simp) (by simp) (by simp) (by simp) (by simp)
  · exact h

/-- Every run keeps the idle invariant. -/
theorem EventLoop.run_idleInvariant (env : LoopEnv) (n : Nat) :
    ∀ s : EventLoop, idleInvariant s → idleInvariant (EventLoop.run env n s) := by
  induction n with
  | zero => intro s h; exact h
  | succ n ih => intro s h; exact ih _ (EventLoop.step_idleInvariant env s h)

/-- What the check of a history says about each wait in it: the idle queue was empty,
and no callback had added an idle monitor or a timer since the start of the round. -/
theorem waitsRespectIdle_spec (newer : List LoopEvent) :
    ∀ (idle : List Nat) (timeout_ms : Int) (older : List LoopEvent),
      waitsRespectIdle (newer ++ LoopEvent.readEvents idle timeout_ms :: older) = true →
      idle = [] ∧ addedSinceIterate older = false := by
  induction newer with
  | nil =>
    intro idle timeout_ms older h
    simp only [List.nil_append, waitsRespectIdle, Bool.and_eq_true, List.isEmpty_iff,
      Bool.not_eq_true'] at h
    exact ⟨h.1.1, h.1.2⟩
  | cons e rest ih =>
    intro idle timeout_ms older h
    refine ih idle timeout_ms older ?_
    cases e <;>
      simp only [List.cons_append, waitsRespectIdle, Bool.and_eq_true] at h <;>
      first
        | exact h
        | exact h.2

/-- C18: the idle queue is invoked until empty before the next wait.  In every run of
`EventLoop::Run`, whatever the callbacks do, `ReadEvents` is called only with an empty
idle queue and only in a round in which no callback has added an idle monitor or a
timer: after such a call a new round, with its timer and idle phases, is begun before
the loop waits.  When `again` is set at its test the loop goes to the loop condition,
and from there, unless `quit` is set, to the top of the next round. -/
theorem Run_waits_with_empty_idle_queue (env : LoopEnv) (n : Nat) (s : EventLoop)
    (hpoint : s.point = RunPoint.iterate) (htrace : s.trace = []) :
    (∀ (newer : List LoopEvent) (idle : List Nat) (timeout_ms : Int) (older : List LoopEvent),
      (EventLoop.run env n s).trace = newer ++ LoopEvent.readEvents idle timeout_ms :: older →
      idle = [] ∧ addedSinceIterate older = false) ∧
    ((EventLoop.run env n s).point = RunPoint.wait →
      (EventLoop.run env n s).idle = [] ∧
      addedSinceIterate (EventLoop.run env n s).trace = false) ∧
    (∀ t : EventLoop, t.point = RunPoint.check → t.again = true →
      (t.step env).point = RunPoint.condition ∧ (t.step env).trace = t.trace) ∧
    (∀ t : EventLoop, t.point = RunPoint.condition → t.quit = false →
      (t.step env).point = RunPoint.iterate) ∧
    (∀ t : EventLoop, t.point = RunPoint.iterate →
      (t.step env).point = RunPoint.timers ∧ (t.step env).again = false) := by
  have h0 : idleInvariant s :=
    idleInvariant_free s (by rw [htrace]; rfl) (by rw [hpoint]; simp) (by rw [hpoint]; simp)
      (by rw [hpoint]; simp) (by rw [hpoint]; simp) (by rw [hpoint]; simp)
  have h := EventLoop.run_idleInvariant env n s h0
  refine ⟨fun newer idle timeout_ms older heq => ?_, h.2.2.2, fun t hp ha => ?_,
    fun t hp hq => ?_, fun t hp => ?_⟩
  · have hw := h.1
    rw [heq] at hw
    exact waitsRespectIdle_spec newer idle timeout_ms older hw
  · simp [EventLoop.step, hp, ha]
  · simp [EventLoop.step, hp, hq]
  · simp [EventLoop.step, hp]

/-- C18 on a concrete run: timer 1 adds idle monitor 5 in the first round; the loop does
not wait in that round but runs the idle monitor, starts a second round and waits only
then, the idle queue being empty. -/
theorem Run_waits_with_empty_idle_queue_witness :
    sampleLoop.point = RunPoint.iterate ∧ sampleLoop.trace = [] ∧
    (∀ (newer : List LoopEvent) (idle : List Nat) (timeout_ms : Int) (older : List LoopEvent),
      (EventLoop.run sampleLoopEnv 14 sampleLoop).trace
          = newer ++ LoopEvent.readEvents idle timeout_ms :: older →
      idle = [] ∧ addedSinceIterate older = false) ∧
    (EventLoop.run sampleLoopEnv 14 sampleLoop).trace
      = [LoopEvent.readEvents [] (-1), LoopEvent.iterate, LoopEvent.idle 5,
          LoopEvent.action (LoopAction.AddIdle 5), LoopEvent.timer 1, LoopEvent.iterate] :=
  ⟨rfl, rfl, (Run_waits_with_empty_idle_queue sampleLoopEnv 14 sampleLoop rfl rfl).1,
    by decide⟩

/-! ## The convert filter: the state of the converter -/

/-- C22: the `PcmConvert` state of a `ConvertFilter` is open iff the input format
differs from the output format.  This holds after construction, and `Set(fmt)` on a
filter for which it holds leaves a filter for which it holds: when `Set` returns, the
output format is `fmt`; when `state.Open` throws, the output format is the input format
and the state is closed.  The input format never changes, and the destructor closes the
state exactly when it is open. -/
theorem ConvertFilter_state_open_iff_formats_differ (env : PcmConvertEnv)
    (audio_format fmt : AudioFormat) (f : ConvertFilter) (h : f.stateInvariant) :
    (ConvertFilter.create audio_format).stateInvariant ∧
    (∀ f1, f.Set env fmt = Except.ok f1 →
      f1.stateInvariant ∧ f1.out_audio_format = fmt ∧
      f1.in_audio_format = f.in_audio_format) ∧
    (∀ f1, f.Set env fmt = Except.error f1 →
      f1.stateInvariant ∧ f1.out_audio_format = f1.in_audio_format ∧
      f1.state_open = false ∧ f1.in_audio_format = f.in_audio_format ∧
      env.open_throws f.in_audio_format fmt = true) ∧
    (f.destroy = f.calls ++ (if f.state_open then [PcmConvertCall.Close] else [])) := by
  unfold ConvertFilter.stateInvariant at h ⊢
  refine ⟨by simp [ConvertFilter.create], ?_, ?_, ?_⟩
  · intro f1 hset
    unfold ConvertFilter.Set at hset
    by_cases h1 : fmt = f.out_audio_format
    · rw [if_pos h1] at hset
      cases hset
      exact ⟨h, h1.symm, rfl⟩
    · rw [if_neg h1] at hset
      by_cases ha : f.IsActive = true
      · simp only [ha, if_true] at hset
        by_cases h2 : fmt = f.in_audio_format
        · rw [if_pos h2] at hset
          cases hset
          exact ⟨by simp, h2.symm, rfl⟩
        · rw [if_neg h2] at hset
          by_cases h3 : env.open_throws f.in_audio_format fmt = true
          · rw [if_pos h3] at hset; cases hset
          · rw [if_neg h3] at hset
            cases hset
            exact ⟨by simpa using fun e : f.in_audio_format = fmt => h2 e.symm, rfl, rfl⟩
      · have ha' : f.IsActive = false := by simpa using ha
        have heq : f.out_audio_format = f.in_audio_format := by
          simpa [ConvertFilter.IsActive] using ha'
        simp only [ha', Bool.false_eq_true, if_false] at hset
        rw [if_neg (by rw [← heq]; exact h1)] at hset
        by_cases h3 : env.open_throws f.in_audio_format fmt = true
        · rw [if_pos h3] at hset; cases hset
        · rw [if_neg h3] at hset
          cases hset
          exact ⟨by simpa using fun e : f.in_audio_format = fmt => h1 (by rw [heq, e]),
            rfl, rfl⟩
  · intro f1 hset
    unfold ConvertFilter.Set at hset
    by_cases h1 : fmt = f.out_audio_format
    · rw [if_pos h1] at hset; cases hset
    · rw [if_neg h1] at hset
      by_cases ha : f.IsActive = true
      · simp only [ha, if_true] at hset
        by_cases h2 : fmt = f.in_audio_format
        · rw [if_pos h2] at hset; cases hset
        · rw [if_neg h2] at hset
          by_cases h3 : env.open_throws f.in_audio_format fmt = true
          · rw [if_pos h3] at hset
            cases hset
            exact ⟨by simp, rfl, rfl, rfl, h3⟩
          · rw [if_neg h3] at hset; cases hset
      · have ha' : f.IsActive = false := by simpa using ha
        have heq : f.out_audio_format = f.in_audio_format := by
          simpa [ConvertFilter.IsActive] using ha'
        have hclosed : f.state_open = false := by
          by_contra hc
          exact (h.1 (by simpa using hc)) heq.symm
        simp only [ha', Bool.false_eq_true, if_false] at hset
        rw [if_neg (by rw [← heq]; exact h1)] at hset
        by_cases h3 : env.open_throws f.in_audio_format fmt = true
        · rw [if_pos h3] at hset
          cases hset
          exact ⟨by simp [hclosed, heq], heq, hclosed, rfl, h3⟩
        · rw [if_neg h3] at hset; cases hset
  · unfold ConvertFilter.destroy ConvertFilter.IsActive
    by_cases hd : f.in_audio_format = f.out_audio_format
    · have hclosed : f.state_open = false := by
        by_contra hc
        exact (h.1 (by simpa using hc)) hd
      simp [hd, hclosed]
    · have hopen : f.state_open = true := h.2 hd
      have : f.out_audio_format ≠ f.in_audio_format := fun e => hd e.symm
      simp [this, hopen]

/-- C22 on a concrete filter: a converter from 44100 Hz 16 bit stereo that is open
toward 48000 Hz is asked for DSD, which the converter refuses; `Set` throws and the filter
is left in pass-through with the state closed. -/
theorem ConvertFilter_state_open_iff_formats_differ_witness :
    sampleConvertFilter.stateInvariant ∧ sampleConvertFilter.state_open = true ∧
      ∃ f1, sampleConvertFilter.Set sampleConvertEnv sampleDsdFormat = Except.error f1 ∧
        f1.stateInvariant ∧ f1.out_audio_format = f1.in_audio_format ∧
        f1.state_open = false :=
  ⟨by simp [ConvertFilter.stateInvariant, sampleConvertFilter], rfl, _, rfl,
    ((ConvertFilter_state_open_iff_formats_differ sampleConvertEnv {} sampleDsdFormat
      sampleConvertFilter (by simp [ConvertFilter.stateInvariant, sampleConvertFilter])).2.2.1
        _ rfl).1,
    rfl, rfl⟩

/-! ## ALSA: the variants of one format -/

/-- The packed variant of a format differs from the format and from its byte-swapped
variants, and so do the byte-swapped variants from each other and from the format. -/
theorem alsa_variants_distinct (cfg : AlsaBuild) (fmt : AlsaFormat)
    (hfmt : fmt ≠ AlsaFormat.UNKNOWN) :
    fmt ≠ PackAlsaPcmFormat fmt ∧ fmt ≠ ByteSwapAlsaPcmFormat cfg fmt ∧
    fmt ≠ PackAlsaPcmFormat (ByteSwapAlsaPcmFormat cfg fmt) ∧
    (PackAlsaPcmFormat fmt ≠ AlsaFormat.UNKNOWN →
      PackAlsaPcmFormat fmt ≠ ByteSwapAlsaPcmFormat cfg fmt ∧
      PackAlsaPcmFormat fmt ≠ PackAlsaPcmFormat (ByteSwapAlsaPcmFormat cfg fmt)) ∧
    (ByteSwapAlsaPcmFormat cfg fmt ≠ AlsaFormat.UNKNOWN →
      ByteSwapAlsaPcmFormat cfg fmt ≠ PackAlsaPcmFormat fmt ∧
      ByteSwapAlsaPcmFormat cfg fmt ≠ PackAlsaPcmFormat (ByteSwapAlsaPcmFormat cfg fmt)) := by
  obtain ⟨e, d, u⟩ := cfg
  cases fmt <;> cases u <;> simp [PackAlsaPcmFormat, ByteSwapAlsaPcmFormat] at hfmt ⊢

/-- Which of the variants of a format are packed 3-byte formats. -/
theorem alsa_variants_packed (cfg : AlsaBuild) (fmt : AlsaFormat) :
    (PackAlsaPcmFormat fmt ≠ AlsaFormat.UNKNOWN → (PackAlsaPcmFormat fmt).isPacked24 = true) ∧
    (ByteSwapAlsaPcmFormat cfg fmt).isPacked24 = fmt.isPacked24 := by
  obtain ⟨e, d, u⟩ := cfg
  cases fmt <;> cases u <;>
    simp [PackAlsaPcmFormat, ByteSwapAlsaPcmFormat, AlsaFormat.isPacked24]

/-- The outcome of `AlsaTryFormatOrPacked`: 0 with `pack24` cleared when the device takes
the format, 0 with `pack24` set when it rejects the format and takes the packed variant,
and otherwise another result with the parameters untouched. -/
theorem AlsaTryFormatOrPacked_outcome (dev : AlsaFormat → Int) (fmt : AlsaFormat)
    (params : Params) :
    (dev fmt = 0 ∧ AlsaTryFormatOrPacked dev fmt params = (0, { params with pack24 := false })) ∨
    (dev fmt = -EINVAL ∧ PackAlsaPcmFormat fmt ≠ AlsaFormat.UNKNOWN ∧
      dev (PackAlsaPcmFormat fmt) = 0 ∧
      AlsaTryFormatOrPacked dev fmt params = (0, { params with pack24 := true })) ∨
    ((AlsaTryFormatOrPacked dev fmt params).1 ≠ 0 ∧
      (AlsaTryFormatOrPacked dev fmt params).2 = params ∧
      ((AlsaTryFormatOrPacked dev fmt params).1 = -EINVAL →
        dev fmt = -EINVAL ∧ (PackAlsaPcmFormat fmt = AlsaFormat.UNKNOWN ∨
          dev (PackAlsaPcmFormat fmt) = -EINVAL))) := by
  have hne : (-EINVAL : Int) ≠ 0 := by decide
  unfold AlsaTryFormatOrPacked
  by_cases h1 : dev fmt = -EINVAL
  · have h10 : ¬ dev fmt = 0 := by rw [h1]; exact hne
    by_cases h2 : PackAlsaPcmFormat fmt = AlsaFormat.UNKNOWN
    · right; right
      simp [h1, h2, hne]
    · by_cases h3 : dev (PackAlsaPcmFormat fmt) = 0
      · right; left
        simp [h1, h2, h3, hne]
      · right; right
        simp [h1, h2, h3, hne]
  · by_cases h0 : dev fmt = 0
    · left
      simp [h0, hne.symm]
    · right; right
      simp [h1, h0]

/-- When `AlsaTryFormatOrByteSwap` returns 0, the device has accepted the first variant it
did not answer with `-EINVAL`, and the flags `pack24` and `reverse_endian` tell which
variant that is, whatever they were before. -/
theorem AlsaTryFormatOrByteSwap_accepted (cfg : AlsaBuild) (dev : AlsaFormat → Int)
    (fmt : AlsaFormat) (params : Params) (hfmt : fmt ≠ AlsaFormat.UNKNOWN)
    (h0 : (AlsaTryFormatOrByteSwap cfg dev fmt params).1 = 0) :
    ∃ v, answeredVariant cfg dev fmt = some v ∧ dev v = 0 ∧
      (AlsaTryFormatOrByteSwap cfg dev fmt params).2
        = { params with
            pack24 := decide (v = PackAlsaPcmFormat fmt ∨
              v = PackAlsaPcmFormat (ByteSwapAlsaPcmFormat cfg fmt)),
            reverse_endian := decide (v = ByteSwapAlsaPcmFormat cfg fmt ∨
              v = PackAlsaPcmFormat (ByteSwapAlsaPcmFormat cfg fmt)) } := by
  have hne : (-EINVAL : Int) ≠ 0 := by decide
  obtain ⟨d1, d2, d3, d4, d5⟩ := alsa_variants_distinct cfg fmt hfmt
  unfold AlsaTryFormatOrByteSwap at h0 ⊢
  unfold answeredVariant byteSwapVariants
  rcases AlsaTryFormatOrPacked_outcome dev fmt params with ⟨ha, hr⟩ | ⟨ha, hp, hb, hr⟩ |
    ⟨hn, hpar, hinv⟩
  · refine ⟨fmt, ?_, ha, ?_⟩
    · simp [List.filter, hfmt, List.find?, ha, hne.symm]
    · simp [hr, hne.symm, d1, d2, d3]
  · refine ⟨PackAlsaPcmFormat fmt, ?_, hb, ?_⟩
    · simp [List.filter, hfmt, hp, List.find?, ha, hb, hne.symm]
    · simp [hr, hne.symm, (d4 hp).1, (d4 hp).2]
  · by_cases he : (AlsaTryFormatOrPacked dev fmt params).1 = -EINVAL
    · obtain ⟨ha, hpk⟩ := hinv he
      by_cases hs : ByteSwapAlsaPcmFormat cfg fmt = AlsaFormat.UNKNOWN
      · simp [he, hs, hne] at h0
      · simp only [he, hne, if_false, ne_eq, not_true_eq_false, hs, hpar] at h0 ⊢
        have hfirst : ([fmt, PackAlsaPcmFormat fmt,
            ByteSwapAlsaPcmFormat cfg fmt,
            PackAlsaPcmFormat (ByteSwapAlsaPcmFormat cfg fmt)].filter
              (fun f => decide (f ≠ AlsaFormat.UNKNOWN))).find?
              (fun v => decide (dev v ≠ -EINVAL))
            = ([ByteSwapAlsaPcmFormat cfg fmt,
                PackAlsaPcmFormat (ByteSwapAlsaPcmFormat cfg fmt)].filter
                  (fun f => decide (f ≠ AlsaFormat.UNKNOWN))).find?
                  (fun v => decide (dev v ≠ -EINVAL)) := by
          rcases hpk with hpk | hpk
          · simp [List.filter, hfmt, hpk, List.find?, ha]
          · by_cases hp : PackAlsaPcmFormat fmt = AlsaFormat.UNKNOWN
            · simp [List.filter, hfmt, hp, List.find?, ha]
            · simp [List.filter, hfmt, hp, List.find?, ha, hpk]
        rw [hfirst]
        rcases AlsaTryFormatOrPacked_outcome dev (ByteSwapAlsaPcmFormat cfg fmt) params with
          ⟨hc, hr2⟩ | ⟨hc, hp2, hd, hr2⟩ | ⟨hn2, -, -⟩
        · refine ⟨ByteSwapAlsaPcmFormat cfg fmt, ?_, hc, ?_⟩
          · simp [List.filter, hs, List.find?, hc, hne.symm]
          · simp [hr2, (d5 hs).1, (d5 hs).2]
        · refine ⟨PackAlsaPcmFormat (ByteSwapAlsaPcmFormat cfg fmt), ?_, hd, ?_⟩
          · simp [List.filter, hs, hp2, List.find?, hc, hd, hne.symm]
          · have e1 : PackAlsaPcmFormat (ByteSwapAlsaPcmFormat cfg fmt)
                ≠ PackAlsaPcmFormat fmt := fun e => (d4 (e ▸ hp2)).2 e.symm
            simp [hr2, e1]
        · exact absurd h0 hn2
    · simp only [he, ne_eq, not_false_eq_true, if_true] at h0
      exact absurd h0 hn

/-- C23: `AlsaTryFormatOrByteSwap` returns the answer of the device to the first of the
variants native, native packed, byte-swapped, byte-swapped packed (those that exist, in
this order) that is not `-EINVAL`.  With a device that answers 0 or `-EINVAL` only, it
returns 0 iff the device accepts one of them.  When it returns 0, the accepted variant
is the first one not answered with `-EINVAL`; `pack24` is set exactly if that variant is
a packed one (for a format that is not itself packed: exactly if it is a packed 3-byte
format) and `reverse_endian` exactly if it is a byte-swapped one, and no other parameter
changes. -/
theorem AlsaTryFormatOrByteSwap_tries_variants (cfg : AlsaBuild) (dev : AlsaFormat → Int)
    (fmt : AlsaFormat) (params : Params) (hfmt : fmt ≠ AlsaFormat.UNKNOWN) :
    (AlsaTryFormatOrByteSwap cfg dev fmt params).1
      = firstResult dev
          ([fmt, PackAlsaPcmFormat fmt, ByteSwapAlsaPcmFormat cfg fmt,
            PackAlsaPcmFormat (ByteSwapAlsaPcmFormat cfg fmt)].filter
              (fun f => f ≠ AlsaFormat.UNKNOWN)) ∧
    ((∀ v, dev v = 0 ∨ dev v = -EINVAL) →
      ((AlsaTryFormatOrByteSwap cfg dev fmt params).1 = 0 ↔
        ∃ v ∈ byteSwapVariants cfg fmt, dev v = 0) ∧
      ((AlsaTryFormatOrByteSwap cfg dev fmt params).1 = 0 ∨
        (AlsaTryFormatOrByteSwap cfg dev fmt params).1 = -EINVAL)) ∧
    ((AlsaTryFormatOrByteSwap cfg dev fmt params).1 = 0 →
      ∃ v, answeredVariant cfg dev fmt = some v ∧ dev v = 0 ∧
        (AlsaTryFormatOrByteSwap cfg dev fmt params).2
          = { params with
              pack24 := decide (v = PackAlsaPcmFormat fmt ∨
                v = PackAlsaPcmFormat (ByteSwapAlsaPcmFormat cfg fmt)),
              reverse_endian := decide (v = ByteSwapAlsaPcmFormat cfg fmt ∨
                v = PackAlsaPcmFormat (ByteSwapAlsaPcmFormat cfg fmt)) } ∧
        (fmt.isPacked24 = false →
          (AlsaTryFormatOrByteSwap cfg dev fmt params).2.pack24 = v.isPacked24)) := by
  have hres := AlsaTryFormatOrByteSwap_result cfg dev fmt params hfmt
  refine ⟨hres, fun hdev => ?_, fun h0 => ?_⟩
  · rw [hres]
    exact firstResult_eq_zero dev hdev (byteSwapVariants cfg fmt)
  · obtain ⟨v, hv, hd, hpar⟩ := AlsaTryFormatOrByteSwap_accepted cfg dev fmt params hfmt h0
    refine ⟨v, hv, hd, hpar, fun hnp => ?_⟩
    obtain ⟨d1, d2, d3, d4, d5⟩ := alsa_variants_distinct cfg fmt hfmt
    have hpk := alsa_variants_packed cfg fmt
    have hpk2 := alsa_variants_packed cfg (ByteSwapAlsaPcmFormat cfg fmt)
    have hmem : v ∈ byteSwapVariants cfg fmt := List.mem_of_find?_eq_some hv
    unfold byteSwapVariants at hmem
    rw [List.mem_filter] at hmem
    obtain ⟨hin, hknown⟩ := hmem
    have hknown : v ≠ AlsaFormat.UNKNOWN := by simpa using hknown
    rw [hpar]
    simp only [List.mem_cons, List.mem_singleton, List.not_mem_nil, or_false] at hin
    rcases hin with rfl | rfl | rfl | rfl
    · simp [d1, d3, hnp]
    · simp [hpk.1 hknown]
    · rw [hpk.2, hnp]
      simp [(d5 hknown).1, (d5 hknown).2]
    · simp [hpk2.1 hknown]

/-- C23 on a concrete device: asked for S24 on a little-endian host, a device that takes
only S24_3BE rejects the native, the packed and the byte-swapped variant and accepts the
byte-swapped packed one; both flags end up set although both were clear. -/
theorem AlsaTryFormatOrByteSwap_tries_variants_witness :
    AlsaTryFormatOrByteSwap {} samplePackedDevice AlsaFormat.S24_LE {}
        = (0, { pack24 := true, reverse_endian := true }) ∧
      (AlsaTryFormatOrByteSwap {} samplePackedDevice AlsaFormat.S24_LE {}).1
        = firstResult samplePackedDevice
            [AlsaFormat.S24_LE, AlsaFormat.S24_3LE, AlsaFormat.S24_BE, AlsaFormat.S24_3BE] :=
  ⟨by decide,
    (AlsaTryFormatOrByteSwap_tries_variants {} samplePackedDevice AlsaFormat.S24_LE {}
      (by decide)).1⟩

/-! ## The event loop: the timeout passed to the wait -/

/-- C25: `ExportTimeoutMS` gives -1 for every negative duration and, for a duration that
is not negative and whose whole milliseconds fit an `int`, the number of whole
milliseconds, rounded toward zero; so the result is -1 exactly for the negative
durations, is not negative otherwise, and is 0 for a positive duration of less than a
millisecond. -/
theorem ExportTimeoutMS_whole_milliseconds (ticks_per_ms : Nat) (timeout : Int)
    (hfit : timeout.toNat / ticks_per_ms < 2 ^ 31) :
    (timeout < 0 → ExportTimeoutMS ticks_per_ms timeout = -1) ∧
    (0 ≤ timeout →
      ExportTimeoutMS ticks_per_ms timeout = ((timeout.toNat / ticks_per_ms : Nat) : Int) ∧
      0 ≤ ExportTimeoutMS ticks_per_ms timeout) ∧
    (ExportTimeoutMS ticks_per_ms timeout = -1 ↔ timeout < 0) ∧
    (0 < timeout → timeout < ticks_per_ms → ExportTimeoutMS ticks_per_ms timeout = 0) := by
  have hpos : 0 ≤ timeout →
      ExportTimeoutMS ticks_per_ms timeout = ((timeout.toNat / ticks_per_ms : Nat) : Int) := by
    intro h
    have hdiv : (timeout / (ticks_per_ms : Int)).toNat = timeout.toNat / ticks_per_ms := by
      obtain ⟨n, rfl⟩ := Int.eq_ofNat_of_zero_le h
      simp only [Int.toNat_ofNat]
      rw [← Int.ofNat_ediv, Int.toNat_ofNat]
    have hmod : timeout.toNat / ticks_per_ms % 2 ^ 32 = timeout.toNat / ticks_per_ms :=
      Nat.mod_eq_of_lt (by omega)
    unfold ExportTimeoutMS unsigned_to_int
    rw [if_pos h, hdiv, hmod, if_pos hfit]
  have hneg : timeout < 0 → ExportTimeoutMS ticks_per_ms timeout = -1 := by
    intro h
    unfold ExportTimeoutMS
    rw [if_neg (by omega)]
  refine ⟨hneg, fun h => ⟨hpos h, ?_⟩, ⟨fun h => ?_, hneg⟩, fun h0 hlt => ?_⟩
  · rw [hpos h]; exact Int.ofNat_nonneg _
  · by_contra hn
    rw [hpos (by omega)] at h
    have := Int.ofNat_nonneg (timeout.toNat / ticks_per_ms)
    omega
  · rw [hpos (by omega)]
    have : timeout.toNat < ticks_per_ms := by omega
    rw [Nat.div_eq_of_lt this]
    rfl

/-- C25 on concrete durations, with a clock of 1000000 ticks in a millisecond: 2.5 ms
give 2, 999999 ticks give 0. -/
theorem ExportTimeoutMS_whole_milliseconds_witness :
    ExportTimeoutMS 1000000 2500000 = 2 ∧ ExportTimeoutMS 1000000 999999 = 0 ∧
      ExportTimeoutMS 1000000 (-7) = -1 :=
  ⟨((ExportTimeoutMS_whole_milliseconds 1000000 2500000 (by decide)).2.1
      (by decide)).1.trans (by decide),
    (ExportTimeoutMS_whole_milliseconds 1000000 999999 (by decide)).2.2.2
      (by decide) (by decide),
    (ExportTimeoutMS_whole_milliseconds 1000000 (-7) (by decide)).1 (by decide)⟩

/-! ## The event loop: the deferred queue -/

/-- A call made on the loop keeps the invariant of the deferred queue. -/
theorem EventLoop.apply_deferredInvariant (s : EventLoop) (a : LoopAction)
    (h : deferredInvariant s) : deferredInvariant (s.apply a) := by
  obtain ⟨hmem, hnd⟩ := h
  cases a with
  | AddDeferred d =>
    simp only [EventLoop.apply]
    split
    · exact ⟨hmem, hnd⟩
    · rename_i hd
      have hd2 : d ∉ s.deferred := fun e => hd ((hmem d).2 e)
      refine ⟨fun x => ?_, ?_⟩
      · simp only [List.mem_cons, List.mem_append, List.mem_singleton, hmem x, List.not_mem_nil,
          or_false]
        exact or_comm
      · exact List.Nodup.append hnd (List.nodup_singleton d)
          (by simpa using hd2)
  | RemoveDeferred d =>
    simp only [EventLoop.apply]
    split
    · refine ⟨fun x => ?_, hnd.erase d⟩
      simp only [List.mem_filter, decide_eq_true_eq, ne_eq, hnd.mem_erase_iff, hmem x]
      exact and_comm
    · exact ⟨hmem, hnd⟩
  | Break =>
    simp only [EventLoop.apply]
    split <;> exact ⟨hmem, hnd⟩
  | AddIdle _ => exact ⟨hmem, hnd⟩
  | RemoveIdle _ => exact ⟨hmem, hnd⟩
  | AddTimer _ _ => exact ⟨hmem, hnd⟩
  | CancelTimer _ => exact ⟨hmem, hnd⟩
  | RemoveFD _ _ => exact ⟨hmem, hnd⟩
  | Abandon _ _ => exact ⟨hmem, hnd⟩

/-- The calls of a callback keep the invariant of the deferred queue. -/
theorem EventLoop.applyAll_deferredInvariant (actions : List LoopAction) :
    ∀ s : EventLoop, deferredInvariant s → deferredInvariant (s.applyAll actions) := by
  induction actions with
  | nil => intro s h; exact h
  | cons a rest ih =>
    intro s h
    exact ih (s.apply a) (EventLoop.apply_deferredInvariant s a h)

/-- Taking the front monitor off the queue and clearing its flag keeps the invariant and
leaves the monitor neither queued nor pending. -/
theorem EventLoop.beforeRunDeferred_deferredInvariant (s : EventLoop) (d : Nat)
    (rest : List Nat) (hq : s.deferred = d :: rest) (h : deferredInvariant s) :
    deferredInvariant (s.beforeRunDeferred d rest) ∧
    d ∉ (s.beforeRunDeferred d rest).deferred ∧ d ∉ (s.beforeRunDeferred d rest).pending := by
  obtain ⟨hmem, hnd⟩ := h
  rw [hq] at hnd
  have hd : d ∉ rest := (List.nodup_cons.1 hnd).1
  refine ⟨⟨fun x => ?_, (List.nodup_cons.1 hnd).2⟩, hd, ?_⟩
  · simp only [EventLoop.beforeRunDeferred, List.mem_filter, decide_eq_true_eq, ne_eq, hmem x,
      hq, List.mem_cons]
    constructor
    · rintro ⟨h1 | h1, h2⟩
      · exact absurd h1 h2
      · exact h1
    · intro h1
      exact ⟨Or.inr h1, fun e => hd (e ▸ h1)⟩
  · simp [EventLoop.beforeRunDeferred]

/-- A round of the loop of `HandleDeferred` keeps the invariant of the deferred queue. -/
theorem EventLoop.handleDeferredStep_deferredInvariant (env : LoopEnv) (s : EventLoop)
    (next : RunPoint) (h : deferredInvariant s) :
    deferredInvariant (s.handleDeferredStep env next) := by
  unfold EventLoop.handleDeferredStep
  split
  · exact h
  · rename_i d rest hq
    split
    · exact h
    · exact EventLoop.applyAll_deferredInvariant _ _
        (EventLoop.beforeRunDeferred_deferredInvariant s d rest hq h).1

/-- Moving on to another place of `Run`, with other fields than the queue and the flags
changed, keeps the invariant of the deferred queue. -/
theorem deferredInvariant_of_eq (s t : EventLoop) (h : deferredInvariant s)
    (hp : t.pending = s.pending) (hd : t.deferred = s.deferred) : deferredInvariant t := by
  unfold deferredInvariant at h ⊢
  rw [hp, hd]
  exact h

/-- Moving on to another place keeps the invariant of the deferred queue. -/
theorem deferredInvariant_goto (s : EventLoop) (p : RunPoint) (h : deferredInvariant s) :
    deferredInvariant { s with point := p } :=
  deferredInvariant_of_eq s _ h rfl rfl

/-- One step of `Run` keeps the invariant of the deferred queue. -/
theorem EventLoop.step_deferredInvariant (env : LoopEnv) (s : EventLoop)
    (h : deferredInvariant s) : deferredInvariant (s.step env) := by
  have h0 : ∀ t : EventLoop, t.pending = s.pending → t.deferred = s.deferred →
      deferredInvariant t := fun t hp hd => deferredInvariant_of_eq s t h hp hd
  unfold EventLoop.step
  split
  · exact h0 _ rfl rfl
  · split
    · exact h0 _ rfl rfl
    · dsimp only
      split
      · exact h0 _ rfl rfl
      · split
        · exact deferredInvariant_goto _ _
            (EventLoop.applyAll_deferredInvariant _ _ (h0 _ rfl rfl))
        · exact EventLoop.applyAll_deferredInvariant _ _ (h0 _ rfl rfl)
  · split
    · exact h0 _ rfl rfl
    · dsimp only
      split
      · exact deferredInvariant_goto _ _
          (EventLoop.applyAll_deferredInvariant _ _ (h0 _ rfl rfl))
      · exact EventLoop.applyAll_deferredInvariant _ _ (h0 _ rfl rfl)
  · exact EventLoop.handleDeferredStep_deferredInvariant env s _ h
  · dsimp only
    split <;> exact h0 _ rfl rfl
  · exact h0 _ rfl rfl
  · split
    · exact h0 _ rfl rfl
    · split
      · split
        · exact h0 _ rfl rfl
        · dsimp only
          split
          · exact h0 _ rfl rfl
          · exact deferredInvariant_goto _ _
              (EventLoop.applyAll_deferredInvariant _ _ (h0 _ rfl rfl))
      · exact h0 _ rfl rfl
  · exact EventLoop.handleDeferredStep_deferredInvariant env s _ h
  · exact h0 _ rfl rfl
  · split <;> exact h0 _ rfl rfl
  · exact h

/-- Every step of `Run` keeps the invariant of the deferred queue. -/
theorem EventLoop.run_deferredInvariant (env : LoopEnv) (n : Nat) :
    ∀ s : EventLoop, deferredInvariant s → deferredInvariant (EventLoop.run env n s) := by
  induction n with
  | zero => intro s h; exact h
  | succ n ih =>
    intro s h
    exact ih (s.step env) (EventLoop.step_deferredInvariant env s h)

/-- C28: a deferred monitor is pending iff it is in the deferred queue, and it is in the
queue at most once.  On a loop for which this holds, it holds again after `AddDeferred`
(which changes nothing when the monitor is pending, and otherwise queues it at the back),
after `RemoveDeferred` (which leaves the monitor neither pending nor queued), and in
`HandleDeferred` both when the mutex is unlocked for `RunDeferred` (the monitor is then
neither pending nor queued) and after the calls made by `RunDeferred`; hence after any
sequence of calls and at every step of `Run`. -/
theorem deferred_pending_iff_queued (env : LoopEnv) (s : EventLoop)
    (h : deferredInvariant s) :
    (∀ d, deferredInvariant (s.apply (LoopAction.AddDeferred d)) ∧
      (d ∈ s.pending → s.apply (LoopAction.AddDeferred d)
        = { s with trace := LoopEvent.action (LoopAction.AddDeferred d) :: s.trace }) ∧
      (d ∉ s.pending →
        (s.apply (LoopAction.AddDeferred d)).deferred = s.deferred ++ [d] ∧
        d ∈ (s.apply (LoopAction.AddDeferred d)).pending)) ∧
    (∀ d, deferredInvariant (s.apply (LoopAction.RemoveDeferred d)) ∧
      d ∉ (s.apply (LoopAction.RemoveDeferred d)).pending ∧
      d ∉ (s.apply (LoopAction.RemoveDeferred d)).deferred) ∧
    (∀ d rest next, s.deferred = d :: rest → s.quit = false →
      deferredInvariant (s.beforeRunDeferred d rest) ∧
      d ∉ (s.beforeRunDeferred d rest).pending ∧
      d ∉ (s.beforeRunDeferred d rest).deferred ∧
      s.handleDeferredStep env next
        = (s.beforeRunDeferred d rest).applyAll
            (env.deferredRun (s.beforeRunDeferred d rest) d) ∧
      deferredInvariant (s.handleDeferredStep env next)) ∧
    (∀ actions, deferredInvariant (s.applyAll actions)) ∧
    (∀ n, deferredInvariant (EventLoop.run env n s)) := by
  refine ⟨fun d => ⟨EventLoop.apply_deferredInvariant s _ h, fun hd => ?_, fun hd => ?_⟩,
    fun d => ?_, fun d rest next hq hquit => ?_,
    fun actions => EventLoop.applyAll_deferredInvariant actions s h,
    fun n => EventLoop.run_deferredInvariant env n s h⟩
  · simp [EventLoop.apply, hd]
  · simp [EventLoop.apply, hd]
  · have hinv := EventLoop.apply_deferredInvariant s (LoopAction.RemoveDeferred d) h
    have hp : d ∉ (s.apply (LoopAction.RemoveDeferred d)).pending := by
      simp only [EventLoop.apply]
      split
      · simp
      · rename_i hd; exact hd
    exact ⟨hinv, hp, fun e => hp ((hinv.1 d).2 e)⟩
  · have hb := EventLoop.beforeRunDeferred_deferredInvariant s d rest hq h
    refine ⟨hb.1, hb.2.2, hb.2.1, ?_, EventLoop.handleDeferredStep_deferredInvariant env s next h⟩
    unfold EventLoop.handleDeferredStep
    rw [hq]
    simp [hquit, EventLoop.beforeRunDeferred]

/-- C28 on a concrete run: with the monitors 7 and 8 queued, `HandleDeferred` runs
monitor 7, which queues itself and monitor 9 and takes monitor 8 off; the queue is then
7, 9 with exactly these two pending, and the invariant holds at every later step. -/
theorem deferred_pending_iff_queued_witness :
    deferredInvariant sampleDeferredLoop ∧
      (sampleDeferredLoop.step sampleDeferredEnv).deferred = [7, 9] ∧
      (sampleDeferredLoop.step sampleDeferredEnv).pending = [9, 7] ∧
      ∀ n, deferredInvariant (EventLoop.run sampleDeferredEnv n sampleDeferredLoop) :=
  ⟨by simp [deferredInvariant, sampleDeferredLoop, or_comm], by decide, by decide,
    (deferred_pending_iff_queued sampleDeferredEnv sampleDeferredLoop
      (by simp [deferredInvariant, sampleDeferredLoop, or_comm])).2.2.2.2⟩

/-! ## ALSA hardware parameters: retries -/

/-- The first part of a pass leaves the retry counter and the count of calls alone. -/
theorem AlsaSetupHw_format_retry (be : Bool) (cfg : AlsaBuild) (d : HwAnswers) (v : HwVars) :
    (∀ e v1, AlsaSetupHw_format be cfg d v = Except.error (e, v1) → v.sameRetry v1) ∧
    (∀ v1, AlsaSetupHw_format be cfg d v = Except.ok v1 → v.sameRetry v1) := by
  constructor
  · intro e v1 h
    unfold AlsaSetupHw_format at h
    dsimp only at h
    split_ifs at h
    all_goals (cases h; exact ⟨rfl, rfl⟩)
  · intro v1 h
    unfold AlsaSetupHw_format at h
    dsimp only at h
    split_ifs at h
    all_goals (cases h; exact ⟨rfl, rfl⟩)

/-- The second part of a pass leaves the retry counter and the count of calls alone. -/
theorem AlsaSetupHw_rate_retry (d : HwAnswers) (v : HwVars) :
    (∀ e v1, AlsaSetupHw_rate d v = Except.error (e, v1) → v.sameRetry v1) ∧
    (∀ v1 rate, AlsaSetupHw_rate d v = Except.ok (v1, rate) → v.sameRetry v1) := by
  constructor
  · intro e v1 h
    unfold AlsaSetupHw_rate at h
    dsimp only at h
    split_ifs at h
    all_goals (cases h; exact ⟨rfl, rfl⟩)
  · intro v1 rate h
    unfold AlsaSetupHw_rate at h
    dsimp only at h
    split_ifs at h
    all_goals (cases h; exact ⟨rfl, rfl⟩)

/-- The buffer time is set with the retry counter and the count of calls left alone. -/
theorem AlsaSetupHw_buffer_time_retry (d : HwAnswers) (v : HwVars) :
    (∀ e v1, AlsaSetupHw_buffer_time d v = Except.error (e, v1) → v.sameRetry v1) ∧
    (∀ v1, AlsaSetupHw_buffer_time d v = Except.ok v1 → v.sameRetry v1) := by
  constructor
  · intro e v1 h
    unfold AlsaSetupHw_buffer_time at h
    dsimp only at h
    split_ifs at h
    all_goals (cases h; exact ⟨rfl, rfl⟩)
  · intro v1 h
    unfold AlsaSetupHw_buffer_time at h
    dsimp only at h
    split_ifs at h
    all_goals (cases h; exact ⟨rfl, rfl⟩)

/-- The period time is set with the retry counter and the count of calls left alone. -/
theorem AlsaSetupHw_period_time_retry (d : HwAnswers) (v : HwVars) :
    (∀ e v1, AlsaSetupHw_period_time d v = Except.error (e, v1) → v.sameRetry v1) ∧
    (∀ v1, AlsaSetupHw_period_time d v = Except.ok v1 → v.sameRetry v1) := by
  constructor
  · intro e v1 h
    unfold AlsaSetupHw_period_time at h
    dsimp only at h
    split_ifs at h
    all_goals (cases h; exact ⟨rfl, rfl⟩)
  · intro v1 h
    unfold AlsaSetupHw_period_time at h
    dsimp only at h
    split_ifs at h
    all_goals (cases h; exact ⟨rfl, rfl⟩)

/-- The settings made before `snd_pcm_hw_params` leave the retry counter and the count of
calls alone, whether they end with an exception or not. -/
theorem AlsaSetupHw_settings_retry (be : Bool) (cfg : AlsaBuild) (d : HwAnswers)
    (v : HwVars) :
    (∀ e v1, AlsaSetupHw_settings be cfg d v = Except.error (e, v1) → v.sameRetry v1) ∧
    (∀ v1 rate, AlsaSetupHw_settings be cfg d v = Except.ok (v1, rate) → v.sameRetry v1) := by
  have trans : ∀ a b c : HwVars, a.sameRetry b → b.sameRetry c → a.sameRetry c :=
    fun a b c h1 h2 => ⟨h2.1.trans h1.1, h2.2.trans h1.2⟩
  unfold AlsaSetupHw_settings
  cases hf : AlsaSetupHw_format be cfg d v with
  | error e1 =>
    refine ⟨fun e v1 h => ?_, fun v1 rate h => by cases h⟩
    cases h
    exact (AlsaSetupHw_format_retry be cfg d v).1 _ _ hf
  | ok v1 =>
    have h1 := (AlsaSetupHw_format_retry be cfg d v).2 _ hf
    dsimp only
    cases hr : AlsaSetupHw_rate d v1 with
    | error e2 =>
      refine ⟨fun e v2 h => ?_, fun v2 rate h => by cases h⟩
      cases h
      exact trans _ _ _ h1 ((AlsaSetupHw_rate_retry d v1).1 _ _ hr)
    | ok p =>
      obtain ⟨v2, rate2⟩ := p
      have h2 := trans _ _ _ h1 ((AlsaSetupHw_rate_retry d v1).2 _ _ hr)
      dsimp only
      cases hb : AlsaSetupHw_buffer_time d v2 with
      | error e3 =>
        refine ⟨fun e v3 h => ?_, fun v3 rate h => by cases h⟩
        cases h
        exact trans _ _ _ h2 ((AlsaSetupHw_buffer_time_retry d v2).1 _ _ hb)
      | ok v3 =>
        have h3 := trans _ _ _ h2 ((AlsaSetupHw_buffer_time_retry d v2).2 _ hb)
        dsimp only
        cases hp : AlsaSetupHw_period_time d v3 with
        | error e4 =>
          refine ⟨fun e v4 h => ?_, fun v4 rate h => by cases h⟩
          cases h
          exact trans _ _ _ h3 ((AlsaSetupHw_period_time_retry d v3).1 _ _ hp)
        | ok v4 =>
          refine ⟨fun e v5 h => (nomatch h), fun v5 rate h => ?_⟩
          cases h
          exact trans _ _ _ h3 ((AlsaSetupHw_period_time_retry d v3).2 _ hp)

/-- Decrementing an `unsigned` that is not 0 gives at most one less. -/
theorem decrement_unsigned_le (n : Nat) (h : 1 ≤ n) : decrement_unsigned n ≤ n - 1 := by
  unfold decrement_unsigned
  have e : n + 2 ^ 32 - 1 = (n - 1) + 2 ^ 32 := by omega
  rw [e, Nat.add_mod_right]
  exact Nat.mod_le _ _

/-- The end of a pass: the jump back to `configure_hw` is taken exactly when the result is
`-EPIPE`, the decremented retry counter is not 0 and the period time is not 0; the
period time is then halved.  In every case one more call of `snd_pcm_hw_params` is
counted. -/
theorem AlsaSetupHw_commit_cases (err : Int) (v : HwVars) (rate : Nat) :
    (err = -EPIPE ∧ 0 < decrement_unsigned v.retry ∧ 0 < v.period_time_ro ∧
      AlsaSetupHw_commit err v rate = HwPass.configure_hw
        { v with hw_params_calls := v.hw_params_calls + 1,
                 retry := decrement_unsigned v.retry,
                 period_time_ro := v.period_time_ro / 2 }) ∨
    (err = -EPIPE ∧ (decrement_unsigned v.retry = 0 ∨ v.period_time_ro = 0) ∧
      AlsaSetupHw_commit err v rate = HwPass.thrown (AlsaError.hw_params err)
        { v with hw_params_calls := v.hw_params_calls + 1,
                 retry := decrement_unsigned v.retry }) ∨
    (err ≠ -EPIPE ∧ err < 0 ∧
      AlsaSetupHw_commit err v rate = HwPass.thrown (AlsaError.hw_params err)
        { v with hw_params_calls := v.hw_params_calls + 1 }) ∨
    (0 ≤ err ∧
      AlsaSetupHw_commit err v rate = HwPass.returned
        { v with hw_params_calls := v.hw_params_calls + 1 } rate) := by
  have hneg : (-EPIPE : Int) < 0 := by decide
  unfold AlsaSetupHw_commit
  dsimp only
  by_cases he : err = -EPIPE
  · by_cases hgo : 0 < decrement_unsigned v.retry ∧ 0 < v.period_time_ro
    · left
      exact ⟨he, hgo.1, hgo.2, by rw [if_pos he, if_pos hgo]⟩
    · right; left
      refine ⟨he, ?_, ?_⟩
      · by_cases hz : decrement_unsigned v.retry = 0
        · exact Or.inl hz
        · exact Or.inr (by
            by_contra hp
            exact hgo ⟨Nat.pos_of_ne_zero hz, Nat.pos_of_ne_zero hp⟩)
      · rw [if_pos he, if_neg hgo, if_pos (by rw [he]; exact hneg)]
  · by_cases hlt : err < 0
    · right; right; left
      exact ⟨he, hlt, by rw [if_neg he, if_pos hlt]⟩
    · right; right; right
      exact ⟨by omega, by rw [if_neg he, if_neg hlt]⟩

/-- One pass counts at most one call of `snd_pcm_hw_params`; when it jumps back to
`configure_hw`, the call was made and answered `-EPIPE`, and the retry counter has gone
down by one without reaching 0. -/
theorem AlsaSetupHw_pass_bound (be : Bool) (cfg : AlsaBuild) (d : HwAnswers) (v : HwVars) :
    (AlsaSetupHw_pass be cfg d v).vars.hw_params_calls ≤ v.hw_params_calls + 1 ∧
    ∀ v1, AlsaSetupHw_pass be cfg d v = HwPass.configure_hw v1 →
      d.hw_params = -EPIPE ∧ v1.retry = decrement_unsigned v.retry ∧ 0 < v1.retry ∧
      v1.hw_params_calls = v.hw_params_calls + 1 := by
  unfold AlsaSetupHw_pass
  cases hs : AlsaSetupHw_settings be cfg d v with
  | error e =>
    obtain ⟨e1, v1⟩ := e
    have h := (AlsaSetupHw_settings_retry be cfg d v).1 _ _ hs
    refine ⟨?_, fun v2 h2 => (nomatch h2)⟩
    show v1.hw_params_calls ≤ _
    rw [h.2]
    exact Nat.le_succ _
  | ok p =>
    obtain ⟨v1, rate⟩ := p
    have h := (AlsaSetupHw_settings_retry be cfg d v).2 _ _ hs
    dsimp only
    rcases AlsaSetupHw_commit_cases d.hw_params v1 rate with
      ⟨he, hr, -, heq⟩ | ⟨-, -, heq⟩ | ⟨-, -, heq⟩ | ⟨-, heq⟩
    · rw [heq]
      refine ⟨?_, fun v2 h2 => ?_⟩
      · show v1.hw_params_calls + 1 ≤ _
        rw [h.2]
      · cases h2
        exact ⟨he, by rw [← h.1], hr, by rw [← h.2]⟩
    all_goals
      rw [heq]
      refine ⟨?_, fun v2 h2 => (nomatch h2)⟩
      show v1.hw_params_calls + 1 ≤ _
      rw [h.2]

/-- With room for as many passes as there are retries left, `AlsaSetupHw` comes to an
end, by a return or an exception, after at most that many calls of
`snd_pcm_hw_params`. -/
theorem AlsaSetupHw_from_terminates (be : Bool) (cfg : AlsaBuild) (dev : Nat → HwAnswers) :
    ∀ (fuel pass : Nat) (v : HwVars), 1 ≤ v.retry → v.retry ≤ fuel →
      ∃ r, AlsaSetupHw_from be cfg dev fuel pass v = some r ∧
        (∀ v1, r ≠ HwPass.configure_hw v1) ∧
        r.vars.hw_params_calls ≤ v.hw_params_calls + v.retry := by
  intro fuel
  induction fuel with
  | zero => intro pass v h1 h2; omega
  | succ fuel ih =>
    intro pass v h1 h2
    have hb := AlsaSetupHw_pass_bound be cfg (dev pass) v
    unfold AlsaSetupHw_from
    cases hp : AlsaSetupHw_pass be cfg (dev pass) v with
    | thrown e v1 =>
      rw [hp] at hb
      exact ⟨_, rfl, fun v2 h => (nomatch h), le_trans hb.1 (by omega)⟩
    | returned v1 rate =>
      rw [hp] at hb
      exact ⟨_, rfl, fun v2 h => (nomatch h), le_trans hb.1 (by omega)⟩
    | configure_hw v1 =>
      obtain ⟨-, hr, hpos, hc⟩ := hb.2 v1 hp
      have hle : v1.retry ≤ v.retry - 1 := by
        rw [hr]
        exact decrement_unsigned_le v.retry h1
      obtain ⟨r, hres, hnot, hcalls⟩ := ih (pass + 1) v1 hpos (by omega)
      exact ⟨r, hres, hnot, by omega⟩

/-- More room for passes does not change how `AlsaSetupHw` ends. -/
theorem AlsaSetupHw_from_mono (be : Bool) (cfg : AlsaBuild) (dev : Nat → HwAnswers) :
    ∀ (fuel pass : Nat) (v : HwVars) (r : HwPass),
      AlsaSetupHw_from be cfg dev fuel pass v = some r →
      ∀ more, AlsaSetupHw_from be cfg dev (fuel + more) pass v = some r := by
  intro fuel
  induction fuel with
  | zero => intro pass v r h; exact nomatch h
  | succ fuel ih =>
    intro pass v r h more
    have hf : fuel + 1 + more = (fuel + more) + 1 := by omega
    rw [hf]
    unfold AlsaSetupHw_from at h ⊢
    cases hp : AlsaSetupHw_pass be cfg (dev pass) v with
    | thrown e v1 => rw [hp] at h; exact h
    | returned v1 rate => rw [hp] at h; exact h
    | configure_hw v1 =>
      rw [hp] at h
      exact ih (pass + 1) v1 r h more

/-- C29: `AlsaSetupHw` comes to an end for every sequence of answers of the device, by a
return or an exception, after at most `MPD_ALSA_RETRY_NR` = 5 calls of
`snd_pcm_hw_params`, and more room for passes changes nothing.  At the end of a pass the
call is counted; a `-EPIPE` takes one off the retry counter; the pass is started again,
with the period time halved, exactly when the result is `-EPIPE` and neither the retry
counter nor the period time is 0, and otherwise a `-EPIPE` is thrown. -/
theorem AlsaSetupHw_terminates (be : Bool) (cfg : AlsaBuild) (dev : Nat → HwAnswers)
    (buffer_time period_time : Nat) (audio_format : AudioFormat) (params : Params) :
    MPD_ALSA_RETRY_NR = 5 ∧
    (∃ r, AlsaSetupHw be cfg dev buffer_time period_time audio_format params = some r ∧
      (∀ v, r ≠ HwPass.configure_hw v) ∧
      r.vars.hw_params_calls ≤ MPD_ALSA_RETRY_NR ∧
      ∀ more, AlsaSetupHw_from be cfg dev (MPD_ALSA_RETRY_NR + more) 0
        { buffer_time := buffer_time, period_time := period_time,
          audio_format := audio_format, params := params,
          period_time_ro := period_time } = some r) ∧
    (∀ (d : HwAnswers) (v v1 : HwVars),
      AlsaSetupHw_pass be cfg d v = HwPass.configure_hw v1 → d.hw_params = -EPIPE) ∧
    (∀ (err : Int) (v : HwVars) (rate : Nat),
      (AlsaSetupHw_commit err v rate).vars.hw_params_calls = v.hw_params_calls + 1 ∧
      (err = -EPIPE →
        (AlsaSetupHw_commit err v rate).vars.retry = decrement_unsigned v.retry) ∧
      (err = -EPIPE → 0 < decrement_unsigned v.retry → 0 < v.period_time_ro →
        AlsaSetupHw_commit err v rate = HwPass.configure_hw
          { v with hw_params_calls := v.hw_params_calls + 1,
                   retry := decrement_unsigned v.retry,
                   period_time_ro := v.period_time_ro / 2 }) ∧
      (err = -EPIPE → (decrement_unsigned v.retry = 0 ∨ v.period_time_ro = 0) →
        AlsaSetupHw_commit err v rate = HwPass.thrown (AlsaError.hw_params err)
          { v with hw_params_calls := v.hw_params_calls + 1,
                   retry := decrement_unsigned v.retry }) ∧
      (err ≠ -EPIPE → ∀ v1, AlsaSetupHw_commit err v rate ≠ HwPass.configure_hw v1)) := by
  refine ⟨rfl, ?_, fun d v v1 h => (AlsaSetupHw_pass_bound be cfg d v).2 v1 h |>.1, ?_⟩
  · obtain ⟨r, hres, hnot, hcalls⟩ := AlsaSetupHw_from_terminates be cfg dev
      MPD_ALSA_RETRY_NR 0
      { buffer_time := buffer_time, period_time := period_time,
        audio_format := audio_format, params := params,
        period_time_ro := period_time } (by show 1 ≤ MPD_ALSA_RETRY_NR; decide) (le_refl _)
    refine ⟨r, hres, hnot, ?_, fun more => AlsaSetupHw_from_mono be cfg dev _ _ _ r hres more⟩
    simpa using hcalls
  · intro err v rate
    rcases AlsaSetupHw_commit_cases err v rate with
      ⟨he, hr, hp, heq⟩ | ⟨he, hz, heq⟩ | ⟨hne, hlt, heq⟩ | ⟨hnn, heq⟩
    · rw [heq]
      exact ⟨rfl, fun _ => rfl, fun _ _ _ => rfl, fun _ hz => by omega,
        fun hne => absurd he hne⟩
    · rw [heq]
      exact ⟨rfl, fun _ => rfl, fun _ h1 h2 => by omega, fun _ _ => rfl,
        fun hne => absurd he hne⟩
    · rw [heq]
      exact ⟨rfl, fun he => absurd he hne, fun he => absurd he hne, fun he => absurd he hne,
        fun _ v1 h => (nomatch h)⟩
    · have hne : err ≠ -EPIPE := by
        intro he
        rw [he] at hnn
        exact absurd hnn (by decide)
      rw [heq]
      exact ⟨rfl, fun he => absurd he hne, fun he => absurd he hne, fun he => absurd he hne,
        fun _ v1 h => (nomatch h)⟩

/-- C29 on a concrete device: when `snd_pcm_hw_params` answers `-EPIPE` every time, the
period time goes from the default 125000 through 62500, 31250 and 15625 to 7812, and the
fifth `-EPIPE` is thrown. -/
theorem AlsaSetupHw_retries_example :
    AlsaSetupHw false {} sampleBrokenPipeDevice 500000 0
        { sample_rate := 44100, format := SampleFormat.S16, channels := 2 } {}
      = some (HwPass.thrown (AlsaError.hw_params (-EPIPE))
          { buffer_time := 500000, period_time := 7812,
            audio_format := { sample_rate := 44100, format := SampleFormat.S16, channels := 2 },
            params := {}, retry := 0, period_time_ro := 7812, hw_params_calls := 5 }) := by
  decide

/-! ## ALSA hardware parameters: the sample rate -/

/-- Without overflow, `CalcOutputSampleRate` undoes `CalcInputSampleRate`. -/
theorem CalcOutputSampleRate_CalcInputSampleRate (p : Params) (x : Nat)
    (h : x * p.rateDivisor < 2 ^ 32) :
    p.CalcOutputSampleRate (p.CalcInputSampleRate x) = x := by
  obtain ⟨a, u16, u32, dop, s8, p24, re⟩ := p
  cases u16 <;> cases u32 <;> cases dop <;>
    simp only [Params.CalcOutputSampleRate, Params.CalcInputSampleRate, Params.rateDivisor,
      if_true, if_false, Bool.false_eq_true, Nat.mul_one, Nat.one_mul] at h ⊢ <;>
    omega

/-- The sample rate part of a pass leaves an audio format whose output sample rate is the
rate the device was configured with, provided the rate computed back from a nearby rate
does not overflow; the parameters are not changed. -/
theorem AlsaSetupHw_rate_configured (d : HwAnswers) (v v1 : HwVars) (rate : Nat)
    (h : AlsaSetupHw_rate d v = Except.ok (v1, rate)) :
    v1.params = v.params ∧
    rate = (d.set_rate_near (v.params.CalcOutputSampleRate v.audio_format.sample_rate)).2
      % 2 ^ 32 ∧
    v1.audio_format.sample_rate
      = (if rate = v.params.CalcOutputSampleRate v.audio_format.sample_rate
          then v.audio_format.sample_rate else v.params.CalcInputSampleRate rate) ∧
    (rate * v1.params.rateDivisor < 2 ^ 32 →
      v1.params.CalcOutputSampleRate v1.audio_format.sample_rate = rate) := by
  unfold AlsaSetupHw_rate at h
  dsimp only at h
  split_ifs at h with h1 h2 h3
  · cases h
    refine ⟨rfl, rfl, ?_, fun hno => ?_⟩
    · rw [if_neg h3]
    · exact CalcOutputSampleRate_CalcInputSampleRate _ _ hno
  · cases h
    have h3' := not_not.1 h3
    refine ⟨rfl, rfl, ?_, fun _ => h3'.symm⟩
    rw [if_pos h3']

/-- The buffer and period time parts and the end of a pass leave the audio format and the
export parameters as they are, and a pass that returns reports the sample rate it was
given. -/
theorem AlsaSetupHw_times_keep_format (d : HwAnswers) (v : HwVars) :
    (∀ v1, AlsaSetupHw_buffer_time d v = Except.ok v1 →
      v1.audio_format = v.audio_format ∧ v1.params = v.params) ∧
    (∀ v1, AlsaSetupHw_period_time d v = Except.ok v1 →
      v1.audio_format = v.audio_format ∧ v1.params = v.params) ∧
    (∀ err rate v1 rate1, AlsaSetupHw_commit err v rate = HwPass.returned v1 rate1 →
      v1.audio_format = v.audio_format ∧ v1.params = v.params ∧ rate1 = rate) := by
  refine ⟨fun v1 h => ?_, fun v1 h => ?_, fun err rate v1 rate1 h => ?_⟩
  · unfold AlsaSetupHw_buffer_time at h
    dsimp only at h
    split_ifs at h
    all_goals (cases h; exact ⟨rfl, rfl⟩)
  · unfold AlsaSetupHw_period_time at h
    dsimp only at h
    split_ifs at h
    all_goals (cases h; exact ⟨rfl, rfl⟩)
  · rcases AlsaSetupHw_commit_cases err v rate with
      ⟨-, -, -, heq⟩ | ⟨-, -, heq⟩ | ⟨-, -, heq⟩ | ⟨-, heq⟩
    · rw [heq] at h
      exact nomatch h
    · rw [heq] at h
      exact nomatch h
    · rw [heq] at h
      exact nomatch h
    · rw [heq] at h
      obtain ⟨hv, hr⟩ := HwPass.returned.inj h
      subst hv
      exact ⟨rfl, rfl, hr.symm⟩

/-- A pass that ends with the return has configured the device, in its sample rate part,
with the rate it reports, and leaves the audio format and parameters of that part. -/
theorem AlsaSetupHw_pass_returned (be : Bool) (cfg : AlsaBuild) (d : HwAnswers)
    (v v1 : HwVars) (rate : Nat)
    (h : AlsaSetupHw_pass be cfg d v = HwPass.returned v1 rate) :
    ∃ v0 v2, AlsaSetupHw_format be cfg d v = Except.ok v0 ∧
      AlsaSetupHw_rate d v0 = Except.ok (v2, rate) ∧
      v1.audio_format = v2.audio_format ∧ v1.params = v2.params := by
  unfold AlsaSetupHw_pass AlsaSetupHw_settings at h
  cases hf : AlsaSetupHw_format be cfg d v with
  | error e => rw [hf] at h; exact nomatch h
  | ok v0 =>
    rw [hf] at h
    dsimp only at h
    cases hr : AlsaSetupHw_rate d v0 with
    | error e => rw [hr] at h; exact nomatch h
    | ok p =>
      obtain ⟨v2, rate2⟩ := p
      rw [hr] at h
      dsimp only at h
      cases hb : AlsaSetupHw_buffer_time d v2 with
      | error e => rw [hb] at h; exact nomatch h
      | ok v3 =>
        rw [hb] at h
        dsimp only at h
        cases hp : AlsaSetupHw_period_time d v3 with
        | error e => rw [hp] at h; exact nomatch h
        | ok v4 =>
          rw [hp] at h
          dsimp only at h
          have k1 := (AlsaSetupHw_times_keep_format d v2).1 v3 hb
          have k2 := (AlsaSetupHw_times_keep_format d v3).2.1 v4 hp
          have k3 := (AlsaSetupHw_times_keep_format d v4).2.2 d.hw_params rate2 v1 rate h
          have hrate : rate = rate2 := k3.2.2
          subst hrate
          refine ⟨v0, v2, rfl, hr, ?_, ?_⟩
          · exact k3.1.trans (k2.1.trans k1.1)
          · exact k3.2.1.trans (k2.2.trans k1.2)

/-- When `AlsaSetupHw` returns, some pass has returned. -/
theorem AlsaSetupHw_from_returned (be : Bool) (cfg : AlsaBuild) (dev : Nat → HwAnswers) :
    ∀ (fuel pass : Nat) (v v1 : HwVars) (rate : Nat),
      AlsaSetupHw_from be cfg dev fuel pass v = some (HwPass.returned v1 rate) →
      ∃ last v0, AlsaSetupHw_pass be cfg (dev last) v0 = HwPass.returned v1 rate := by
  intro fuel
  induction fuel with
  | zero => intro pass v v1 rate h; exact nomatch h
  | succ fuel ih =>
    intro pass v v1 rate h
    unfold AlsaSetupHw_from at h
    cases hp : AlsaSetupHw_pass be cfg (dev pass) v with
    | thrown e v2 => rw [hp] at h; exact nomatch h
    | returned v2 rate2 =>
      rw [hp] at h
      cases h
      exact ⟨pass, v, hp⟩
    | configure_hw v2 =>
      rw [hp] at h
      exact ih (pass + 1) v2 v1 rate h

/-- C26: after `AlsaSetupHw` has returned, `params.CalcOutputSampleRate` of the sample
rate left in `audio_format` is the sample rate the device was configured with in the last
pass, provided computing the input rate back from it has not overflowed 32 bits.  In that
pass `audio_format.sample_rate` was left alone when the device took the requested rate
and set to `CalcInputSampleRate` of the configured rate otherwise. -/
theorem AlsaSetupHw_configured_sample_rate (be : Bool) (cfg : AlsaBuild)
    (dev : Nat → HwAnswers) (buffer_time period_time : Nat) (audio_format : AudioFormat)
    (params : Params) (v : HwVars) (rate : Nat)
    (h : AlsaSetupHw be cfg dev buffer_time period_time audio_format params
      = some (HwPass.returned v rate))
    (hno : rate * v.params.rateDivisor < 2 ^ 32) :
    v.params.CalcOutputSampleRate v.audio_format.sample_rate = rate ∧
    ∃ (last : Nat) (v0 : HwVars), v0.params = v.params ∧
      rate = ((dev last).set_rate_near
        (v0.params.CalcOutputSampleRate v0.audio_format.sample_rate)).2 % 2 ^ 32 ∧
      v.audio_format.sample_rate
        = (if rate = v0.params.CalcOutputSampleRate v0.audio_format.sample_rate
            then v0.audio_format.sample_rate else v0.params.CalcInputSampleRate rate) := by
  obtain ⟨last, vs, hpass⟩ := AlsaSetupHw_from_returned be cfg dev _ _ _ v rate h
  obtain ⟨v0, v2, -, hr, haf, hpar⟩ := AlsaSetupHw_pass_returned be cfg (dev last) vs v rate hpass
  obtain ⟨hp2, hrate, hsr, hcalc⟩ := AlsaSetupHw_rate_configured (dev last) v0 v2 rate hr
  refine ⟨?_, last, v0, ?_, hrate, ?_⟩
  · rw [haf, hpar]
    exact hcalc (by rw [← hpar]; exact hno)
  · rw [hpar, hp2]
  · rw [haf, hsr]

/-- C26 on a concrete device: a DoP stream of 352800 Hz is asked for at 176400 Hz; the
device configures 48000 Hz and `snd_pcm_hw_params` succeeds in the third pass;
`audio_format.sample_rate` is then 96000, whose output rate is 48000. -/
theorem AlsaSetupHw_configured_sample_rate_witness :
    AlsaSetupHw false {} sampleNearRateDevice 500000 0
        { sample_rate := 352800, format := SampleFormat.S24_P32, channels := 2 }
        { dop := true }
      = some (HwPass.returned sampleNearRateVars 48000) ∧
      sampleNearRateVars.audio_format.sample_rate = 96000 ∧
      Params.CalcOutputSampleRate { dop := true } 96000 = 48000 :=
  ⟨by decide, rfl,
    (AlsaSetupHw_configured_sample_rate false {} sampleNearRateDevice 500000 0
      { sample_rate := 352800, format := SampleFormat.S24_P32, channels := 2 }
      { dop := true } sampleNearRateVars 48000 (by decide) (by decide)).1⟩

/-! ## ALSA: DSD over PCM needs the format it asked for -/

/-- The method `Setup` always comes to an end. -/
theorem AlsaOutput.Setup_isSome (lp64 be : Bool) (cfg : AlsaBuild) (d : SetupAnswers)
    (ao : AlsaOutput) (audio_format : AudioFormat) (params : Params) :
    ∃ r, ao.Setup lp64 be cfg d audio_format params = some r := by
  obtain ⟨p, hp, hnot, -⟩ := AlsaSetupHw_from_terminates be cfg d.hw MPD_ALSA_RETRY_NR 0
    { buffer_time := ao.buffer_time, period_time := ao.period_time,
      audio_format := audio_format, params := params, period_time_ro := ao.period_time }
    (by show 1 ≤ MPD_ALSA_RETRY_NR; decide) (le_refl _)
  have hp2 : AlsaSetupHw be cfg d.hw ao.buffer_time ao.period_time audio_format params
      = some p := hp
  unfold AlsaOutput.Setup
  rw [hp2]
  cases p with
  | thrown e v => exact ⟨_, rfl⟩
  | returned v rate => exact ⟨_, rfl⟩
  | configure_hw v => exact absurd rfl (hnot v)

/-- What `SetupDop` makes of a result of `Setup` that is not an exception: with the
format S32 turned back into S24_P32, the format must be the one asked for. -/
theorem AlsaOutput.SetupDop_of_Setup (lp64 be : Bool) (cfg : AlsaBuild) (d : SetupAnswers)
    (ao : AlsaOutput) (audio_format : AudioFormat) (params : Params) (r0 : SetupResult)
    (h0 : ao.Setup lp64 be cfg d { audio_format with format := SampleFormat.S24_P32 } params
      = some r0) :
    (r0.error.isSome = true → ao.SetupDop lp64 be cfg d audio_format params = some r0) ∧
    (r0.error = none →
      ∃ r, ao.SetupDop lp64 be cfg d audio_format params = some r ∧
        r.params = { r0.params with
          shift8 := decide (r0.audio_format.format = SampleFormat.S32) } ∧
        (r.error = none ∨ r.error = some AlsaError.dop) ∧
        (r.error = none ↔
          r0.audio_format.sample_rate = audio_format.sample_rate ∧
          r0.audio_format.channels = audio_format.channels ∧
          (r0.audio_format.format = SampleFormat.S24_P32 ∨
            r0.audio_format.format = SampleFormat.S32))) := by
  constructor
  · intro he
    unfold AlsaOutput.SetupDop
    dsimp only
    rw [h0]
    dsimp only
    rw [if_pos he]
  · intro he
    have hns : ¬ r0.error.isSome = true := by rw [he]; simp
    obtain ⟨err0, out0, af0, par0⟩ := r0
    obtain ⟨rate0, fmt0, ch0⟩ := af0
    obtain ⟨rate, fmt, ch⟩ := audio_format
    dsimp only at he hns ⊢
    subst he
    unfold AlsaOutput.SetupDop
    dsimp only
    rw [h0]
    dsimp only
    rw [if_neg hns]
    by_cases hs : fmt0 = SampleFormat.S32
    · subst hs
      rw [if_pos rfl]
      by_cases hsame : rate0 = rate ∧ ch0 = ch
      · obtain ⟨h1, h2⟩ := hsame
        subst h1; subst h2
        rw [if_neg (by simp)]
        exact ⟨_, rfl, rfl, Or.inl rfl, by simp⟩
      · have hc : AudioFormat.mk rate0 SampleFormat.S24_P32 ch0
            ≠ AudioFormat.mk rate SampleFormat.S24_P32 ch := by
          intro e
          injection e with e1 e2 e3
          exact hsame ⟨e1, e3⟩
        rw [if_pos hc]
        refine ⟨_, rfl, rfl, Or.inr rfl, ?_⟩
        constructor
        · intro e; exact nomatch e
        · rintro ⟨e1, e2, -⟩
          exact absurd ⟨e1, e2⟩ hsame
    · rw [if_neg hs]
      by_cases hsame : rate0 = rate ∧ fmt0 = SampleFormat.S24_P32 ∧ ch0 = ch
      · obtain ⟨h1, h2, h3⟩ := hsame
        subst h1; subst h2; subst h3
        rw [if_neg (by simp)]
        exact ⟨_, rfl, rfl, Or.inl rfl, by simp⟩
      · have hc : AudioFormat.mk rate0 fmt0 ch0
            ≠ AudioFormat.mk rate SampleFormat.S24_P32 ch := by
          intro e
          injection e with e1 e2 e3
          exact hsame ⟨e1, e2, e3⟩
        rw [if_pos hc]
        refine ⟨_, rfl, rfl, Or.inr rfl, ?_⟩
        constructor
        · intro e; exact nomatch e
        · rintro ⟨e1, e2, e3 | e3⟩
          · exact absurd ⟨e1, e3, e2⟩ hsame
          · exact absurd e3 hs

/-- C21: `SetupDop` calls `Setup` with the format S24_P32 at the sample rate and channel
count of the DSD stream, and always comes to an end.  An exception of `Setup` is passed
on.  When `Setup` returns, `params.shift8` is set exactly if the negotiated format is
S32, and `SetupDop` returns normally iff the negotiated audio format has the sample rate
and channel count asked for and the format S24_P32 or S32; in every other case it throws
"Failed to configure DSD-over-PCM". -/
theorem SetupDop_requires_requested_format (lp64 be : Bool) (cfg : AlsaBuild)
    (d : SetupAnswers) (ao : AlsaOutput) (audio_format : AudioFormat) (params : Params) :
    ∃ r0, ao.Setup lp64 be cfg d { audio_format with format := SampleFormat.S24_P32 } params
        = some r0 ∧
      (r0.error.isSome = true → ao.SetupDop lp64 be cfg d audio_format params = some r0) ∧
      (r0.error = none →
        ∃ r, ao.SetupDop lp64 be cfg d audio_format params = some r ∧
          r.params = { r0.params with
            shift8 := decide (r0.audio_format.format = SampleFormat.S32) } ∧
          (r.error = none ∨ r.error = some AlsaError.dop) ∧
          (r.error = none ↔
            r0.audio_format.sample_rate = audio_format.sample_rate ∧
            r0.audio_format.channels = audio_format.channels ∧
            (r0.audio_format.format = SampleFormat.S24_P32 ∨
              r0.audio_format.format = SampleFormat.S32))) := by
  obtain ⟨r0, h0⟩ := AlsaOutput.Setup_isSome lp64 be cfg d ao
    { audio_format with format := SampleFormat.S24_P32 } params
  exact ⟨r0, h0, AlsaOutput.SetupDop_of_Setup lp64 be cfg d ao audio_format params r0 h0⟩

/-- C21 on concrete devices, for a DSD stereo stream with DoP: a device that takes 32
bit samples only at the rate asked for lets `SetupDop` return with `shift8` set; one that
configures 48000 Hz instead makes it throw. -/
theorem SetupDop_example :
    ((AlsaOutput.SetupDop true false {} sampleSetupAnswers {} sampleDsdFormat
        { dop := true }).map fun r => (r.error, r.params.shift8, r.audio_format))
      = some (none, true,
          { sample_rate := 2822400, format := SampleFormat.S24_P32, channels := 2 }) ∧
    ((AlsaOutput.SetupDop true false {} sampleResamplingAnswers {} sampleDsdFormat
        { dop := true }).map fun r => (r.error, r.params.shift8, r.audio_format.sample_rate))
      = some (some AlsaError.dop, true, 96000) := by
  constructor <;> decide

/-! ## ALSA: the position inside the period -/

/-- There is more than one value of `snd_pcm_uframes_t`. -/
theorem uframes_range_gt_one (lp64 : Bool) : 1 < uframes_range lp64 := by
  cases lp64 <;> simp [uframes_range]

/-- The machine difference of a period length and a position inside the period is their
difference. -/
theorem uframes_sub_eq (lp64 : Bool) (a b : Nat) (hb : b < a) (ha : a < uframes_range lp64) :
    uframes_sub lp64 a b = a - b := by
  unfold uframes_sub
  rw [Nat.mod_eq_of_lt ha, Nat.mod_eq_of_lt (lt_trans hb ha)]
  have e : a + uframes_range lp64 - b = (a - b) + uframes_range lp64 := by omega
  rw [e, Nat.add_mod_right]
  exact Nat.mod_eq_of_lt (by omega)

/-- The method `Recover` leaves the period length alone and the position as it is or
at 0. -/
theorem AlsaOutput.Recover_period (d : RecoverAnswers) (ao : AlsaOutput) (err : Int) :
    (ao.Recover d err).2.period_frames = ao.period_frames ∧
    ((ao.Recover d err).2.period_position = ao.period_position ∨
      (ao.Recover d err).2.period_position = 0) := by
  obtain ⟨state, pause, resume, prepare⟩ := d
  cases state
  case SUSPENDED =>
    simp only [AlsaOutput.Recover]
    split_ifs
    · exact ⟨rfl, Or.inl rfl⟩
    · exact ⟨rfl, Or.inr rfl⟩
  case OPEN => exact ⟨rfl, Or.inr rfl⟩
  case SETUP => exact ⟨rfl, Or.inr rfl⟩
  case XRUN => exact ⟨rfl, Or.inr rfl⟩
  all_goals exact ⟨rfl, Or.inl rfl⟩

/-- The method `Recover` keeps the invariant of the period counters. -/
theorem AlsaOutput.Recover_periodInvariant (lp64 : Bool) (d : RecoverAnswers)
    (ao : AlsaOutput) (err : Int) (h : ao.periodInvariant lp64) :
    (ao.Recover d err).2.periodInvariant lp64 := by
  obtain ⟨hf, hp⟩ := AlsaOutput.Recover_period d ao err
  unfold AlsaOutput.periodInvariant at h ⊢
  rw [hf]
  rcases hp with hp | hp
  · rw [hp]; exact h
  · rw [hp]; exact ⟨by omega, h.2⟩

/-- The loop of `PlayRaw` keeps the invariant of the period counters, however it ends. -/
theorem AlsaOutput.PlayRaw_loop_periodInvariant (lp64 : Bool) (out_frame_size n_frames : Nat)
    (answers : List WriteAnswers) :
    ∀ ao : AlsaOutput, ao.periodInvariant lp64 →
      (ao.PlayRaw_loop lp64 out_frame_size n_frames answers).2.periodInvariant lp64 := by
  induction answers with
  | nil => intro ao h; exact h
  | cons d rest ih =>
    intro ao h
    have h1 : AlsaOutput.periodInvariant lp64
        { ao with log := ao.log ++ [AlsaCall.writei n_frames] } := h
    unfold AlsaOutput.PlayRaw_loop
    dsimp only
    split_ifs with hw hr hneg
    · refine ⟨?_, h.2⟩
      show advance_period lp64 ao.period_position ao.period_frames d.frames_written
        < ao.period_frames
      unfold advance_period
      exact Nat.mod_lt _ (by have := h.1; omega)
    · exact AlsaOutput.Recover_periodInvariant lp64 _ _ _ h1
    · exact ih _ (AlsaOutput.Recover_periodInvariant lp64 _ _ _ h1)
    · exact ih _ h1

/-- The loop of `PlayRaw` does not change the period length. -/
theorem AlsaOutput.PlayRaw_loop_period_frames (lp64 : Bool) (out_frame_size n_frames : Nat)
    (answers : List WriteAnswers) :
    ∀ ao : AlsaOutput,
      (ao.PlayRaw_loop lp64 out_frame_size n_frames answers).2.period_frames
        = ao.period_frames := by
  induction answers with
  | nil => intro ao; rfl
  | cons d rest ih =>
    intro ao
    unfold AlsaOutput.PlayRaw_loop
    dsimp only
    split_ifs
    · rfl
    · exact (AlsaOutput.Recover_period d.recover _ d.frames_written).1
    · rw [ih]
      exact (AlsaOutput.Recover_period d.recover _ d.frames_written).1
    · rw [ih]

/-- When the part of `Setup` after `AlsaSetupHw` does not throw, the period length is the
period size reported by the driver, or 1 if that is 0, and the position is 0. -/
theorem AlsaOutput.SetupSizes_period (lp64 : Bool) (d : SetupAnswers) (ao : AlsaOutput)
    (audio_format : AudioFormat) (params : Params)
    (h : (ao.SetupSizes lp64 d audio_format params).error = none) :
    (ao.SetupSizes lp64 d audio_format params).output.period_position = 0 ∧
    (ao.SetupSizes lp64 d audio_format params).output.period_frames
      = (if d.get_period_size.2 % uframes_range lp64 = 0 then 1
          else d.get_period_size.2 % uframes_range lp64) := by
  unfold AlsaOutput.SetupSizes at h ⊢
  dsimp only at h ⊢
  by_cases h1 : d.get_buffer_size.1 < 0
  · rw [if_pos h1] at h
    exact nomatch h
  · rw [if_neg h1] at h ⊢
    by_cases h2 : d.get_period_size.1 < 0
    · rw [if_pos h2] at h
      exact nomatch h
    · rw [if_neg h2] at h ⊢
      cases hsw : AlsaSetupSw d
          (uframes_sub lp64 (d.get_buffer_size.2 % uframes_range lp64)
            (d.get_period_size.2 % uframes_range lp64))
          (d.get_period_size.2 % uframes_range lp64) with
      | some e =>
        rw [hsw] at h
        exact nomatch h
      | none => exact ⟨rfl, rfl⟩

/-- After `Setup` has returned normally, the period length is at least 1 and the position
is inside the period. -/
theorem AlsaOutput.Setup_period (lp64 be : Bool) (cfg : AlsaBuild) (d : SetupAnswers)
    (ao : AlsaOutput) (audio_format : AudioFormat) (params : Params) (r : SetupResult)
    (h : ao.Setup lp64 be cfg d audio_format params = some r) (he : r.error = none) :
    1 ≤ r.output.period_frames ∧ r.output.periodInvariant lp64 ∧
    (d.get_period_size.2 % uframes_range lp64 = 0 → r.output.period_frames = 1) := by
  unfold AlsaOutput.Setup at h
  split at h
  · exact nomatch h
  · exact nomatch h
  · cases h
    exact nomatch he
  · rename_i v rate hhw
    cases h
    obtain ⟨hp, hf⟩ := AlsaOutput.SetupSizes_period lp64 d ao v.audio_format v.params he
    have hlt := Nat.mod_lt d.get_period_size.2
      (lt_trans Nat.zero_lt_one (uframes_range_gt_one lp64))
    have hone := uframes_range_gt_one lp64
    unfold AlsaOutput.periodInvariant
    rw [hp, hf]
    split_ifs with hz
    · exact ⟨le_refl _, ⟨Nat.zero_lt_one, hone⟩, fun _ => rfl⟩
    · exact ⟨Nat.pos_of_ne_zero hz, ⟨Nat.pos_of_ne_zero hz, hlt⟩, fun e => absurd e hz⟩

/-- The method `Drain` keeps the invariant of the period counters; when it pads the
period, the silence written is the rest of the period, computed without wrapping. -/
theorem AlsaOutput.Drain_period (lp64 : Bool) (state : PcmState) (ao : AlsaOutput)
    (h : ao.periodInvariant lp64) :
    (ao.Drain lp64 state).periodInvariant lp64 ∧
    (state = PcmState.RUNNING → 0 < ao.period_position →
      (ao.Drain lp64 state).log = ao.log ++
        [AlsaCall.WriteSilence (ao.period_frames - ao.period_position), AlsaCall.drain]) ∧
    (state = PcmState.RUNNING → ao.period_position = 0 →
      (ao.Drain lp64 state).log = ao.log ++ [AlsaCall.drain]) ∧
    (state ≠ PcmState.RUNNING → ao.Drain lp64 state = ao) := by
  have hsub := uframes_sub_eq lp64 ao.period_frames ao.period_position h.1 h.2
  have hpos : 0 < ao.period_frames := by have := h.1; omega
  refine ⟨?_, fun hs hp => ?_, fun hs hp => ?_, fun hs => ?_⟩
  · unfold AlsaOutput.Drain
    dsimp only
    split_ifs
    · exact h
    · exact ⟨hpos, h.2⟩
    · exact ⟨hpos, h.2⟩
  · unfold AlsaOutput.Drain
    dsimp only
    rw [if_neg (by simp [hs]), if_pos hp, hsub]
    simp
  · unfold AlsaOutput.Drain
    dsimp only
    rw [if_neg (by simp [hs]), if_neg (by omega)]
  · unfold AlsaOutput.Drain
    rw [if_pos hs]

/-- C24: after `Setup` has returned normally, `period_frames` is at least 1, also when the
driver reports a period size of 0, and `period_position` is below `period_frames`.  On an
output for which `period_position < period_frames` holds, it holds again after `PlayRaw`
(whether it returns, throws or goes on looping), `Drain`, `Cancel` and `Recover`, none of
which changes `period_frames`; the divisor of the modulo in `PlayRaw` is therefore never
0, and the silence `Drain` writes is `period_frames - period_position` frames, between 1
and `period_frames`, computed without wrapping. -/
theorem period_position_inside_period (lp64 be : Bool) (cfg : AlsaBuild) (ao : AlsaOutput)
    (h : ao.periodInvariant lp64) :
    (∀ (d : SetupAnswers) (ao0 : AlsaOutput) (audio_format : AudioFormat) (params : Params)
        (r : SetupResult), ao0.Setup lp64 be cfg d audio_format params = some r →
        r.error = none →
        1 ≤ r.output.period_frames ∧ r.output.periodInvariant lp64 ∧
        (d.get_period_size.2 % uframes_range lp64 = 0 → r.output.period_frames = 1)) ∧
    (ao.period_frames ≠ 0) ∧
    (∀ (out_frame_size size : Nat) (answers : List WriteAnswers),
      (ao.PlayRaw lp64 out_frame_size answers size).2.periodInvariant lp64 ∧
      (ao.PlayRaw lp64 out_frame_size answers size).2.period_frames = ao.period_frames) ∧
    (∀ state : PcmState, (ao.Drain lp64 state).periodInvariant lp64 ∧
      (state = PcmState.RUNNING → 0 < ao.period_position →
        (ao.Drain lp64 state).log = ao.log ++
          [AlsaCall.WriteSilence (ao.period_frames - ao.period_position), AlsaCall.drain] ∧
        1 ≤ ao.period_frames - ao.period_position ∧
        ao.period_frames - ao.period_position ≤ ao.period_frames ∧
        uframes_sub lp64 ao.period_frames ao.period_position
          = ao.period_frames - ao.period_position)) ∧
    ao.Cancel.periodInvariant lp64 ∧
    (∀ (d : RecoverAnswers) (err : Int), (ao.Recover d err).2.periodInvariant lp64) := by
  have hpos : 0 < ao.period_frames := by have := h.1; omega
  refine ⟨fun d ao0 af params r hs he =>
      AlsaOutput.Setup_period lp64 be cfg d ao0 af params r hs he,
    by omega, fun ofs size answers => ?_, fun state => ?_, ⟨hpos, h.2⟩,
    fun d err => AlsaOutput.Recover_periodInvariant lp64 d ao err h⟩
  · unfold AlsaOutput.PlayRaw
    split_ifs
    · exact ⟨h, rfl⟩
    · exact ⟨AlsaOutput.PlayRaw_loop_periodInvariant lp64 _ _ answers ao h,
        AlsaOutput.PlayRaw_loop_period_frames lp64 _ _ answers ao⟩
  · have hd := AlsaOutput.Drain_period lp64 state ao h
    refine ⟨hd.1, fun hs hp => ⟨hd.2.1 hs hp, ?_, Nat.sub_le _ _,
      uframes_sub_eq lp64 _ _ h.1 h.2⟩⟩
    have := h.1
    omega

/-- C24 on concrete inputs: a driver that reports a period size of 0 leaves a period of 1
frame; an output 300 frames into a period of 1024 is, after a write of 1000 frames that
is interrupted once and recovers from an underrun once, 1000 frames into the period, and
`Drain` would have padded it with 724 frames. -/
theorem period_position_inside_period_witness :
    samplePlayingOutput.periodInvariant true ∧
      (samplePlayingOutput.PlayRaw true 4 sampleWriteAnswers 4000).2.periodInvariant true ∧
      (samplePlayingOutput.PlayRaw true 4 sampleWriteAnswers 4000).2.period_position = 1000 ∧
      (samplePlayingOutput.Drain true PcmState.RUNNING).log
        = [AlsaCall.WriteSilence 724, AlsaCall.drain] ∧
      ((AlsaOutput.Setup true false {} sampleZeroPeriodAnswers {}
          { sample_rate := 44100, format := SampleFormat.S16, channels := 2 } {}).map
            fun r => (r.error, r.output.period_frames)) = some (none, 1) :=
  ⟨by unfold AlsaOutput.periodInvariant; decide,
    ((period_position_inside_period true false {} samplePlayingOutput
      (by unfold AlsaOutput.periodInvariant; decide)).2.2.1 4 4000 sampleWriteAnswers).1,
    by decide, by decide, by decide⟩

/-! ## The database file: what is saved can be loaded -/

/-- A line without a newline, followed by a newline, is what `ReadLine` returns, and the
rest of the file is what follows. -/
theorem ReadLine_line (line rest : List Char) (h : '\n' ∉ line) :
    ReadLine (line ++ '\n' :: rest) = some (line, rest) := by
  have hne : line ++ '\n' :: rest ≠ [] := by simp
  have hall : ∀ c ∈ line, (decide (c ≠ '\n')) = true := by
    intro c hc
    simp only [ne_eq, decide_not, Bool.not_eq_true', decide_eq_false_iff_not]
    intro e
    exact h (e ▸ hc)
  unfold ReadLine
  rw [if_neg hne]
  have h1 : (line ++ '\n' :: rest).takeWhile (fun c => decide (c ≠ '\n')) = line := by
    rw [List.takeWhile_append_of_pos hall]
    simp [List.takeWhile]
  have h2 : (line ++ '\n' :: rest).dropWhile (fun c => decide (c ≠ '\n')) = '\n' :: rest := by
    rw [List.dropWhile_append_of_pos hall]
    simp [List.dropWhile]
  rw [h1, h2]
  rfl

/-- A string that starts with a prefix has the rest behind it. -/
theorem StringAfterPrefix_append (pre s : List Char) :
    StringAfterPrefix (pre ++ s) pre = some s ∧ StringStartsWith (pre ++ s) pre = true := by
  have hp : pre.isPrefixOf (pre ++ s) = true :=
    List.isPrefixOf_iff_prefix.2 (List.prefix_append pre s)
  unfold StringAfterPrefix StringStartsWith
  rw [if_pos hp, List.drop_left]
  exact ⟨rfl, hp⟩

/-- The value of the character of a decimal digit. -/
theorem digitValue_digitChar (d : Nat) (h : d < 10) :
    digitValue (Nat.digitChar d) = some d := by
  interval_cases d <;> decide

/-- Reading decimal digits most significant first gives the number they are the digits
of. -/
theorem foldl_digits (l : List Nat) (hl : ∀ d ∈ l, d < 10) (acc : Nat) :
    (l.reverse.map Nat.digitChar).foldl (fun a c => a * 10 + (digitValue c).getD 0) acc
      = acc * 10 ^ l.length + Nat.ofDigits 10 l := by
  induction l generalizing acc with
  | nil => simp
  | cons d rest ih =>
    have hd : d < 10 := hl d (List.mem_cons_self _ _)
    have hr : ∀ x ∈ rest, x < 10 := fun x hx => hl x (List.mem_cons_of_mem _ hx)
    simp only [List.reverse_cons, List.map_append, List.map_cons, List.map_nil,
      List.foldl_append, List.foldl_cons, List.foldl_nil, List.length_cons]
    rw [ih hr, digitValue_digitChar d hd, Nat.ofDigits_cons]
    simp only [Option.getD_some]
    ring

/-- What `%lu` prints is read back by `ParseUint64` when it stands at the end of a line. -/
theorem ParseUint64_formatUnsigned (n : Nat) (h : n < 2 ^ 64) :
    ParseUint64 (formatUnsigned n) = n := by
  have hdig : ∀ c ∈ formatUnsigned n, (digitValue c).isSome = true := by
    intro c hc
    unfold formatUnsigned at hc
    split_ifs at hc with h0
    · simp only [List.mem_singleton] at hc
      subst hc
      decide
    · simp only [List.mem_map, List.mem_reverse] at hc
      obtain ⟨d, hd, rfl⟩ := hc
      rw [digitValue_digitChar d (Nat.digits_lt_base (by norm_num) hd)]
      rfl
  have htake : (formatUnsigned n).takeWhile (fun c => (digitValue c).isSome)
      = formatUnsigned n := List.takeWhile_eq_self_iff.2 hdig
  have hval : (formatUnsigned n).foldl (fun a c => a * 10 + (digitValue c).getD 0) 0 = n := by
    unfold formatUnsigned
    split_ifs with h0
    · subst h0; decide
    · rw [foldl_digits _ (fun d hd => Nat.digits_lt_base (by norm_num) hd) 0]
      simp [Nat.ofDigits_digits]
  unfold ParseUint64
  dsimp only
  rw [htake, hval, if_pos h]

/-- More lines allowed do not change what the header loop reads. -/
theorem directory_load_header_mono :
    ∀ (fuel : Nat) (file : List Char) (d : DirInfo)
      (r : Except LoadError (DirInfo × List Char)),
      directory_load_header fuel file d = some r →
      ∀ more, directory_load_header (fuel + more) file d = some r := by
  intro fuel
  induction fuel with
  | zero => intro file d r h; exact nomatch h
  | succ fuel ih =>
    intro file d r h more
    have hf : fuel + 1 + more = (fuel + more) + 1 := by omega
    rw [hf]
    unfold directory_load_header at h ⊢
    cases hr : ReadLine file with
    | none => rw [hr] at h; exact h
    | some p =>
      obtain ⟨line, rest⟩ := p
      rw [hr] at h
      dsimp only at h ⊢
      by_cases hb : StringStartsWith line DIRECTORY_BEGIN = true
      · rw [if_pos hb] at h ⊢
        exact h
      · rw [if_neg hb] at h ⊢
        cases hp : ParseLine d line with
        | none => rw [hp] at h; exact h
        | some d1 =>
          rw [hp] at h
          exact ih rest d1 r h more

/-- More lines allowed do not change what `directory_load` loads. -/
theorem directory_load_mono :
    ∀ (fuel : Nat) (file : List Char) (children : DirectoryList)
      (r : Except LoadError (DirectoryList × List Char)),
      directory_load fuel file children = some r →
      ∀ more, directory_load (fuel + more) file children = some r := by
  intro fuel
  induction fuel with
  | zero => intro file children r h; exact nomatch h
  | succ fuel ih =>
    intro file children r h more
    have hf : fuel + 1 + more = (fuel + more) + 1 := by omega
    rw [hf]
    unfold directory_load at h ⊢
    cases hr : ReadLine file with
    | none => rw [hr] at h; exact h
    | some p =>
      obtain ⟨line, rest⟩ := p
      rw [hr] at h
      dsimp only at h ⊢
      by_cases he : StringStartsWith line DIRECTORY_END = true
      · rw [if_pos he] at h ⊢
        exact h
      · rw [if_neg he] at h ⊢
        cases hn : StringAfterPrefix line DIRECTORY_DIR with
        | none => rw [hn] at h; exact h
        | some name =>
          rw [hn] at h
          dsimp only at h ⊢
          unfold directory_load_subdir at h ⊢
          by_cases hdup : children.FindChild name = true
          · rw [if_pos hdup] at h ⊢
            exact h
          · rw [if_neg hdup] at h ⊢
            cases hh : directory_load_header fuel rest { name := name } with
            | none => rw [hh] at h; exact nomatch h
            | some rh =>
              rw [hh] at h
              rw [directory_load_header_mono fuel rest _ rh hh more]
              cases rh with
              | error e => exact h
              | ok q =>
                obtain ⟨d1, rest1⟩ := q
                dsimp only at h ⊢
                cases hl : directory_load fuel rest1 DirectoryList.nil with
                | none => rw [hl] at h; exact nomatch h
                | some rl =>
                  rw [hl] at h
                  rw [ih rest1 _ rl hl more]
                  cases rl with
                  | error e => exact h
                  | ok q2 =>
                    obtain ⟨ch, rest2⟩ := q2
                    dsimp only at h ⊢
                    exact ih rest2 _ r h more

/-- The constant texts of the file format contain no newline. -/
theorem directory_constants_no_newline : '\n' ∉ DIRECTORY_DIR ∧ '\n' ∉ DIRECTORY_TYPE ∧ '\n' ∉ DIRECTORY_MTIME ∧
    '\n' ∉ DIRECTORY_BEGIN ∧ '\n' ∉ DIRECTORY_END ∧ '\n' ∉ "archive".toList ∧
    '\n' ∉ "container".toList := by decide

/-- Nothing appended to a list of children leaves the list. -/
theorem DirectoryList.append_nil (l : DirectoryList) : l.append DirectoryList.nil = l := by
  induction l with
  | nil => rfl
  | cons d c n _ ih => simp only [DirectoryList.append, ih]

/-- Adding a child at the end and then more children is appending them all. -/
theorem DirectoryList.append_cons (acc : DirectoryList) (d : DirInfo)
    (c n : DirectoryList) :
    acc.append (DirectoryList.cons d c n) = (acc.push_back d c).append n := by
  induction acc with
  | nil => rfl
  | cons d0 c0 n0 _ ih => simp only [DirectoryList.append, DirectoryList.push_back, ih]

/-- The names after a child was added at the end. -/
theorem DirectoryList.names_push_back (acc : DirectoryList) (d : DirInfo)
    (c : DirectoryList) : (acc.push_back d c).names = acc.names ++ [d.name] := by
  induction acc with
  | nil => rfl
  | cons d0 c0 n0 _ ih => simp only [DirectoryList.push_back, DirectoryList.names, ih,
      List.cons_append]

/-- The path of a child has no newline when neither the path of its parent nor its name
has one. -/
theorem childPath_no_newline (path name : List Char) (hp : '\n' ∉ path) (hn : '\n' ∉ name) :
    '\n' ∉ childPath path name := by
  unfold childPath
  split_ifs
  · exact hn
  · simp only [List.mem_append, List.mem_cons, not_or]
    exact ⟨hp, by decide, hn⟩

/-- What `%lu` prints has no newline. -/
theorem formatUnsigned_no_newline (n : Nat) : '\n' ∉ formatUnsigned n := by
  intro h
  unfold formatUnsigned at h
  split_ifs at h
  · simp only [List.mem_singleton] at h
    exact absurd h (by decide)
  · simp only [List.mem_map, List.mem_reverse] at h
    obtain ⟨d, hd, he⟩ := h
    have hlt : d < 10 := Nat.digits_lt_base (by norm_num) hd
    have hv := digitValue_digitChar d hlt
    rw [he, show digitValue '\n' = none from by decide] at hv
    exact nomatch hv

/-- The lines written before the children of a directory that is not a mount point are
read back by the loop of `directory_load_subdir`, which stops behind the `begin:` line
with the mtime and the type of the directory. -/
theorem directory_load_header_saved (d : DirInfo) (p rest : List Char)
    (hm : d.mtime < 2 ^ 64) (hp : '\n' ∉ p) :
    directory_load_header 3
      ((match DeviceToTypeString d.device with
          | some type => DIRECTORY_TYPE ++ type ++ ['\n']
          | none => []) ++
        (if d.mtime ≠ 0 then DIRECTORY_MTIME ++ formatUnsigned d.mtime ++ ['\n'] else []) ++
        (DIRECTORY_BEGIN ++ p ++ ['\n']) ++ rest)
      { name := d.name }
      = some (Except.ok (d.loaded, rest)) := by
  have hnl := directory_constants_no_newline
  -- the `begin:` line
  have hbegin : ∀ (d0 : DirInfo) (n : Nat),
      directory_load_header (n + 1) ((DIRECTORY_BEGIN ++ p ++ ['\n']) ++ rest) d0
        = some (Except.ok (d0, rest)) := by
    intro d0 n
    have hl : '\n' ∉ DIRECTORY_BEGIN ++ p := by
      simp only [List.mem_append, not_or]; exact ⟨hnl.2.2.2.1, hp⟩
    have hr := ReadLine_line (DIRECTORY_BEGIN ++ p) rest hl
    have e : (DIRECTORY_BEGIN ++ p ++ ['\n']) ++ rest = (DIRECTORY_BEGIN ++ p) ++ '\n' :: rest := by
      simp
    unfold directory_load_header
    rw [e, hr]
    dsimp only
    rw [if_pos (StringAfterPrefix_append DIRECTORY_BEGIN p).2]
  -- the `mtime:` line, if there is one
  have hmtime : ∀ (d0 : DirInfo) (n : Nat), d0.mtime = 0 →
      directory_load_header (n + 2)
        ((if d.mtime ≠ 0 then DIRECTORY_MTIME ++ formatUnsigned d.mtime ++ ['\n'] else []) ++
          (DIRECTORY_BEGIN ++ p ++ ['\n']) ++ rest) d0
        = some (Except.ok ({ d0 with mtime := d.mtime }, rest)) := by
    intro d0 n h0
    by_cases hz : d.mtime = 0
    · rw [if_neg (by simpa using hz)]
      have hd : ({ d0 with mtime := d.mtime } : DirInfo) = d0 := by
        cases d0; simp only [DirInfo.mk.injEq, true_and, and_true]; rw [hz]; exact h0.symm
      rw [hd]
      simpa using hbegin d0 (n + 1)
    · rw [if_pos hz]
      have hl : '\n' ∉ DIRECTORY_MTIME ++ formatUnsigned d.mtime := by
        simp only [List.mem_append, not_or]
        exact ⟨hnl.2.2.1, formatUnsigned_no_newline _⟩
      have hr := ReadLine_line (DIRECTORY_MTIME ++ formatUnsigned d.mtime)
        ((DIRECTORY_BEGIN ++ p ++ ['\n']) ++ rest) hl
      have e : (DIRECTORY_MTIME ++ formatUnsigned d.mtime ++ ['\n']) ++
          (DIRECTORY_BEGIN ++ p ++ ['\n']) ++ rest
          = (DIRECTORY_MTIME ++ formatUnsigned d.mtime) ++
            '\n' :: ((DIRECTORY_BEGIN ++ p ++ ['\n']) ++ rest) := by simp
      have hnb : StringStartsWith (DIRECTORY_MTIME ++ formatUnsigned d.mtime) DIRECTORY_BEGIN
          = false := rfl
      have hparse : ParseLine d0 (DIRECTORY_MTIME ++ formatUnsigned d.mtime)
          = some { d0 with mtime := d.mtime } := by
        unfold ParseLine
        rw [(StringAfterPrefix_append DIRECTORY_MTIME (formatUnsigned d.mtime)).1]
        dsimp only
        rw [ParseUint64_formatUnsigned d.mtime hm]
      unfold directory_load_header
      rw [e, hr]
      dsimp only
      rw [hnb]
      simp only [Bool.false_eq_true, if_false, hparse]
      exact hbegin _ n
  -- the `type:` line, if there is one
  unfold DirInfo.loaded
  cases ht : DeviceToTypeString d.device with
  | none =>
    dsimp only
    have := hmtime { name := d.name } 1 rfl
    simpa using this
  | some type =>
    dsimp only
    have hty : '\n' ∉ type := by
      unfold DeviceToTypeString at ht
      split_ifs at ht
      · cases ht; exact hnl.2.2.2.2.2.1
      · cases ht; exact hnl.2.2.2.2.2.2
    have hl : '\n' ∉ DIRECTORY_TYPE ++ type := by
      simp only [List.mem_append, not_or]; exact ⟨hnl.2.1, hty⟩
    have hr := ReadLine_line (DIRECTORY_TYPE ++ type)
      ((if d.mtime ≠ 0 then DIRECTORY_MTIME ++ formatUnsigned d.mtime ++ ['\n'] else []) ++
        (DIRECTORY_BEGIN ++ p ++ ['\n']) ++ rest) hl
    have e : (DIRECTORY_TYPE ++ type ++ ['\n']) ++
        (if d.mtime ≠ 0 then DIRECTORY_MTIME ++ formatUnsigned d.mtime ++ ['\n'] else []) ++
        (DIRECTORY_BEGIN ++ p ++ ['\n']) ++ rest
        = (DIRECTORY_TYPE ++ type) ++ '\n' ::
          ((if d.mtime ≠ 0 then DIRECTORY_MTIME ++ formatUnsigned d.mtime ++ ['\n'] else []) ++
            (DIRECTORY_BEGIN ++ p ++ ['\n']) ++ rest) := by simp
    have hnb : StringStartsWith (DIRECTORY_TYPE ++ type) DIRECTORY_BEGIN = false := rfl
    have hnm : StringAfterPrefix (DIRECTORY_TYPE ++ type) DIRECTORY_MTIME = none := rfl
    have hparse : ParseLine { name := d.name } (DIRECTORY_TYPE ++ type)
        = some { name := d.name, device := ParseTypeString type } := by
      unfold ParseLine
      rw [hnm]
      dsimp only
      rw [(StringAfterPrefix_append DIRECTORY_TYPE type).1]
    unfold directory_load_header
    rw [e, hr]
    dsimp only
    rw [hnb]
    simp only [Bool.false_eq_true, if_false, hparse]
    exact hmtime _ 0 rfl

/-- The type written for a loaded directory is the type written for the saved one. -/
theorem DeviceToTypeString_loaded (d : DirInfo) :
    DeviceToTypeString d.loaded.device = DeviceToTypeString d.device := by
  unfold DirInfo.loaded
  by_cases h1 : d.device = DEVICE_INARCHIVE
  · simp only [DeviceToTypeString, h1, if_true]; decide
  · by_cases h2 : d.device = DEVICE_CONTAINER
    · simp only [DeviceToTypeString, h2]; decide
    · simp only [DeviceToTypeString, h1, h2, if_false]; decide

/-- The rebuilt children have the names, nesting, order, mtimes and types of the saved
ones. -/
theorem DirectoryList.sameTree_loaded (c : DirectoryList) :
    DirectoryList.sameTree c c.loaded := by
  induction c with
  | nil => exact trivial
  | cons d ch nx ih1 ih2 =>
    exact ⟨rfl, rfl, (DeviceToTypeString_loaded d).symm, ih1, ih2⟩

/-- What `directory_save` writes for a list of children, followed by any text, is loaded
by `directory_load` as these children, behind those already there, and the load goes on
with the text that follows. -/
theorem directory_load_saved (c : DirectoryList) :
    ∀ (path : List Char) (acc : DirectoryList) (rest : List Char) (k : Nat)
      (R : Except LoadError (DirectoryList × List Char)),
      c.savable → '\n' ∉ path → (∀ n ∈ c.names, n ∉ acc.names) →
      directory_load k rest (acc.append c.loaded) = some R →
      directory_load (c.loadFuel + k) (directory_save_children path c ++ rest) acc
        = some R := by
  have hnl := directory_constants_no_newline
  induction c with
  | nil =>
    intro path acc rest k R _ _ _ hk
    rw [DirectoryList.loaded, DirectoryList.append_nil] at hk
    simpa [DirectoryList.loadFuel, directory_save_children] using hk
  | cons d ch nx ihc ihn =>
    intro path acc rest k R hs hpath hnames hk
    obtain ⟨hmount, hname, hmtime, hnotin, hsc, hsn⟩ := hs
    have hcp : '\n' ∉ childPath path d.name := childPath_no_newline path d.name hpath hname
    -- the text behind the line that names the child
    have htext : directory_save_children path (DirectoryList.cons d ch nx) ++ rest
        = (DIRECTORY_DIR ++ d.name) ++ '\n' ::
          ((match DeviceToTypeString d.device with
              | some type => DIRECTORY_TYPE ++ type ++ ['\n']
              | none => []) ++
            (if d.mtime ≠ 0 then DIRECTORY_MTIME ++ formatUnsigned d.mtime ++ ['\n'] else []) ++
            (DIRECTORY_BEGIN ++ childPath path d.name ++ ['\n']) ++
            (directory_save_children (childPath path d.name) ch ++
              ((DIRECTORY_END ++ childPath path d.name) ++ '\n' ::
                (directory_save_children path nx ++ rest)))) := by
      simp only [directory_save_children, hmount, Bool.false_eq_true, if_false,
        List.append_assoc, List.cons_append, List.nil_append, List.singleton_append]
    -- the children of the child, up to its `end:` line
    have hend : directory_load 1
        ((DIRECTORY_END ++ childPath path d.name) ++ '\n' ::
          (directory_save_children path nx ++ rest))
        (DirectoryList.nil.append ch.loaded)
        = some (Except.ok (ch.loaded, directory_save_children path nx ++ rest)) := by
      have hl : '\n' ∉ DIRECTORY_END ++ childPath path d.name := by
        simp only [List.mem_append, not_or]; exact ⟨hnl.2.2.2.2.1, hcp⟩
      unfold directory_load
      rw [ReadLine_line _ _ hl]
      dsimp only
      rw [if_pos (StringAfterPrefix_append DIRECTORY_END _).2]
      rfl
    have hchildren := ihc (childPath path d.name) DirectoryList.nil _ 1 _ hsc hcp
      (fun n _ => by simp [DirectoryList.names]) hend
    -- the children behind this one
    have hnext := ihn path (acc.push_back d.loaded ch.loaded) rest k R hsn hpath
      (fun n hn => by
        rw [DirectoryList.names_push_back]
        simp only [List.mem_append, List.mem_singleton, not_or]
        refine ⟨hnames n (by simp [DirectoryList.names, hn]), ?_⟩
        intro e
        exact hnotin (by rw [show d.name = n from e.symm]; exact hn))
      (by
        rw [← DirectoryList.append_cons]
        exact hk)
    -- one round of the loop of `directory_load`
    have hfuel : (DirectoryList.cons d ch nx).loadFuel + k
        = (4 + ch.loadFuel + nx.loadFuel + k) + 1 := by
      simp only [DirectoryList.loadFuel]; omega
    have hl : '\n' ∉ DIRECTORY_DIR ++ d.name := by
      simp only [List.mem_append, not_or]; exact ⟨hnl.1, hname⟩
    have hnotend : StringStartsWith (DIRECTORY_DIR ++ d.name) DIRECTORY_END = false := rfl
    have hfind : acc.FindChild d.name = false := by
      unfold DirectoryList.FindChild
      have := hnames d.name (by simp [DirectoryList.names])
      simpa using this
    have hheader := directory_load_header_mono 3 _ _ _
      (directory_load_header_saved d (childPath path d.name)
        (directory_save_children (childPath path d.name) ch ++
          ((DIRECTORY_END ++ childPath path d.name) ++ '\n' ::
            (directory_save_children path nx ++ rest))) hmtime hcp)
      (1 + ch.loadFuel + nx.loadFuel + k)
    have hchildren2 := directory_load_mono _ _ _ _ hchildren (3 + nx.loadFuel + k)
    have hnext2 := directory_load_mono _ _ _ _ hnext (4 + ch.loadFuel)
    have e1 : 3 + (1 + ch.loadFuel + nx.loadFuel + k) = 4 + ch.loadFuel + nx.loadFuel + k := by
      omega
    have e2 : ch.loadFuel + 1 + (3 + nx.loadFuel + k) = 4 + ch.loadFuel + nx.loadFuel + k := by
      omega
    have e3 : nx.loadFuel + k + (4 + ch.loadFuel) = 4 + ch.loadFuel + nx.loadFuel + k := by
      omega
    rw [e1] at hheader
    rw [e2] at hchildren2
    rw [e3] at hnext2
    rw [hfuel, htext]
    unfold directory_load
    rw [ReadLine_line _ _ hl]
    dsimp only
    rw [hnotend]
    simp only [Bool.false_eq_true, if_false, (StringAfterPrefix_append DIRECTORY_DIR d.name).1]
    unfold directory_load_subdir
    rw [hfind]
    simp only [Bool.false_eq_true, if_false, hheader, hchildren2]
    exact hnext2

/-- C27, with the restrictions the code needs: for a root directory whose tree has no
mount point, no newline in a name, no two children of one directory with the same name
and mtimes that are values of a 64 bit `unsigned long` (and no songs or playlists),
`directory_load` on what `directory_save` wrote for the root does not throw, whatever
number of lines beyond five for each directory it is allowed, and rebuilds the children
with the same names in the same nesting and order, the same mtime for every directory
below the root, and the same archive or container type for every directory below the
root. -/
theorem directory_load_directory_save (root : Directory) (h : root.children.savable) :
    (∀ fuel, root.children.loadFuel + 1 ≤ fuel →
      directory_load fuel (directory_save root) DirectoryList.nil
        = some (Except.ok (root.children.loaded, []))) ∧
    DirectoryList.sameTree root.children root.children.loaded := by
  refine ⟨fun fuel hfuel => ?_, DirectoryList.sameTree_loaded _⟩
  have hk : directory_load 1 [] (DirectoryList.nil.append root.children.loaded)
      = some (Except.ok (root.children.loaded, [])) := rfl
  have hmain := directory_load_saved root.children [] DirectoryList.nil [] 1 _ h
    (by simp) (fun n _ => by simp [DirectoryList.names]) hk
  have hm := directory_load_mono _ _ _ _ hmain (fuel - (root.children.loadFuel + 1))
  have e : root.children.loadFuel + 1 + (fuel - (root.children.loadFuel + 1)) = fuel := by
    omega
  rw [e] at hm
  unfold directory_save
  simpa using hm

/-- C27 on a concrete tree: an archive `a` with mtime 1700000000 and a subdirectory
`x y`, and a directory `b` on device 77, are saved and loaded again; `b` comes back
without a device, everything else as it was. -/
theorem directory_load_directory_save_witness :
    sampleTree.savable ∧
      directory_load 16 (directory_save { children := sampleTree }) DirectoryList.nil
        = some (Except.ok (sampleTree.loaded, [])) ∧
      DirectoryList.sameTree sampleTree sampleTree.loaded :=
  ⟨by simp [sampleTree, DirectoryList.savable, DirectoryList.names],
    (directory_load_directory_save { children := sampleTree }
      (by simp [sampleTree, DirectoryList.savable, DirectoryList.names])).1 16 (by decide),
    (directory_load_directory_save { children := sampleTree }
      (by simp [sampleTree, DirectoryList.savable, DirectoryList.names])).2⟩

/-- The claim of C27 as it is stated fails in three ways.  What is saved for a root does
not depend on the mtime of the root, so the mtime of the root cannot be rebuilt from it.
For a root whose only child is the mount point `m`, only the line `directory: m` is
saved, and `directory_load` throws "Unexpected end of file" on it.  For a root with two
children named `a`, `directory_load` throws "Duplicate subdirectory" on what was saved.
No name in these trees contains a newline. -/
theorem directory_load_directory_save_fails :
    (directory_save { info := { name := [], mtime := 5 } }
        = directory_save { info := { name := [], mtime := 0 } } ∧
      ({ name := [], mtime := 5 } : DirInfo).mtime ≠ ({ name := [], mtime := 0 } : DirInfo).mtime) ∧
    (directory_save { children := sampleMountTree } = "directory: m\n".toList ∧
      ∀ fuel, 2 ≤ fuel →
        directory_load fuel (directory_save { children := sampleMountTree }) DirectoryList.nil
          = some (Except.error LoadError.UnexpectedEndOfFile)) ∧
    (directory_load 16 (directory_save { children := sampleDuplicateTree }) DirectoryList.nil
      = some (Except.error (LoadError.Duplicate "a".toList))) := by
  refine ⟨⟨rfl, by decide⟩, ⟨by decide, fun fuel hfuel => ?_⟩, rfl⟩
  have h2 : directory_load 2 (directory_save { children := sampleMountTree })
      DirectoryList.nil = some (Except.error LoadError.UnexpectedEndOfFile) := rfl
  have hm := directory_load_mono _ _ _ _ h2 (fuel - 2)
  have e : 2 + (fuel - 2) = fuel := by omega
  rw [e] at hm
  exact hm

end Mpd
